import Mathlib

/-!
Verification of the folder-synchronization program in sync_folders.py.

The filesystem is modelled as a finite association list from absolute paths
(lists of name components) to entries; a file entry carries its byte content
and a readability flag (permission).  The content hash computed by
calculate_md5 is modelled as an injective fingerprint of the byte content
(the content itself), since hashlib.md5 is an external primitive and the
program uses the digest only through equality comparison.

Python specifics that matter and are modelled explicitly:
- os.walk is a lazy top-down traversal of the live filesystem that silently
  ignores unlistable directories (onerror is None); it lists a directory at
  visit time and then descends into the subdirectory names it listed, even
  if they have been deleted meanwhile (the descent then finds nothing).
- os.path.relpath(root, root) is "."; the joined paths such as replica/"."
  or source/"./f" resolve through the "." component only when the prefix
  before the dot is a directory (otherwise stat fails and os.path.exists
  is False).
- an uncaught exception (IOError and friends) aborts everything: the state
  field err, once set, freezes all further processing.
-/

namespace SyncSpec

abbrev Name := String

abbrev Path := List Name

/-- A filesystem entry: a regular file with byte content and a readability
flag, or a directory. -/
inductive Entry where
  | file (content : List Nat) (readable : Bool)
  | dir
  deriving DecidableEq, Repr

/-- The filesystem: a finite association list from absolute paths to
entries.  Well-formedness (WFfs) is imposed as a hypothesis where needed. -/
abbrev FS := List (Path × Entry)

/-- One logged state-changing action of sync_folders (the SyncEvent of the
spec); each corresponds to exactly one logging.info call in the code. -/
inductive Event where
  | dirCreated (p : Path)
  | fileCopied (src dst : Path)
  | fileRemoved (p : Path)
  | dirRemoved (p : Path)
  deriving DecidableEq, Repr

/-- An OSError/IOError raised by a filesystem operation, carrying the
offending path. -/
inductive Err where
  | ioError (p : Path)
  deriving DecidableEq, Repr

/-- Execution state threaded through sync_folders: the live filesystem, the
log of emitted events, and the pending uncaught exception (none = no
exception).  Once err is set everything downstream is frozen, matching
exception propagation in code that has no try/except. -/
structure St where
  fs : FS
  events : List Event
  err : Option Err
  deriving DecidableEq, Repr

/-- First-match lookup in the association list. -/
def lookupFS : FS → Path → Option Entry
  | [], _ => none
  | kv :: rest, p => if kv.1 = p then some kv.2 else lookupFS rest p

/-- Is there a directory at this exact path? -/
def isDirAt (fs : FS) (p : Path) : Bool :=
  match lookupFS fs p with
  | some Entry.dir => true
  | _ => false

/-- Is there a regular file at this exact path? -/
def isFileAt (fs : FS) (p : Path) : Bool :=
  match lookupFS fs p with
  | some (Entry.file _ _) => true
  | _ => false

/-- Remove the entry with exactly this key. -/
def eraseKey (fs : FS) (p : Path) : FS :=
  fs.filter (fun kv => decide (kv.1 ≠ p))

/-- Remove the whole subtree rooted at p (p itself and every key having p
as a prefix); the effect of shutil.rmtree. -/
def eraseTree (fs : FS) (p : Path) : FS :=
  fs.filter (fun kv => decide (¬ p.IsPrefix kv.1))

/-- Overwrite or create the entry at key p. -/
def setEntry (fs : FS) (p : Path) (e : Entry) : FS :=
  (p, e) :: eraseKey fs p

/-- If k is a direct child of p, return its final name component. -/
def takeChild (p k : Path) : Option Name :=
  if k.take p.length = p then
    match k.drop p.length with
    | [n] => some n
    | _ => none
  else none

/-- The direct children of directory p, in association-list order (the
os.scandir listing order is OS-defined; here it is the list order). -/
def childrenOf : FS → Path → List (Name × Entry)
  | [], _ => []
  | kv :: rest, p =>
    match takeChild p kv.1 with
    | some n => (n, kv.2) :: childrenOf rest p
    | none => childrenOf rest p

/-- Names of the direct subdirectories of p (the dirnames of os.walk). -/
def subdirNames (fs : FS) (p : Path) : List Name :=
  (childrenOf fs p).filterMap (fun x =>
    match x.2 with
    | Entry.dir => some x.1
    | _ => none)

/-- Names of the regular files directly inside p (the filenames of
os.walk). -/
def fileNamesAt (fs : FS) (p : Path) : List Name :=
  (childrenOf fs p).filterMap (fun x =>
    match x.2 with
    | Entry.file _ _ => some x.1
    | _ => none)

/-- List a directory as os.walk does: some (dirnames, filenames) when p is
a directory, none otherwise (the listing error is silently ignored). -/
def listDir (fs : FS) (p : Path) : Option (List Name × List Name) :=
  if isDirAt fs p then some (subdirNames fs p, fileNamesAt fs p) else none

/-- Resolve the "." components of a path against the live filesystem, as
the kernel does during stat: a "." component requires the prefix resolved
so far to be an existing directory, otherwise resolution fails (ENOTDIR /
ENOENT).  Returns the dot-free key. -/
def resolveFrom (fs : FS) (acc : Path) : List Name → Option Path
  | [] => some acc
  | c :: rest =>
    if c = "." then
      if isDirAt fs acc then resolveFrom fs acc rest else none
    else resolveFrom fs (acc ++ [c]) rest

/-- Resolve a full path (see resolveFrom). -/
def resolve (fs : FS) (p : Path) : Option Path :=
  resolveFrom fs [] p

/-- os.path.exists: the path resolves and an entry is present there. -/
def pyExists (fs : FS) (p : Path) : Bool :=
  match resolve fs p with
  | none => false
  | some q => (lookupFS fs q).isSome

/-- os.path.relpath(dirpath, root) for dirpath at or below root: the list
of components below root, or ["."] for root itself. -/
def relpathDot (dirpath root : Path) : List Name :=
  if dirpath.length ≤ root.length then ["."] else dirpath.drop root.length

/-- calculate_md5 (sync_folders.py lines 27-35): streams the whole file
through hashlib.md5 and returns the digest.  The digest is modelled as an
injective fingerprint of the byte content, namely the content itself; the
streaming 4096-byte chunking is irrelevant to the digest value.  Raises
IOError when the path cannot be opened for reading (missing, unreadable,
or a directory). -/
def calculate_md5 (fs : FS) (p : Path) : Except Err (List Nat) :=
  match resolve fs p with
  | none => Except.error (Err.ioError p)
  | some q =>
    match lookupFS fs q with
    | some (Entry.file c true) => Except.ok c
    | some (Entry.file _ false) => Except.error (Err.ioError q)
    | some Entry.dir => Except.error (Err.ioError q)
    | none => Except.error (Err.ioError q)

/-- Auxiliary recursion of os.makedirs: walk the components, creating every
missing prefix as a directory; an existing file on the way raises
(ENOTDIR / FileExistsError). -/
def makedirsAux (fs : FS) (acc : Path) : List Name → Except Err FS
  | [] => Except.ok fs
  | c :: rest =>
    let acc2 := acc ++ [c]
    match lookupFS fs acc2 with
    | some Entry.dir => makedirsAux fs acc2 rest
    | some (Entry.file _ _) => Except.error (Err.ioError acc2)
    | none => makedirsAux (setEntry fs acc2 Entry.dir) acc2 rest

/-- os.makedirs: creates the directory and any missing ancestors.  A
trailing "." is handled as CPython does (makedirs("r/.") creates r and
returns).  In sync_folders it is only called on paths for which
os.path.exists returned False. -/
def pyMakedirs (fs : FS) (p : Path) : Except Err FS :=
  let q := if p.getLast? = some "." then p.dropLast else p
  makedirsAux fs [] q

/-- shutil.copy2(src, dst): reads the whole source file and writes its
bytes to dst (overwriting an existing file), copying the metadata
(permission bits, hence the readable flag, and timestamps).  Raises
IOError when the source cannot be read, the destination path does not
resolve, the destination is an existing directory, or the destination's
parent is not a directory. -/
def copy2 (fs : FS) (src dst : Path) : Except Err FS :=
  match resolve fs src with
  | none => Except.error (Err.ioError src)
  | some qs =>
    match lookupFS fs qs with
    | some (Entry.file c true) =>
      match resolve fs dst with
      | none => Except.error (Err.ioError dst)
      | some qd =>
        match lookupFS fs qd with
        | some Entry.dir => Except.error (Err.ioError qd)
        | _ =>
          if qd ≠ [] ∧ (qd.length = 1 ∨ isDirAt fs qd.dropLast) then
            Except.ok (setEntry fs qd (Entry.file c true))
          else Except.error (Err.ioError qd)
    | _ => Except.error (Err.ioError qs)

/-- Perform the copy of the forward pass (lines 57-58): shutil.copy2 then
the log line; an exception freezes the state. -/
def doCopy (st : St) (src dst : Path) : St :=
  match copy2 st.fs src dst with
  | Except.ok fs2 => { st with fs := fs2, events := st.events ++ [Event.fileCopied src dst] }
  | Except.error e => { st with err := some e }

/-- Body of the inner file loop of the forward pass (lines 52-58): copy
src_file to replica_file unless the replica file exists and both MD5
digests agree.  The boolean is short-circuiting: when the replica file
does not exist no digest is computed; otherwise the source digest is
computed first, then the replica digest. -/
def processSourceFile (st : St) (dirpath replica_dir : Path) (f : Name) : St :=
  if st.err.isSome then st else
  let src_file := dirpath ++ [f]
  let replica_file := replica_dir ++ [f]
  if pyExists st.fs replica_file then
    match calculate_md5 st.fs src_file with
    | Except.error e => { st with err := some e }
    | Except.ok h1 =>
      match calculate_md5 st.fs replica_file with
      | Except.error e => { st with err := some e }
      | Except.ok h2 =>
        if h1 ≠ h2 then doCopy st src_file replica_file else st
  else
    doCopy st src_file replica_file

/-- Body of the forward pass for one os.walk triple (lines 42-58): create
the replica directory when missing, then process each listed file. -/
def processSourceDir (source replica : Path) (st : St) (dirpath : Path)
    (filenames : List Name) : St :=
  if st.err.isSome then st else
  let rel := relpathDot dirpath source
  let replica_dir := replica ++ rel
  let st2 :=
    if pyExists st.fs replica_dir then st
    else
      match pyMakedirs st.fs replica_dir with
      | Except.ok fs2 => { st with fs := fs2, events := st.events ++ [Event.dirCreated replica_dir] }
      | Except.error e => { st with err := some e }
  filenames.foldl (fun s f => processSourceFile s dirpath replica_dir f) st2

/-- The forward pass (lines 42-58) as a fused lazy walk: visit dirpath in
the live filesystem, run the loop body, then descend into the
subdirectory names listed at visit time.  An unlistable dirpath yields
nothing; a pending exception freezes everything.  Fuel bounds the
recursion depth and is chosen large enough in sync_folders. -/
def walkF (source replica : Path) : Nat → St → Path → St
  | 0, st, _ => st
  | Nat.succ fuel, st, dirpath =>
    if st.err.isSome then st else
    match listDir st.fs dirpath with
    | none => st
    | some (dirs, files) =>
      let st2 := processSourceDir source replica st dirpath files
      dirs.foldl (fun s d => walkF source replica fuel s (dirpath ++ [d])) st2

/-- Body of the inner file loop of the reverse pass (lines 71-77): remove
the replica file when the corresponding source file does not exist. -/
def processReplicaFile (st : St) (dirpath source_dir : Path) (f : Name) : St :=
  if st.err.isSome then st else
  let replica_file := dirpath ++ [f]
  let source_file := source_dir ++ [f]
  if pyExists st.fs source_file then st
  else { st with fs := eraseKey st.fs replica_file,
                 events := st.events ++ [Event.fileRemoved replica_file] }

/-- The reverse pass (lines 61-77) as a fused lazy walk: at each replica
directory, if the corresponding source directory does not exist, remove
the whole subtree with shutil.rmtree, log one removal, and continue (the
walk still descends into the names listed before the removal, finding
nothing); otherwise remove the individual files absent from source, then
descend. -/
def walkR (source replica : Path) : Nat → St → Path → St
  | 0, st, _ => st
  | Nat.succ fuel, st, dirpath =>
    if st.err.isSome then st else
    match listDir st.fs dirpath with
    | none => st
    | some (dirs, files) =>
      let rel := relpathDot dirpath replica
      let source_dir := source ++ rel
      let st2 :=
        if pyExists st.fs source_dir then
          files.foldl (fun s f => processReplicaFile s dirpath source_dir f) st
        else
          { st with fs := eraseTree st.fs dirpath,
                    events := st.events ++ [Event.dirRemoved dirpath] }
      dirs.foldl (fun s d => walkR source replica fuel s (dirpath ++ [d])) st2

/-- sync_folders(source, replica) (lines 37-77): the forward
create-and-update pass over source, then the reverse delete pass over
replica.  The walk fuel (maximal descent depth) is one more than the
number of filesystem entries, which always suffices because in a
well-formed filesystem every proper prefix of a key is itself a key. -/
def sync_folders (source replica : Path) (st : St) : St :=
  let stF := walkF source replica (st.fs.length + 1) st source
  walkR source replica (stF.fs.length + 1) stF replica

/-- One observable driver action of main (lines 79-96): a sync_folders
call or a time.sleep call. -/
inductive Act where
  | runSync
  | sleepFor (n : Nat)
  deriving DecidableEq, Repr

/-- The while loop of main, counting down the remaining cycles: each
iteration runs sync_folders and then sleeps interval seconds; an uncaught
exception from sync_folders aborts the loop at once (no sleep) and the
process exits with status 1, otherwise after the last iteration the
process exits with status 0. -/
def mainLoop (source replica : Path) (interval : Nat) :
    Nat → St → List Act → St × List Act × Nat
  | 0, st, acc => (st, acc, 0)
  | Nat.succ k, st, acc =>
    let st2 := sync_folders source replica st
    match st2.err with
    | some _ => (st2, acc ++ [Act.runSync], 1)
    | none => mainLoop source replica interval k st2 (acc ++ [Act.runSync, Act.sleepFor interval])

/-- main (lines 79-96): runs max_syncs = 5 synchronization cycles on the
given filesystem and returns the final state, the driver action trace and
the process exit status. -/
def mainDrive (source replica : Path) (interval : Nat) (fs : FS) :
    St × List Act × Nat :=
  mainLoop source replica interval 5 { fs := fs, events := [], err := none } []

/-- A name usable as a path component: not the special "." and not
empty. -/
def goodName (n : Name) : Prop := n ≠ "." ∧ n ≠ ""

/-- Well-formed filesystem: keys are distinct, nonempty, made of good
names, and every proper nonempty prefix of a key is a directory (so in
particular parents exist). -/
def WFfs (fs : FS) : Prop :=
  (fs.map Prod.fst).Nodup ∧
  ∀ kv ∈ fs, kv.1 ≠ [] ∧ (∀ n ∈ kv.1, goodName n) ∧
    ∀ i, i < kv.1.length → 0 < i → isDirAt fs (kv.1.take i) = true

/-- The two root paths are non-nested: neither is a prefix of the other
(distinct directory trees). -/
def RootsDisjoint (source replica : Path) : Prop :=
  ¬ source.IsPrefix replica ∧ ¬ replica.IsPrefix source

/-- Initial state for one sync_folders call on a filesystem. -/
def st0 (fs : FS) : St := { fs := fs, events := [], err := none }

/-- A root path given on the command line: nonempty, with usable name
components. -/
def cleanPath (p : Path) : Prop := p ≠ [] ∧ ∀ n ∈ p, goodName n

/-- The replica destination corresponding to a source key. -/
def mirrorKey (source replica : Path) (k : Path) : Path :=
  replica ++ k.drop source.length

/-- Forward direction of the convergence post-condition: every entry under
source (root included) is mirrored in replica, directories as directories
and files with byte-identical content. -/
def SrcToRep (fs : FS) (source replica : Path) : Prop :=
  ∀ k e, lookupFS fs k = some e → source.IsPrefix k →
    match e with
    | Entry.dir => isDirAt fs (mirrorKey source replica k) = true
    | Entry.file c _ => ∃ rb, lookupFS fs (mirrorKey source replica k) = some (Entry.file c rb)

/-- Reverse direction of the convergence post-condition: no orphans, every
entry under replica has a corresponding entry under source. -/
def NoOrphans (fs : FS) (source replica : Path) : Prop :=
  ∀ k, (lookupFS fs k).isSome → replica.IsPrefix k →
    (lookupFS fs (source ++ k.drop replica.length)).isSome

/-- No relative path is a directory on the source side and simultaneously
a regular file on the replica side (such a type conflict can survive a
run of sync_folders without error and without being repaired). -/
def NoDirFileConflict (fs : FS) (source replica : Path) : Prop :=
  ∀ kv ∈ fs, kv.2 = Entry.dir → source.IsPrefix kv.1 →
    isFileAt fs (mirrorKey source replica kv.1) = false

/-- Events emitted by the forward pass. -/
def isFwdEvent : Event → Prop
  | Event.dirCreated _ => True
  | Event.fileCopied _ _ => True
  | Event.fileRemoved _ => False
  | Event.dirRemoved _ => False

/-- Events emitted by the reverse pass. -/
def isRevEvent : Event → Prop
  | Event.dirCreated _ => False
  | Event.fileCopied _ _ => False
  | Event.fileRemoved _ => True
  | Event.dirRemoved _ => True

instance (n : Name) : Decidable (goodName n) :=
  inferInstanceAs (Decidable (n ≠ "." ∧ n ≠ ""))

instance (fs : FS) : Decidable (WFfs fs) := by
  unfold WFfs
  infer_instance

instance (source replica : Path) : Decidable (RootsDisjoint source replica) := by
  unfold RootsDisjoint
  infer_instance

instance (p : Path) : Decidable (cleanPath p) := by
  unfold cleanPath
  infer_instance

instance (fs : FS) (source replica : Path) : Decidable (NoDirFileConflict fs source replica) := by
  unfold NoDirFileConflict
  infer_instance

instance (e : Event) : Decidable (isFwdEvent e) := by
  unfold isFwdEvent
  cases e <;> infer_instance

instance (e : Event) : Decidable (isFwdEvent e) := by
  unfold isFwdEvent
  cases e <;> infer_instance

instance (e : Event) : Decidable (isRevEvent e) := by
  unfold isRevEvent
  cases e <;> infer_instance

/-- Example: the walkthrough scenario of the spec, source with one
subdirectory and one stale file in the replica. -/
def fsScenario : FS :=
  [ (["s"], Entry.dir), (["s", "docs"], Entry.dir),
    (["s", "docs", "readme.txt"], Entry.file [1] true),
    (["s", "images"], Entry.dir),
    (["r"], Entry.dir), (["r", "docs"], Entry.dir),
    (["r", "docs", "readme.txt"], Entry.file [0] true),
    (["r", "images"], Entry.dir),
    (["r", "old.log"], Entry.file [9] true) ]

/-- Example: an empty directory on the source side whose relative path is
occupied by a regular file on the replica side. -/
def fsConflict : FS :=
  [ (["s"], Entry.dir), (["s", "d"], Entry.dir),
    (["r"], Entry.dir), (["r", "d"], Entry.file [] true) ]

/-- Example: the source root does not exist at all; the replica holds a
file and a subdirectory. -/
def fsNoSrcRoot : FS :=
  [ (["r"], Entry.dir), (["r", "x"], Entry.file [3] true),
    (["r", "sub"], Entry.dir) ]

/-- Example: the source contains an unreadable file b (listed before c)
and a readable file c that the replica lacks. -/
def fsUnreadable : FS :=
  [ (["s"], Entry.dir), (["s", "b"], Entry.file [1] false),
    (["s", "c"], Entry.file [2] true), (["r"], Entry.dir) ]

/-- Example: a small well-formed pair of trees, one source file to copy. -/
def fsSimple : FS :=
  [ (["s"], Entry.dir), (["s", "a"], Entry.file [7] true), (["r"], Entry.dir) ]

/-- Example: both roots exist and are empty. -/
def fsEmptyPair : FS :=
  [ (["s"], Entry.dir), (["r"], Entry.dir) ]

/-- Example: source exists, replica root missing. -/
def fsNoRepRoot : FS :=
  [ (["s"], Entry.dir), (["s", "a"], Entry.file [7] true) ]

/-- The greatest key length occurring in the filesystem. -/
def maxKeyLen (fs : FS) : Nat :=
  fs.foldr (fun kv m => max kv.1.length m) 0

/-- Global context of the convergence proofs: a well-formed filesystem
with two clean, non-nested root directories. -/
def Ctx (fs0 : FS) (source replica : Path) : Prop :=
  WFfs fs0 ∧ RootsDisjoint source replica ∧ cleanPath source ∧ cleanPath replica ∧
  lookupFS fs0 source = some Entry.dir ∧ lookupFS fs0 replica = some Entry.dir

instance (fs0 : FS) (source replica : Path) : Decidable (Ctx fs0 source replica) := by
  unfold Ctx
  infer_instance

/-- The source entry k (a key of the initial filesystem fs0) is correctly
mirrored in fs: a directory by an existing replica entry, a file by a
replica file with the same bytes (readable, as copy2 copies the
permission bits of the necessarily readable source). -/
def Mirrored (fs0 : FS) (source replica : Path) (fs : FS) (k : Path) : Prop :=
  match lookupFS fs0 k with
  | some Entry.dir => (lookupFS fs (mirrorKey source replica k)).isSome = true
  | some (Entry.file c r) => r = true ∧
      lookupFS fs (mirrorKey source replica k) = some (Entry.file c true)
  | none => True

/-- Everything the forward pass writes between a and b lies strictly below
the replica root, and is either a directory created at a missing key or a
replica file carrying the byte content of its own source counterpart in
fs0. -/
def WriteOK (fs0 : FS) (source replica : Path) (a b : FS) : Prop :=
  ∀ k, lookupFS b k ≠ lookupFS a k →
    replica.IsPrefix k ∧ replica.length < k.length ∧
    ((lookupFS a k = none ∧ lookupFS b k = some Entry.dir) ∨
     (∃ c r, lookupFS b k = some (Entry.file c true) ∧
        lookupFS fs0 (source ++ k.drop replica.length) = some (Entry.file c r)))

/-- Invariant of the forward pass: the live filesystem stays well formed,
the source side agrees with the initial filesystem, and the replica root
and all its nonempty prefixes are directories. -/
def FInv (fs0 : FS) (source replica : Path) (st : St) : Prop :=
  WFfs st.fs ∧
  (∀ k, source.IsPrefix k → lookupFS st.fs k = lookupFS fs0 k) ∧
  (∀ q, q.IsPrefix replica → q ≠ [] → isDirAt st.fs q = true)

/-- A replica key the reverse pass must never remove: one whose source
counterpart exists in the initial filesystem. -/
def RProtected (fs0 : FS) (source replica : Path) (m : Path) : Prop :=
  replica.IsPrefix m ∧ (lookupFS fs0 (source ++ m.drop replica.length)).isSome = true

/-- Invariant of the reverse pass: a well-formed live filesystem agreeing
with fs0 on the source side. -/
def RInv (fs0 : FS) (source : Path) (st : St) : Prop :=
  WFfs st.fs ∧ (∀ k, source.IsPrefix k → lookupFS st.fs k = lookupFS fs0 k)

/-- A filesystem on which sync_folders is a no-op: every source directory
has an existing replica counterpart, every source file a byte-identical
readable replica file, and every replica entry a source counterpart. -/
def Stable (fs : FS) (source replica : Path) : Prop :=
  (∀ k, source.IsPrefix k → lookupFS fs k = some Entry.dir →
     (lookupFS fs (mirrorKey source replica k)).isSome = true) ∧
  (∀ k c r, source.IsPrefix k → lookupFS fs k = some (Entry.file c r) →
     r = true ∧ lookupFS fs (mirrorKey source replica k) = some (Entry.file c true)) ∧
  (∀ k, replica.IsPrefix k → (lookupFS fs k).isSome = true →
     (lookupFS fs (source ++ k.drop replica.length)).isSome = true)

/-! ### Basic lemmas about the association-list filesystem -/

theorem lookupFS_nil (k : Path) : lookupFS [] k = none := rfl

theorem lookupFS_cons (a : Path) (b : Entry) (rest : FS) (k : Path) :
    lookupFS ((a, b) :: rest) k = if a = k then some b else lookupFS rest k := rfl

theorem lookup_filter_kept (q : Path × Entry → Bool) (fs : FS) (k : Path)
    (hks : ∀ e, q (k, e) = true) :
    lookupFS (fs.filter q) k = lookupFS fs k := by
  induction fs with
  | nil => rfl
  | cons kv rest ih =>
    obtain ⟨a, b⟩ := kv
    rw [List.filter_cons]
    by_cases hq : q (a, b) = true
    · simp only [hq, if_true]
      rw [lookupFS_cons, lookupFS_cons, ih]
    · have hak : a ≠ k := by
        intro h
        rw [h] at hq
        exact hq (hks b)
      simp only [hq, if_false]
      rw [lookupFS_cons]
      simp only [hak, if_false]
      exact ih

theorem lookup_filter_out (q : Path × Entry → Bool) (fs : FS) (k : Path)
    (hks : ∀ e, q (k, e) = false) :
    lookupFS (fs.filter q) k = none := by
  induction fs with
  | nil => rfl
  | cons kv rest ih =>
    obtain ⟨a, b⟩ := kv
    rw [List.filter_cons]
    by_cases hq : q (a, b) = true
    · have hak : a ≠ k := by
        intro h
        rw [h] at hq
        rw [hks b] at hq
        exact Bool.false_ne_true hq
      simp only [hq, if_true]
      rw [lookupFS_cons]
      simp only [hak, if_false]
      exact ih
    · simp only [hq, if_false]
      exact ih

theorem lookup_eraseKey (fs : FS) (p k : Path) :
    lookupFS (eraseKey fs p) k = if k = p then none else lookupFS fs k := by
  by_cases hk : k = p
  · subst hk
    simp only [if_true]
    exact lookup_filter_out _ fs k (fun e => by simp)
  · simp only [hk, if_false]
    exact lookup_filter_kept _ fs k (fun e => by simp [hk])

theorem lookup_setEntry (fs : FS) (p : Path) (e : Entry) (k : Path) :
    lookupFS (setEntry fs p e) k = if k = p then some e else lookupFS fs k := by
  unfold setEntry
  rw [lookupFS_cons]
  by_cases hk : k = p
  · subst hk
    simp
  · have hpk : p ≠ k := fun h => hk h.symm
    simp only [hpk, if_false, hk]
    rw [lookup_eraseKey]
    simp [hk]

theorem lookup_eraseTree (fs : FS) (p k : Path) :
    lookupFS (eraseTree fs p) k = if p.IsPrefix k then none else lookupFS fs k := by
  by_cases hk : p.IsPrefix k
  · simp only [hk, if_true]
    exact lookup_filter_out _ fs k (fun e => by simp [hk])
  · simp only [hk, if_false]
    exact lookup_filter_kept _ fs k (fun e => by simp [hk])

theorem lookupFS_isSome_of_mem (fs : FS) (k : Path) (e : Entry) (h : (k, e) ∈ fs) :
    (lookupFS fs k).isSome := by
  induction fs with
  | nil => simp at h
  | cons kv rest ih =>
    obtain ⟨a, b⟩ := kv
    rw [lookupFS_cons]
    rcases List.mem_cons.1 h with h1 | h1
    · rw [Prod.mk.injEq] at h1
      simp [h1.1.symm]
    · by_cases hk : a = k
      · simp [hk]
      · simp only [hk, if_false]
        exact ih h1

theorem mem_of_lookupFS_eq_some (fs : FS) (k : Path) (e : Entry)
    (h : lookupFS fs k = some e) : (k, e) ∈ fs := by
  induction fs with
  | nil => simp [lookupFS_nil] at h
  | cons kv rest ih =>
    obtain ⟨a, b⟩ := kv
    rw [lookupFS_cons] at h
    by_cases hk : a = k
    · simp only [hk, if_true, Option.some.injEq] at h
      subst hk
      subst h
      exact List.mem_cons_self _ _
    · simp only [hk, if_false] at h
      exact List.mem_cons_of_mem _ (ih h)

theorem lookupFS_eq_some_of_mem (fs : FS) (k : Path) (e : Entry)
    (hnd : (fs.map Prod.fst).Nodup) (h : (k, e) ∈ fs) : lookupFS fs k = some e := by
  induction fs with
  | nil => simp at h
  | cons kv rest ih =>
    obtain ⟨a, b⟩ := kv
    rw [List.map_cons] at hnd
    have hnd1 : (a :: rest.map Prod.fst).Nodup := hnd
    have hnd2 : (rest.map Prod.fst).Nodup := (List.nodup_cons.1 hnd1).2
    rw [lookupFS_cons]
    rcases List.mem_cons.1 h with h1 | h1
    · rw [Prod.mk.injEq] at h1
      simp [h1.1.symm, h1.2.symm]
    · by_cases hk : a = k
      · exfalso
        have hmem : a ∈ rest.map Prod.fst := by
          rw [hk]
          exact List.mem_map.2 ⟨(k, e), h1, rfl⟩
        exact (List.nodup_cons.1 hnd1).1 hmem
      · simp only [hk, if_false]
        exact ih hnd2 h1

theorem takeChild_eq_some (p k : Path) (n : Name) :
    takeChild p k = some n ↔ k = p ++ [n] := by
  constructor
  · intro h
    unfold takeChild at h
    by_cases ht : k.take p.length = p
    · simp only [ht, if_true] at h
      rcases hd : k.drop p.length with _ | ⟨m, rest⟩
      · rw [hd] at h
        simp at h
      · rcases rest with _ | ⟨m2, r2⟩
        · rw [hd] at h
          simp at h
          rw [← List.take_append_drop p.length k, ht, hd, h]
        · rw [hd] at h
          simp at h
    · simp [ht] at h
  · intro h
    subst h
    unfold takeChild
    simp

theorem mem_childrenOf (fs : FS) (p : Path) (n : Name) (e : Entry) :
    (n, e) ∈ childrenOf fs p ↔ (p ++ [n], e) ∈ fs := by
  induction fs with
  | nil => simp [childrenOf]
  | cons kv rest ih =>
    obtain ⟨a, b⟩ := kv
    unfold childrenOf
    rcases htc : takeChild p a with _ | m
    · rw [ih, List.mem_cons]
      constructor
      · intro h
        exact Or.inr h
      · rintro (h | h)
        · exfalso
          rw [Prod.mk.injEq] at h
          have h2 := (takeChild_eq_some p (p ++ [n]) n).2 rfl
          rw [h.1] at h2
          rw [h2] at htc
          exact Option.noConfusion htc
        · exact h
    · rw [takeChild_eq_some] at htc
      subst htc
      rw [List.mem_cons, List.mem_cons, ih]
      constructor
      · rintro (h | h)
        · rw [Prod.mk.injEq] at h
          left
          rw [h.1, h.2]
        · exact Or.inr h
      · rintro (h | h)
        · rw [Prod.mk.injEq] at h
          have hnm : n = m := by simpa using h.1
          left
          rw [Prod.mk.injEq]
          exact ⟨hnm, h.2⟩
        · exact Or.inr h

theorem mem_subdirNames (fs : FS) (p : Path) (n : Name) :
    n ∈ subdirNames fs p ↔ (p ++ [n], Entry.dir) ∈ fs := by
  unfold subdirNames
  rw [List.mem_filterMap]
  constructor
  · rintro ⟨⟨m, e⟩, hm, he⟩
    cases e
    · simp at he
    · simp at he
      exact he ▸ (mem_childrenOf fs p m Entry.dir).1 hm
  · intro h
    exact ⟨(n, Entry.dir), (mem_childrenOf fs p n Entry.dir).2 h, rfl⟩

theorem mem_fileNamesAt (fs : FS) (p : Path) (n : Name) :
    n ∈ fileNamesAt fs p ↔ ∃ c r, (p ++ [n], Entry.file c r) ∈ fs := by
  unfold fileNamesAt
  rw [List.mem_filterMap]
  constructor
  · rintro ⟨⟨m, e⟩, hm, he⟩
    cases e with
    | file c r =>
      simp at he
      exact ⟨c, r, he ▸ (mem_childrenOf fs p m (Entry.file c r)).1 hm⟩
    | dir => simp at he
  · rintro ⟨c, r, h⟩
    exact ⟨(n, Entry.file c r), (mem_childrenOf fs p n (Entry.file c r)).2 h, rfl⟩

/-! ### Exception propagation: a pending error freezes every later step -/

theorem processSourceFile_of_err (st : St) (d rd : Path) (f : Name)
    (h : st.err.isSome) : processSourceFile st d rd f = st := by
  unfold processSourceFile
  simp [h]

theorem processSourceDir_of_err (source replica : Path) (st : St) (d : Path)
    (fl : List Name) (h : st.err.isSome) :
    processSourceDir source replica st d fl = st := by
  unfold processSourceDir
  simp [h]

theorem walkF_of_err (source replica : Path) (fuel : Nat) (st : St) (p : Path)
    (h : st.err.isSome) : walkF source replica fuel st p = st := by
  cases fuel with
  | zero => rfl
  | succ n =>
    unfold walkF
    simp [h]

theorem walkR_of_err (source replica : Path) (fuel : Nat) (st : St) (p : Path)
    (h : st.err.isSome) : walkR source replica fuel st p = st := by
  cases fuel with
  | zero => rfl
  | succ n =>
    unfold walkR
    simp [h]

theorem sync_folders_of_err (source replica : Path) (st : St)
    (h : st.err.isSome) : sync_folders source replica st = st := by
  unfold sync_folders
  rw [walkF_of_err source replica _ st source h, walkR_of_err source replica _ st replica h]

/-! ### Generic fold helpers -/

theorem foldl_pres {α : Type} (P : St → Prop) (f : St → α → St)
    (h : ∀ s x, P s → P (f s x)) :
    ∀ l : List α, ∀ s, P s → P (l.foldl f s) := by
  intro l
  induction l with
  | nil => intro s hs; exact hs
  | cons x xs ih => intro s hs; exact ih (f s x) (h s x hs)

theorem foldl_fix {α : Type} (f : St → α → St) (s : St)
    (h : ∀ x, f s x = s) : ∀ l : List α, l.foldl f s = s := by
  intro l
  induction l with
  | nil => rfl
  | cons x xs ih => rw [List.foldl_cons, h x, ih]

/-! ### Path resolution and relpath lemmas -/

theorem resolveFrom_clean (fs : FS) (acc : Path) (l : List Name)
    (h : ∀ n ∈ l, n ≠ ".") : resolveFrom fs acc l = some (acc ++ l) := by
  induction l generalizing acc with
  | nil => simp [resolveFrom]
  | cons c rest ih =>
    unfold resolveFrom
    have hc : c ≠ "." := h c (List.mem_cons_self _ _)
    simp only [hc, if_false]
    rw [ih (acc ++ [c]) (fun n hn => h n (List.mem_cons_of_mem _ hn))]
    simp

theorem resolve_clean (fs : FS) (p : Path) (h : ∀ n ∈ p, n ≠ ".") :
    resolve fs p = some p := by
  unfold resolve
  rw [resolveFrom_clean fs [] p h]
  simp

theorem pyExists_clean (fs : FS) (p : Path) (h : ∀ n ∈ p, n ≠ ".") :
    pyExists fs p = (lookupFS fs p).isSome := by
  unfold pyExists
  rw [resolve_clean fs p h]

theorem resolveFrom_nil (fs : FS) (acc : Path) : resolveFrom fs acc [] = some acc := rfl

theorem resolveFrom_cons (fs : FS) (acc : Path) (c : Name) (rest : List Name) :
    resolveFrom fs acc (c :: rest) =
      if c = "." then
        if isDirAt fs acc then resolveFrom fs acc rest else none
      else resolveFrom fs (acc ++ [c]) rest := rfl

theorem resolveFrom_append (fs : FS) (acc : Path) (l1 l2 : List Name) :
    resolveFrom fs acc (l1 ++ l2) =
      match resolveFrom fs acc l1 with
      | none => none
      | some q => resolveFrom fs q l2 := by
  induction l1 generalizing acc with
  | nil => simp [resolveFrom]
  | cons c rest ih =>
    rw [List.cons_append, resolveFrom_cons, resolveFrom_cons]
    by_cases hc : c = "."
    · simp only [hc, if_true]
      by_cases hd : isDirAt fs acc
      · simp only [hd, if_true]
        exact ih acc
      · simp [hd]
    · simp only [hc, if_false]
      exact ih (acc ++ [c])

theorem resolve_root_dot (fs : FS) (root : Path) (h : ∀ n ∈ root, n ≠ ".") :
    resolve fs (root ++ ["."]) = if isDirAt fs root then some root else none := by
  unfold resolve
  rw [resolveFrom_append]
  rw [resolveFrom_clean fs [] root h]
  simp only [List.nil_append]
  unfold resolveFrom
  by_cases hd : isDirAt fs root
  · simp [hd, resolveFrom]
  · simp [hd]

theorem pyExists_root_dot (fs : FS) (root : Path) (h : ∀ n ∈ root, n ≠ ".") :
    pyExists fs (root ++ ["."]) = isDirAt fs root := by
  unfold pyExists
  rw [resolve_root_dot fs root h]
  by_cases hd : isDirAt fs root
  · simp only [hd, if_true]
    unfold isDirAt at hd
    rcases hl : lookupFS fs root with _ | e
    · rw [hl] at hd
      simp at hd
    · simp
  · simp [hd]

theorem resolve_root_dot_more (fs : FS) (root : Path) (l : List Name)
    (h : ∀ n ∈ root, n ≠ ".") (hl : ∀ n ∈ l, n ≠ ".") :
    resolve fs (root ++ ["."] ++ l) =
      if isDirAt fs root then some (root ++ l) else none := by
  unfold resolve
  rw [resolveFrom_append]
  have h2 : resolveFrom fs [] (root ++ ["."]) =
      if isDirAt fs root then some root else none := resolve_root_dot fs root h
  rw [h2]
  by_cases hd : isDirAt fs root
  · simp only [hd, if_true]
    exact resolveFrom_clean fs root l hl
  · simp [hd]

theorem pyExists_root_dot_more (fs : FS) (root : Path) (l : List Name)
    (h : ∀ n ∈ root, n ≠ ".") (hl : ∀ n ∈ l, n ≠ ".") :
    pyExists fs (root ++ ["."] ++ l) =
      (isDirAt fs root && (lookupFS fs (root ++ l)).isSome) := by
  unfold pyExists
  rw [resolve_root_dot_more fs root l h hl]
  by_cases hd : isDirAt fs root
  · simp [hd]
  · simp [hd]

theorem relpathDot_self (p : Path) : relpathDot p p = ["."] := by
  simp [relpathDot]

theorem relpathDot_append (root : Path) (rel : List Name) (h : rel ≠ []) :
    relpathDot (root ++ rel) root = rel := by
  unfold relpathDot
  have hlen : ¬ (root ++ rel).length ≤ root.length := by
    rw [List.length_append]
    have : 0 < rel.length := List.length_pos.2 h
    omega
  simp only [hlen, if_false]
  rw [List.drop_left]

/-! ### listDir and single-step walk lemmas -/

theorem listDir_eq_none (fs : FS) (p : Path) (h : isDirAt fs p = false) :
    listDir fs p = none := by
  simp [listDir, h]

theorem listDir_eq_some (fs : FS) (p : Path) (h : isDirAt fs p = true) :
    listDir fs p = some (subdirNames fs p, fileNamesAt fs p) := by
  simp [listDir, h]

theorem walkF_stop (source replica : Path) (fuel : Nat) (st : St) (p : Path)
    (h : listDir st.fs p = none) : walkF source replica fuel st p = st := by
  cases fuel with
  | zero => rfl
  | succ n =>
    unfold walkF
    by_cases he : st.err.isSome
    · simp [he]
    · simp [he, h]

theorem walkR_stop (source replica : Path) (fuel : Nat) (st : St) (p : Path)
    (h : listDir st.fs p = none) : walkR source replica fuel st p = st := by
  cases fuel with
  | zero => rfl
  | succ n =>
    unfold walkR
    by_cases he : st.err.isSome
    · simp [he]
    · simp [he, h]

theorem walkF_succ (source replica : Path) (fuel : Nat) (st : St) (p : Path) :
    walkF source replica (Nat.succ fuel) st p =
      if st.err.isSome then st else
        match listDir st.fs p with
        | none => st
        | some (dirs, files) =>
          dirs.foldl (fun s d => walkF source replica fuel s (p ++ [d]))
            (processSourceDir source replica st p files) := rfl

theorem walkR_succ (source replica : Path) (fuel : Nat) (st : St) (p : Path) :
    walkR source replica (Nat.succ fuel) st p =
      if st.err.isSome then st else
        match listDir st.fs p with
        | none => st
        | some (dirs, files) =>
          dirs.foldl (fun s d => walkR source replica fuel s (p ++ [d]))
            (if pyExists st.fs (source ++ relpathDot p replica) then
              files.foldl
                (fun s f => processReplicaFile s p (source ++ relpathDot p replica) f) st
            else
              { st with fs := eraseTree st.fs p,
                        events := st.events ++ [Event.dirRemoved p] }) := rfl

theorem walkF_succ_some (source replica : Path) (fuel : Nat) (st : St) (p : Path)
    (ds fls : List Name) (he : st.err = none)
    (h : listDir st.fs p = some (ds, fls)) :
    walkF source replica (fuel + 1) st p =
      ds.foldl (fun s d => walkF source replica fuel s (p ++ [d]))
        (processSourceDir source replica st p fls) := by
  rw [walkF_succ, h]
  simp [he]

theorem walkR_succ_some (source replica : Path) (fuel : Nat) (st : St) (p : Path)
    (ds fls : List Name) (he : st.err = none)
    (h : listDir st.fs p = some (ds, fls)) :
    walkR source replica (fuel + 1) st p =
      ds.foldl (fun s d => walkR source replica fuel s (p ++ [d]))
        (if pyExists st.fs (source ++ relpathDot p replica) then
          fls.foldl (fun s f => processReplicaFile s p (source ++ relpathDot p replica) f) st
        else
          { st with fs := eraseTree st.fs p,
                    events := st.events ++ [Event.dirRemoved p] }) := by
  rw [walkR_succ, h]
  simp [he]

theorem processReplicaFile_of_err (st : St) (d sd : Path) (f : Name)
    (h : st.err.isSome) : processReplicaFile st d sd f = st := by
  unfold processReplicaFile
  simp [h]

theorem foldl_events {α : Type} (P : Event → Prop) (f : St → α → St)
    (h : ∀ s x, ∃ e, (f s x).events = s.events ++ e ∧ ∀ y ∈ e, P y) :
    ∀ l : List α, ∀ s, ∃ e, (l.foldl f s).events = s.events ++ e ∧ ∀ y ∈ e, P y := by
  intro l
  induction l with
  | nil => intro s; exact ⟨[], by simp⟩
  | cons x xs ih =>
    intro s
    obtain ⟨e1, he1, hp1⟩ := h s x
    obtain ⟨e2, he2, hp2⟩ := ih (f s x)
    refine ⟨e1 ++ e2, ?_, ?_⟩
    · rw [List.foldl_cons, he2, he1, List.append_assoc]
    · intro y hy
      rcases List.mem_append.1 hy with hy1 | hy1
      · exact hp1 y hy1
      · exact hp2 y hy1

/-! ### Well-formedness accessors -/

theorem WF_nodup (fs : FS) (h : WFfs fs) : (fs.map Prod.fst).Nodup := h.1

theorem WF_lookup_mem (fs : FS) (h : WFfs fs) (k : Path) (e : Entry) :
    lookupFS fs k = some e ↔ (k, e) ∈ fs :=
  ⟨mem_of_lookupFS_eq_some fs k e, lookupFS_eq_some_of_mem fs k e h.1⟩

theorem WF_key_ne_nil (fs : FS) (h : WFfs fs) (k : Path) (e : Entry)
    (hl : lookupFS fs k = some e) : k ≠ [] :=
  (h.2 (k, e) (mem_of_lookupFS_eq_some fs k e hl)).1

theorem WF_lookup_nil (fs : FS) (h : WFfs fs) : lookupFS fs [] = none := by
  cases hl : lookupFS fs [] with
  | none => rfl
  | some e => exact absurd rfl (WF_key_ne_nil fs h [] e hl)

theorem WF_good_names (fs : FS) (h : WFfs fs) (k : Path) (e : Entry)
    (hl : lookupFS fs k = some e) : ∀ n ∈ k, goodName n :=
  (h.2 (k, e) (mem_of_lookupFS_eq_some fs k e hl)).2.1

theorem WF_take_dir (fs : FS) (h : WFfs fs) (k : Path) (e : Entry)
    (hl : lookupFS fs k = some e) (i : Nat) (hi : i < k.length) (hi0 : 0 < i) :
    isDirAt fs (k.take i) = true :=
  (h.2 (k, e) (mem_of_lookupFS_eq_some fs k e hl)).2.2 i hi hi0

theorem WF_prefix_dir (fs : FS) (h : WFfs fs) (k : Path) (e : Entry)
    (hl : lookupFS fs k = some e) (q : Path) (hq : q.IsPrefix k)
    (hq0 : q ≠ []) (hqk : q ≠ k) : isDirAt fs q = true := by
  have hqt : q = k.take q.length := List.prefix_iff_eq_take.1 hq
  have hlen : q.length ≤ k.length := hq.length_le
  have hlt : q.length < k.length := by
    rcases Nat.lt_or_ge q.length k.length with h1 | h1
    · exact h1
    · exfalso
      exact hqk (hq.eq_of_length (Nat.le_antisymm hlen h1))
  have h0 : 0 < q.length := List.length_pos.2 hq0
  rw [hqt]
  exact WF_take_dir fs h k e hl q.length hlt h0

/-- In a well-formed filesystem a regular file has no entries below it. -/
theorem WF_file_no_children (fs : FS) (h : WFfs fs) (k : Path) (c : List Nat) (r : Bool)
    (hl : lookupFS fs k = some (Entry.file c r)) (l : List Name) (hne : l ≠ []) :
    lookupFS fs (k ++ l) = none := by
  cases he : lookupFS fs (k ++ l) with
  | none => rfl
  | some e =>
    exfalso
    have hk0 : k ≠ [] := WF_key_ne_nil fs h k (Entry.file c r) hl
    have hpre : k.IsPrefix (k ++ l) := List.prefix_append k l
    have hne2 : k ≠ k ++ l := by
      intro hcon
      have : l = [] := by
        have := congrArg List.length hcon
        rw [List.length_append] at this
        have hl0 : l.length = 0 := by omega
        exact List.length_eq_zero.1 hl0
      exact hne this
    have hdir := WF_prefix_dir fs h (k ++ l) e he k hpre hk0 hne2
    unfold isDirAt at hdir
    rw [hl] at hdir
    simp at hdir

/-! ### Specification of the primitive operations -/

theorem resolveFrom_prefix_of_some (fs : FS) :
    ∀ l acc q, resolveFrom fs acc l = some q → acc.IsPrefix q := by
  intro l
  induction l with
  | nil =>
    intro acc q h
    rw [resolveFrom_nil] at h
    cases h
    exact List.prefix_refl acc
  | cons c rest ih =>
    intro acc q h
    rw [resolveFrom_cons] at h
    by_cases hc : c = "."
    · simp only [hc, if_true] at h
      by_cases hd : isDirAt fs acc
      · simp only [hd, if_true] at h
        exact ih acc q h
      · simp [hd] at h
    · simp only [hc, if_false] at h
      exact (List.prefix_append acc [c]).trans (ih (acc ++ [c]) q h)

theorem resolve_prefix_of_clean (fs : FS) (a b : Path) (ha : ∀ n ∈ a, n ≠ ".") (q : Path)
    (h : resolve fs (a ++ b) = some q) : a.IsPrefix q := by
  unfold resolve at h
  rw [resolveFrom_append fs [] a b, resolveFrom_clean fs [] a ha] at h
  simp only [List.nil_append] at h
  exact resolveFrom_prefix_of_some fs b a q h

/-- Full characterization of a successful makedirsAux run: it creates
directories exactly at missing keys strictly between acc and the target,
and leaves everything else alone. -/
theorem makedirsAux_spec :
    ∀ (l : List Name) (fs : FS) (acc : Path) (fs2 : FS),
      makedirsAux fs acc l = Except.ok fs2 →
      ∀ k, lookupFS fs2 k = lookupFS fs k ∨
        (lookupFS fs k = none ∧ lookupFS fs2 k = some Entry.dir ∧
         acc.IsPrefix k ∧ k.IsPrefix (acc ++ l) ∧ acc.length < k.length) := by
  intro l
  induction l with
  | nil =>
    intro fs acc fs2 h k
    unfold makedirsAux at h
    cases h
    exact Or.inl rfl
  | cons c rest ih =>
    intro fs acc fs2 h k
    unfold makedirsAux at h
    simp only [] at h
    cases hl : lookupFS fs (acc ++ [c]) with
    | some e =>
      cases e with
      | dir =>
        simp only [hl] at h
        rcases ih fs (acc ++ [c]) fs2 h k with h1 | ⟨h1, h2, h3, h4, h5⟩
        · exact Or.inl h1
        · refine Or.inr ⟨h1, h2, (List.prefix_append acc [c]).trans h3, ?_, ?_⟩
          · rw [List.append_assoc] at h4
            exact h4
          · rw [List.length_append] at h5
            omega
      | file c0 r0 =>
        simp only [hl] at h
        exact Except.noConfusion h
    | none =>
      simp only [hl] at h
      have hpre1 : acc.IsPrefix (acc ++ [c]) := List.prefix_append acc [c]
      have hpre2 : (acc ++ [c]).IsPrefix (acc ++ c :: rest) := by
        have : acc ++ c :: rest = (acc ++ [c]) ++ rest := by simp
        rw [this]
        exact List.prefix_append _ _
      by_cases hk : k = acc ++ [c]
      · subst hk
        rcases ih (setEntry fs (acc ++ [c]) Entry.dir) (acc ++ [c]) fs2 h (acc ++ [c])
          with h1 | ⟨h1, h2, h3, h4, h5⟩
        · rw [lookup_setEntry] at h1
          simp only [if_pos rfl] at h1
          refine Or.inr ⟨hl, h1, hpre1, hpre2, ?_⟩
          rw [List.length_append]
          simp
        · exfalso
          rw [lookup_setEntry] at h1
          simp at h1
      · rcases ih (setEntry fs (acc ++ [c]) Entry.dir) (acc ++ [c]) fs2 h k
          with h1 | ⟨h1, h2, h3, h4, h5⟩
        · rw [lookup_setEntry] at h1
          simp only [hk, if_false] at h1
          exact Or.inl h1
        · rw [lookup_setEntry] at h1
          simp only [hk, if_false] at h1
          refine Or.inr ⟨h1, h2, hpre1.trans h3, ?_, ?_⟩
          · have hr : (acc ++ [c]) ++ rest = acc ++ c :: rest := by simp
            rw [hr] at h4
            exact h4
          · rw [List.length_append] at h5
            simp at h5
            omega

theorem makedirsAux_mono (l : List Name) (fs : FS) (acc : Path) (fs2 : FS)
    (h : makedirsAux fs acc l = Except.ok fs2) (k : Path) (e : Entry)
    (hk : lookupFS fs k = some e) : lookupFS fs2 k = some e := by
  rcases makedirsAux_spec l fs acc fs2 h k with h1 | ⟨h1, _, _, _, _⟩
  · rw [h1, hk]
  · rw [hk] at h1
    exact Option.noConfusion h1

theorem makedirsAux_post :
    ∀ (l : List Name) (fs : FS) (acc : Path) (fs2 : FS),
      makedirsAux fs acc l = Except.ok fs2 →
      ∀ i, i ≤ l.length → 0 < i → isDirAt fs2 (acc ++ l.take i) = true := by
  intro l
  induction l with
  | nil =>
    intro fs acc fs2 h i hi hi0
    simp at hi
    omega
  | cons c rest ih =>
    intro fs acc fs2 h i hi hi0
    unfold makedirsAux at h
    simp only [] at h
    cases hl : lookupFS fs (acc ++ [c]) with
    | some e =>
      cases e with
      | dir =>
        simp only [hl] at h
        cases i with
        | zero => omega
        | succ j =>
          rw [List.take_succ_cons]
          cases Nat.eq_zero_or_pos j with
          | inl hj0 =>
            subst hj0
            simp only [List.take_zero]
            unfold isDirAt
            have hmono := makedirsAux_mono rest fs (acc ++ [c]) fs2 h (acc ++ [c]) Entry.dir hl
            have heq : acc ++ c :: ([] : List Name) = acc ++ [c] := rfl
            rw [heq, hmono]
          | inr hj1 =>
            have hrec := ih fs (acc ++ [c]) fs2 h j (by simpa using hi) hj1
            have heq : acc ++ c :: rest.take j = (acc ++ [c]) ++ rest.take j := by simp
            rw [heq]
            exact hrec
      | file c0 r0 =>
        simp only [hl] at h
        exact Except.noConfusion h
    | none =>
      simp only [hl] at h
      have hl2 : lookupFS (setEntry fs (acc ++ [c]) Entry.dir) (acc ++ [c]) =
          some Entry.dir := by
        rw [lookup_setEntry]
        simp
      cases i with
      | zero => omega
      | succ j =>
        rw [List.take_succ_cons]
        cases Nat.eq_zero_or_pos j with
        | inl hj0 =>
          subst hj0
          simp only [List.take_zero]
          unfold isDirAt
          have hmono := makedirsAux_mono rest (setEntry fs (acc ++ [c]) Entry.dir)
            (acc ++ [c]) fs2 h (acc ++ [c]) Entry.dir hl2
          have heq : acc ++ c :: ([] : List Name) = acc ++ [c] := rfl
          rw [heq, hmono]
        | inr hj1 =>
          have hrec := ih (setEntry fs (acc ++ [c]) Entry.dir) (acc ++ [c]) fs2 h j
            (by simpa using hi) hj1
          have heq : acc ++ c :: rest.take j = (acc ++ [c]) ++ rest.take j := by simp
          rw [heq]
          exact hrec

/-! ### Well-formedness preservation of the primitive operations -/

theorem eraseKey_of_lookup_none (fs : FS) (p : Path) (h : lookupFS fs p = none) :
    eraseKey fs p = fs := by
  unfold eraseKey
  apply List.filter_eq_self.2
  intro kv hkv
  obtain ⟨a, b⟩ := kv
  simp only [decide_eq_true_eq]
  intro hap
  subst hap
  have hs := lookupFS_isSome_of_mem fs a b hkv
  rw [h] at hs
  simp at hs

theorem isDirAt_setEntry_other (fs : FS) (p q : Path) (e : Entry) (hne : q ≠ p) :
    isDirAt (setEntry fs p e) q = isDirAt fs q := by
  unfold isDirAt
  rw [lookup_setEntry]
  simp [hne]

theorem WF_setEntry_general (fs : FS) (p : Path) (e : Entry) (hWF : WFfs fs)
    (hp0 : p ≠ []) (hpg : ∀ n ∈ p, goodName n)
    (hdirs : ∀ i, i < p.length → 0 < i → isDirAt fs (p.take i) = true)
    (hnotdir : isDirAt fs p = false) :
    WFfs (setEntry fs p e) := by
  have hmemE : ∀ kv, kv ∈ eraseKey fs p → kv ∈ fs ∧ kv.1 ≠ p := by
    intro kv hkv
    unfold eraseKey at hkv
    have hf := List.mem_filter.1 hkv
    exact ⟨hf.1, by simpa using hf.2⟩
  have hkeydir : ∀ q, isDirAt fs q = true → isDirAt (setEntry fs p e) q = true := by
    intro q hq
    by_cases hqp : q = p
    · subst hqp
      rw [hq] at hnotdir
      exact Bool.noConfusion hnotdir
    · rw [isDirAt_setEntry_other fs p q e hqp]
      exact hq
  constructor
  · unfold setEntry
    rw [List.map_cons, List.nodup_cons]
    constructor
    · intro hmem
      rcases List.mem_map.1 hmem with ⟨kv, hkv, hfst⟩
      exact (hmemE kv hkv).2 hfst
    · unfold eraseKey
      have hsub : ((fs.filter (fun kv => decide (kv.1 ≠ p))).map Prod.fst).Sublist
          (fs.map Prod.fst) := (List.filter_sublist fs).map Prod.fst
      exact (WF_nodup fs hWF).sublist hsub
  · intro kv hkv
    rcases List.mem_cons.1 hkv with h1 | h1
    · subst h1
      refine ⟨hp0, hpg, ?_⟩
      intro i hi hi0
      exact hkeydir _ (hdirs i hi hi0)
    · obtain ⟨hmem, hne⟩ := hmemE kv h1
      obtain ⟨ha, hb, hc⟩ := hWF.2 kv hmem
      refine ⟨ha, hb, ?_⟩
      intro i hi hi0
      exact hkeydir _ (hc i hi hi0)

theorem WF_eraseKey (fs : FS) (p : Path) (hWF : WFfs fs)
    (hnotdir : isDirAt fs p = false) : WFfs (eraseKey fs p) := by
  have hkeydir : ∀ q, isDirAt fs q = true → isDirAt (eraseKey fs p) q = true := by
    intro q hq
    unfold isDirAt at hq ⊢
    rw [lookup_eraseKey]
    by_cases hqp : q = p
    · subst hqp
      unfold isDirAt at hnotdir
      cases hl2 : lookupFS fs q with
      | none =>
        rw [hl2] at hq
        simp at hq
      | some e2 =>
        rw [hl2] at hq hnotdir
        cases e2
        · simp at hq
        · simp at hnotdir
    · simp only [hqp, if_false]
      exact hq
  constructor
  · unfold eraseKey
    have hsub : ((fs.filter (fun kv => decide (kv.1 ≠ p))).map Prod.fst).Sublist
        (fs.map Prod.fst) := (List.filter_sublist fs).map Prod.fst
    exact (WF_nodup fs hWF).sublist hsub
  · intro kv hkv
    unfold eraseKey at hkv
    have hmem := (List.mem_filter.1 hkv).1
    obtain ⟨ha, hb, hc⟩ := hWF.2 kv hmem
    refine ⟨ha, hb, ?_⟩
    intro i hi hi0
    exact hkeydir _ (hc i hi hi0)

theorem WF_eraseTree (fs : FS) (p : Path) (hWF : WFfs fs) : WFfs (eraseTree fs p) := by
  constructor
  · unfold eraseTree
    have hsub : ((fs.filter (fun kv => decide (¬ p.IsPrefix kv.1))).map Prod.fst).Sublist
        (fs.map Prod.fst) := (List.filter_sublist fs).map Prod.fst
    exact (WF_nodup fs hWF).sublist hsub
  · intro kv hkv
    unfold eraseTree at hkv
    have hmem := (List.mem_filter.1 hkv).1
    have hnp : ¬ p.IsPrefix kv.1 := by simpa using (List.mem_filter.1 hkv).2
    obtain ⟨ha, hb, hc⟩ := hWF.2 kv hmem
    refine ⟨ha, hb, ?_⟩
    intro i hi hi0
    have hq := hc i hi hi0
    unfold isDirAt at hq ⊢
    rw [lookup_eraseTree]
    have hnpq : ¬ p.IsPrefix (kv.1.take i) := by
      intro hcon
      exact hnp (hcon.trans (List.take_prefix i kv.1))
    simp only [hnpq, if_false]
    exact hq

theorem copy2_ok_spec (fs : FS) (src dst : Path) (fs2 : FS)
    (h : copy2 fs src dst = Except.ok fs2) :
    ∃ qs c qd, resolve fs src = some qs ∧ lookupFS fs qs = some (Entry.file c true) ∧
      resolve fs dst = some qd ∧ isDirAt fs qd = false ∧ qd ≠ [] ∧
      (qd.length = 1 ∨ isDirAt fs qd.dropLast = true) ∧
      fs2 = setEntry fs qd (Entry.file c true) := by
  unfold copy2 at h
  cases hr1 : resolve fs src with
  | none =>
    simp only [hr1] at h
    exact Except.noConfusion h
  | some qs =>
    simp only [hr1] at h
    cases hl1 : lookupFS fs qs with
    | none =>
      simp only [hl1] at h
      exact Except.noConfusion h
    | some e1 =>
      simp only [hl1] at h
      cases e1 with
      | dir => exact Except.noConfusion h
      | file c r =>
        cases r with
        | false => exact Except.noConfusion h
        | true =>
          cases hr2 : resolve fs dst with
          | none =>
            simp only [hr2] at h
            exact Except.noConfusion h
          | some qd =>
            simp only [hr2] at h
            cases hl2 : lookupFS fs qd with
            | some e2 =>
              cases e2 with
              | dir =>
                simp only [hl2] at h
                exact Except.noConfusion h
              | file c2 r2 =>
                simp only [hl2] at h
                by_cases hcond : qd ≠ [] ∧ (qd.length = 1 ∨ isDirAt fs qd.dropLast = true)
                · rw [if_pos hcond] at h
                  refine ⟨qs, c, qd, rfl, hl1, rfl, ?_, hcond.1, hcond.2, ?_⟩
                  · unfold isDirAt
                    rw [hl2]
                  · cases h
                    rfl
                · rw [if_neg hcond] at h
                  exact Except.noConfusion h
            | none =>
              simp only [hl2] at h
              by_cases hcond : qd ≠ [] ∧ (qd.length = 1 ∨ isDirAt fs qd.dropLast = true)
              · rw [if_pos hcond] at h
                refine ⟨qs, c, qd, rfl, hl1, rfl, ?_, hcond.1, hcond.2, ?_⟩
                · unfold isDirAt
                  rw [hl2]
                · cases h
                  rfl
              · rw [if_neg hcond] at h
                exact Except.noConfusion h

/-! ### Error monotonicity -/

theorem err_isSome_mono_processSourceFile (st : St) (d rd : Path) (f : Name)
    (h : st.err.isSome = true) : (processSourceFile st d rd f).err.isSome = true := by
  rw [processSourceFile_of_err st d rd f h]
  exact h

theorem err_none_of_walkF (source replica : Path) (fuel : Nat) (st : St) (p : Path)
    (h : (walkF source replica fuel st p).err = none) : st.err = none := by
  cases he : st.err with
  | none => rfl
  | some e =>
    rw [walkF_of_err source replica fuel st p (by rw [he]; rfl)] at h
    rw [he] at h
    exact h

theorem err_none_of_walkR (source replica : Path) (fuel : Nat) (st : St) (p : Path)
    (h : (walkR source replica fuel st p).err = none) : st.err = none := by
  cases he : st.err with
  | none => rfl
  | some e =>
    rw [walkR_of_err source replica fuel st p (by rw [he]; rfl)] at h
    rw [he] at h
    exact h

theorem err_none_of_foldl {α : Type} (f : St → α → St)
    (hstep : ∀ s x, s.err.isSome = true → (f s x).err.isSome = true)
    (l : List α) (s : St) (h : (l.foldl f s).err = none) : s.err = none := by
  cases he : s.err with
  | none => rfl
  | some e =>
    have hp := foldl_pres (fun t => t.err.isSome = true) f hstep l s
      (by show s.err.isSome = true; rw [he]; rfl)
    have hp2 : (l.foldl f s).err.isSome = true := hp
    rw [h] at hp2
    simp at hp2

/-! ### Frame lemmas: which keys each pass can touch -/

theorem processReplicaFile_fs (st : St) (d sd : Path) (f : Name) :
    (processReplicaFile st d sd f).fs = st.fs ∨
      (processReplicaFile st d sd f).fs = eraseKey st.fs (d ++ [f]) := by
  cases herr : st.err with
  | some e =>
    rw [processReplicaFile_of_err st d sd f (by rw [herr]; rfl)]
    exact Or.inl rfl
  | none =>
    by_cases hex : pyExists st.fs (sd ++ [f])
    · have hres : processReplicaFile st d sd f = st := by
        unfold processReplicaFile
        simp [herr, hex]
      rw [hres]
      exact Or.inl rfl
    · have hres : processReplicaFile st d sd f =
          { st with fs := eraseKey st.fs (d ++ [f]),
                    events := st.events ++ [Event.fileRemoved (d ++ [f])] } := by
        unfold processReplicaFile
        simp [herr, hex]
      rw [hres]
      exact Or.inr rfl

theorem walkR_frame (source replica : Path) (fuel : Nat) :
    ∀ p st k, ¬ p.IsPrefix k →
      lookupFS (walkR source replica fuel st p).fs k = lookupFS st.fs k := by
  induction fuel with
  | zero => intro p st k _; rfl
  | succ n ih =>
    intro p st k hk
    cases herr : st.err with
    | some e =>
      rw [walkR_of_err source replica (n + 1) st p (by rw [herr]; rfl)]
    | none =>
      cases hls : listDir st.fs p with
      | none => rw [walkR_stop source replica (n + 1) st p hls]
      | some pr =>
        obtain ⟨ds, fls⟩ := pr
        rw [walkR_succ_some source replica n st p ds fls herr hls]
        have hstep : ∀ s d, lookupFS (walkR source replica n s (p ++ [d])).fs k =
            lookupFS s.fs k := by
          intro s d
          apply ih
          intro hcon
          exact hk ((List.prefix_append p [d]).trans hcon)
        have hbase : lookupFS
            (if pyExists st.fs (source ++ relpathDot p replica) then
              fls.foldl (fun s f => processReplicaFile s p (source ++ relpathDot p replica) f) st
            else
              { st with fs := eraseTree st.fs p,
                        events := st.events ++ [Event.dirRemoved p] }).fs k =
            lookupFS st.fs k := by
          by_cases hex : pyExists st.fs (source ++ relpathDot p replica)
          · simp only [hex, if_true]
            refine foldl_pres (fun s => lookupFS s.fs k = lookupFS st.fs k) _ ?_ fls st rfl
            intro s f hs
            rcases processReplicaFile_fs s p (source ++ relpathDot p replica) f with h1 | h1
            · rw [h1]
              exact hs
            · rw [h1, lookup_eraseKey]
              have hne : k ≠ p ++ [f] := by
                intro hcon
                exact hk (hcon ▸ List.prefix_append p [f])
              simp only [hne, if_false]
              exact hs
          · simp only [hex, Bool.false_eq_true, if_false]
            show lookupFS (eraseTree st.fs p) k = lookupFS st.fs k
            rw [lookup_eraseTree]
            simp only [hk, if_false]
        calc lookupFS (ds.foldl (fun s d => walkR source replica n s (p ++ [d])) _).fs k
            = lookupFS (if pyExists st.fs (source ++ relpathDot p replica) then
                fls.foldl (fun s f => processReplicaFile s p (source ++ relpathDot p replica) f) st
              else
                { st with fs := eraseTree st.fs p,
                          events := st.events ++ [Event.dirRemoved p] }).fs k := by
              refine foldl_pres (fun s => lookupFS s.fs k = lookupFS _ k) _ ?_ ds _ rfl
              intro s d hs
              rw [hstep s d]
              exact hs
          _ = lookupFS st.fs k := hbase

theorem walkR_shrink (source replica : Path) (fuel : Nat) :
    ∀ p st k, lookupFS (walkR source replica fuel st p).fs k = lookupFS st.fs k ∨
      lookupFS (walkR source replica fuel st p).fs k = none := by
  induction fuel with
  | zero => intro p st k; exact Or.inl rfl
  | succ n ih =>
    intro p st k
    cases herr : st.err with
    | some e =>
      rw [walkR_of_err source replica (n + 1) st p (by rw [herr]; rfl)]
      exact Or.inl rfl
    | none =>
      cases hls : listDir st.fs p with
      | none =>
        rw [walkR_stop source replica (n + 1) st p hls]
        exact Or.inl rfl
      | some pr =>
        obtain ⟨ds, fls⟩ := pr
        rw [walkR_succ_some source replica n st p ds fls herr hls]
        have hP : ∀ s2 : St,
            (lookupFS s2.fs k = lookupFS st.fs k ∨ lookupFS s2.fs k = none) →
            ∀ l : List Name,
            (lookupFS (l.foldl (fun s d => walkR source replica n s (p ++ [d])) s2).fs k =
              lookupFS st.fs k ∨
             lookupFS (l.foldl (fun s d => walkR source replica n s (p ++ [d])) s2).fs k =
              none) := by
          intro s2 hs2 l
          refine foldl_pres
            (fun s => lookupFS s.fs k = lookupFS st.fs k ∨ lookupFS s.fs k = none)
            _ ?_ l s2 hs2
          intro s d hs
          rcases ih (p ++ [d]) s k with h1 | h1
          · rw [h1]
            exact hs
          · rw [h1]
            exact Or.inr rfl
        apply hP
        by_cases hex : pyExists st.fs (source ++ relpathDot p replica)
        · simp only [hex, if_true]
          refine foldl_pres
            (fun s => lookupFS s.fs k = lookupFS st.fs k ∨ lookupFS s.fs k = none)
            _ ?_ fls st (Or.inl rfl)
          intro s f hs
          rcases processReplicaFile_fs s p (source ++ relpathDot p replica) f with h1 | h1
          · rw [h1]
            exact hs
          · rw [h1, lookup_eraseKey]
            by_cases hkf : k = p ++ [f]
            · rw [if_pos hkf]
              exact Or.inr rfl
            · rw [if_neg hkf]
              exact hs
        · simp only [hex, Bool.false_eq_true, if_false]
          show lookupFS (eraseTree st.fs p) k = lookupFS st.fs k ∨
            lookupFS (eraseTree st.fs p) k = none
          rw [lookup_eraseTree]
          by_cases hpk : p.IsPrefix k
          · rw [if_pos hpk]
            exact Or.inr rfl
          · rw [if_neg hpk]
            exact Or.inl rfl

theorem pyMakedirs_frame (fs fs2 : FS) (t : Path) (h : pyMakedirs fs t = Except.ok fs2)
    (k : Path) (hk : ¬ k.IsPrefix t) : lookupFS fs2 k = lookupFS fs k := by
  unfold pyMakedirs at h
  rcases makedirsAux_spec _ fs [] fs2 h k with h1 | ⟨_, _, _, h4, _⟩
  · exact h1
  · exfalso
    simp only [List.nil_append] at h4
    by_cases hdot : t.getLast? = some "."
    · simp only [hdot, if_true] at h4
      exact hk (h4.trans (List.dropLast_prefix t))
    · simp only [hdot, if_false] at h4
      exact hk h4

theorem pyMakedirs_dir_mono (fs fs2 : FS) (t : Path) (h : pyMakedirs fs t = Except.ok fs2)
    (q : Path) (hq : isDirAt fs q = true) : isDirAt fs2 q = true := by
  unfold pyMakedirs at h
  unfold isDirAt at hq ⊢
  cases hl : lookupFS fs q with
  | none =>
    rw [hl] at hq
    simp at hq
  | some e =>
    rw [hl] at hq
    cases e
    · simp at hq
    · rw [makedirsAux_mono _ fs [] fs2 h q Entry.dir hl]

theorem doCopy_frame (replica : Path) (hrc : ∀ n ∈ replica, n ≠ ".") (st : St)
    (src : Path) (rest : List Name) (k : Path) (hk : ¬ replica.IsPrefix k) :
    lookupFS (doCopy st src (replica ++ rest)).fs k = lookupFS st.fs k := by
  unfold doCopy
  cases hc : copy2 st.fs src (replica ++ rest) with
  | error e => rfl
  | ok fs2 =>
    obtain ⟨qs, c, qd, _, _, hr2, _, _, _, hfs2⟩ := copy2_ok_spec st.fs src (replica ++ rest) fs2 hc
    have hpre : replica.IsPrefix qd := resolve_prefix_of_clean st.fs replica rest hrc qd hr2
    have hne : k ≠ qd := by
      intro hcon
      exact hk (hcon ▸ hpre)
    show lookupFS fs2 k = lookupFS st.fs k
    rw [hfs2, lookup_setEntry]
    simp only [hne, if_false]

theorem doCopy_dir_mono (st : St) (src dst : Path) (q : Path)
    (hq : isDirAt st.fs q = true) : isDirAt (doCopy st src dst).fs q = true := by
  unfold doCopy
  cases hc : copy2 st.fs src dst with
  | error e => exact hq
  | ok fs2 =>
    obtain ⟨qs, c, qd, _, _, _, hnd, _, _, hfs2⟩ := copy2_ok_spec st.fs src dst fs2 hc
    have hne : q ≠ qd := by
      intro hcon
      rw [hcon] at hq
      rw [hq] at hnd
      exact Bool.noConfusion hnd
    show isDirAt fs2 q = true
    unfold isDirAt at hq ⊢
    rw [hfs2, lookup_setEntry]
    simp only [hne, if_false]
    exact hq

theorem processSourceFile_frame (replica : Path) (hrc : ∀ n ∈ replica, n ≠ ".") (st : St)
    (d : Path) (rel : List Name) (f : Name) (k : Path) (hk : ¬ replica.IsPrefix k) :
    lookupFS (processSourceFile st d (replica ++ rel) f).fs k = lookupFS st.fs k := by
  cases herr : st.err with
  | some e =>
    rw [processSourceFile_of_err st d (replica ++ rel) f (by rw [herr]; rfl)]
  | none =>
    by_cases hex : pyExists st.fs (replica ++ (rel ++ [f]))
    · cases h1 : calculate_md5 st.fs (d ++ [f]) with
      | error e =>
        have hres : processSourceFile st d (replica ++ rel) f = { st with err := some e } := by
          unfold processSourceFile
          simp [herr, hex, h1]
        rw [hres]
      | ok c1 =>
        cases h2 : calculate_md5 st.fs (replica ++ (rel ++ [f])) with
        | error e =>
          have hres : processSourceFile st d (replica ++ rel) f = { st with err := some e } := by
            unfold processSourceFile
            simp [herr, hex, h1, h2]
          rw [hres]
        | ok c2 =>
          by_cases heq : c1 = c2
          · have hres : processSourceFile st d (replica ++ rel) f = st := by
              unfold processSourceFile
              simp [herr, hex, h1, h2, heq]
            rw [hres]
          · have hres : processSourceFile st d (replica ++ rel) f =
                doCopy st (d ++ [f]) (replica ++ (rel ++ [f])) := by
              unfold processSourceFile
              simp [herr, hex, h1, h2, heq]
            rw [hres]
            exact doCopy_frame replica hrc st (d ++ [f]) (rel ++ [f]) k hk
    · have hres : processSourceFile st d (replica ++ rel) f =
          doCopy st (d ++ [f]) (replica ++ (rel ++ [f])) := by
        unfold processSourceFile
        simp [herr, hex]
      rw [hres]
      exact doCopy_frame replica hrc st (d ++ [f]) (rel ++ [f]) k hk

theorem processSourceFile_dir_mono (st : St) (d rd : Path) (f : Name) (q : Path)
    (hq : isDirAt st.fs q = true) :
    isDirAt (processSourceFile st d rd f).fs q = true := by
  cases herr : st.err with
  | some e =>
    rw [processSourceFile_of_err st d rd f (by rw [herr]; rfl)]
    exact hq
  | none =>
    by_cases hex : pyExists st.fs (rd ++ [f])
    · cases h1 : calculate_md5 st.fs (d ++ [f]) with
      | error e =>
        have hres : processSourceFile st d rd f = { st with err := some e } := by
          unfold processSourceFile
          simp [herr, hex, h1]
        rw [hres]
        exact hq
      | ok c1 =>
        cases h2 : calculate_md5 st.fs (rd ++ [f]) with
        | error e =>
          have hres : processSourceFile st d rd f = { st with err := some e } := by
            unfold processSourceFile
            simp [herr, hex, h1, h2]
          rw [hres]
          exact hq
        | ok c2 =>
          by_cases heq : c1 = c2
          · have hres : processSourceFile st d rd f = st := by
              unfold processSourceFile
              simp [herr, hex, h1, h2, heq]
            rw [hres]
            exact hq
          · have hres : processSourceFile st d rd f =
                doCopy st (d ++ [f]) (rd ++ [f]) := by
              unfold processSourceFile
              simp [herr, hex, h1, h2, heq]
            rw [hres]
            exact doCopy_dir_mono st (d ++ [f]) (rd ++ [f]) q hq
    · have hres : processSourceFile st d rd f = doCopy st (d ++ [f]) (rd ++ [f]) := by
        unfold processSourceFile
        simp [herr, hex]
      rw [hres]
      exact doCopy_dir_mono st (d ++ [f]) (rd ++ [f]) q hq

theorem processSourceDir_frame (source replica : Path) (hrc : ∀ n ∈ replica, n ≠ ".")
    (st : St) (d : Path) (fls : List Name) (k : Path)
    (hk1 : ¬ replica.IsPrefix k) (hk2 : ¬ k.IsPrefix replica) :
    lookupFS (processSourceDir source replica st d fls).fs k = lookupFS st.fs k := by
  unfold processSourceDir
  by_cases he : st.err.isSome
  · simp only [he, if_true]
  · simp only [he, if_false]
    have hfold : ∀ s2 : St, lookupFS s2.fs k = lookupFS st.fs k →
        lookupFS ((fls.foldl
          (fun s f => processSourceFile s d (replica ++ relpathDot d source) f) s2)).fs k =
          lookupFS st.fs k := by
      intro s2 hs2
      refine foldl_pres (fun s => lookupFS s.fs k = lookupFS st.fs k) _ ?_ fls s2 hs2
      intro s f hs
      rw [processSourceFile_frame replica hrc s d (relpathDot d source) f k hk1]
      exact hs
    by_cases hex : pyExists st.fs (replica ++ relpathDot d source)
    · simp only [hex, if_true]
      exact hfold st rfl
    · simp only [hex, Bool.false_eq_true, if_false]
      cases hmk : pyMakedirs st.fs (replica ++ relpathDot d source) with
      | ok fs2 =>
        apply hfold
        show lookupFS fs2 k = lookupFS st.fs k
        apply pyMakedirs_frame st.fs fs2 (replica ++ relpathDot d source) hmk
        intro hcon
        rcases List.prefix_or_prefix_of_prefix hcon (List.prefix_append replica _) with h1 | h1
        · exact hk2 h1
        · exact hk1 h1
      | error e =>
        exact hfold { st with err := some e } rfl

theorem processSourceDir_dir_mono (source replica : Path) (st : St) (d : Path)
    (fls : List Name) (q : Path) (hq : isDirAt st.fs q = true) :
    isDirAt (processSourceDir source replica st d fls).fs q = true := by
  unfold processSourceDir
  by_cases he : st.err.isSome
  · simp only [he, if_true]
    exact hq
  · simp only [he, if_false]
    have hfold : ∀ s2 : St, isDirAt s2.fs q = true →
        isDirAt ((fls.foldl
          (fun s f => processSourceFile s d (replica ++ relpathDot d source) f) s2)).fs q =
          true := by
      intro s2 hs2
      refine foldl_pres (fun s => isDirAt s.fs q = true) _ ?_ fls s2 hs2
      intro s f hs
      exact processSourceFile_dir_mono s d (replica ++ relpathDot d source) f q hs
    by_cases hex : pyExists st.fs (replica ++ relpathDot d source)
    · simp only [hex, if_true]
      exact hfold st hq
    · simp only [hex, Bool.false_eq_true, if_false]
      cases hmk : pyMakedirs st.fs (replica ++ relpathDot d source) with
      | ok fs2 =>
        apply hfold
        exact pyMakedirs_dir_mono st.fs fs2 (replica ++ relpathDot d source) hmk q hq
      | error e =>
        exact hfold { st with err := some e } hq

theorem walkF_frame (source replica : Path) (hrc : ∀ n ∈ replica, n ≠ ".") (fuel : Nat) :
    ∀ p st k, ¬ replica.IsPrefix k → ¬ k.IsPrefix replica →
      lookupFS (walkF source replica fuel st p).fs k = lookupFS st.fs k := by
  induction fuel with
  | zero => intro p st k _ _; rfl
  | succ n ih =>
    intro p st k hk1 hk2
    cases herr : st.err with
    | some e =>
      rw [walkF_of_err source replica (n + 1) st p (by rw [herr]; rfl)]
    | none =>
      cases hls : listDir st.fs p with
      | none => rw [walkF_stop source replica (n + 1) st p hls]
      | some pr =>
        obtain ⟨ds, fls⟩ := pr
        rw [walkF_succ_some source replica n st p ds fls herr hls]
        have hbase := processSourceDir_frame source replica hrc st p fls k hk1 hk2
        refine foldl_pres (fun s => lookupFS s.fs k = lookupFS st.fs k) _ ?_ ds _ hbase
        intro s d hs
        rw [ih (p ++ [d]) s k hk1 hk2]
        exact hs

theorem walkF_dir_mono (source replica : Path) (fuel : Nat) :
    ∀ p st q, isDirAt st.fs q = true →
      isDirAt (walkF source replica fuel st p).fs q = true := by
  induction fuel with
  | zero => intro p st q hq; exact hq
  | succ n ih =>
    intro p st q hq
    cases herr : st.err with
    | some e =>
      rw [walkF_of_err source replica (n + 1) st p (by rw [herr]; rfl)]
      exact hq
    | none =>
      cases hls : listDir st.fs p with
      | none =>
        rw [walkF_stop source replica (n + 1) st p hls]
        exact hq
      | some pr =>
        obtain ⟨ds, fls⟩ := pr
        rw [walkF_succ_some source replica n st p ds fls herr hls]
        have hbase := processSourceDir_dir_mono source replica st p fls q hq
        refine foldl_pres (fun s => isDirAt s.fs q = true) _ ?_ ds _ hbase
        intro s d hs
        exact ih (p ++ [d]) s q hs

theorem pyMakedirs_changed (fs fs2 : FS) (t k : Path) (h : pyMakedirs fs t = Except.ok fs2)
    (hne : lookupFS fs2 k ≠ lookupFS fs k) :
    lookupFS fs k = none ∧ lookupFS fs2 k = some Entry.dir ∧ 0 < k.length ∧
      k.IsPrefix t := by
  unfold pyMakedirs at h
  rcases makedirsAux_spec _ fs [] fs2 h k with h1 | ⟨h1, h2, _, h4, h5⟩
  · exact absurd h1 hne
  · simp only [List.nil_append] at h4
    simp only [List.length_nil] at h5
    refine ⟨h1, h2, h5, ?_⟩
    by_cases hdot : t.getLast? = some "."
    · simp only [hdot, if_true] at h4
      exact h4.trans (List.dropLast_prefix t)
    · simp only [hdot, if_false] at h4
      exact h4

theorem doCopy_isSome_mono (st : St) (src dst : Path) (q : Path)
    (hq : (lookupFS st.fs q).isSome = true) :
    (lookupFS (doCopy st src dst).fs q).isSome = true := by
  unfold doCopy
  cases hc : copy2 st.fs src dst with
  | error e => exact hq
  | ok fs2 =>
    obtain ⟨qs, c, qd, _, _, _, _, _, _, hfs2⟩ := copy2_ok_spec st.fs src dst fs2 hc
    show (lookupFS fs2 q).isSome = true
    rw [hfs2, lookup_setEntry]
    by_cases hqd : q = qd
    · simp [hqd]
    · simp only [hqd, if_false]
      exact hq

theorem processSourceFile_isSome_mono (st : St) (d rd : Path) (f : Name) (q : Path)
    (hq : (lookupFS st.fs q).isSome = true) :
    (lookupFS (processSourceFile st d rd f).fs q).isSome = true := by
  cases herr : st.err with
  | some e =>
    rw [processSourceFile_of_err st d rd f (by rw [herr]; rfl)]
    exact hq
  | none =>
    by_cases hex : pyExists st.fs (rd ++ [f])
    · cases h1 : calculate_md5 st.fs (d ++ [f]) with
      | error e =>
        have hres : processSourceFile st d rd f = { st with err := some e } := by
          unfold processSourceFile
          simp [herr, hex, h1]
        rw [hres]
        exact hq
      | ok c1 =>
        cases h2 : calculate_md5 st.fs (rd ++ [f]) with
        | error e =>
          have hres : processSourceFile st d rd f = { st with err := some e } := by
            unfold processSourceFile
            simp [herr, hex, h1, h2]
          rw [hres]
          exact hq
        | ok c2 =>
          by_cases heq : c1 = c2
          · have hres : processSourceFile st d rd f = st := by
              unfold processSourceFile
              simp [herr, hex, h1, h2, heq]
            rw [hres]
            exact hq
          · have hres : processSourceFile st d rd f =
                doCopy st (d ++ [f]) (rd ++ [f]) := by
              unfold processSourceFile
              simp [herr, hex, h1, h2, heq]
            rw [hres]
            exact doCopy_isSome_mono st (d ++ [f]) (rd ++ [f]) q hq
    · have hres : processSourceFile st d rd f = doCopy st (d ++ [f]) (rd ++ [f]) := by
        unfold processSourceFile
        simp [herr, hex]
      rw [hres]
      exact doCopy_isSome_mono st (d ++ [f]) (rd ++ [f]) q hq

theorem processSourceDir_isSome_mono (source replica : Path) (st : St) (d : Path)
    (fls : List Name) (q : Path) (hq : (lookupFS st.fs q).isSome = true) :
    (lookupFS (processSourceDir source replica st d fls).fs q).isSome = true := by
  cases herr : st.err with
  | some e =>
    rw [processSourceDir_of_err source replica st d fls (by rw [herr]; rfl)]
    exact hq
  | none =>
    have hfold : ∀ s2 : St, (lookupFS s2.fs q).isSome = true →
        (lookupFS ((fls.foldl
          (fun s f => processSourceFile s d (replica ++ relpathDot d source) f) s2)).fs
          q).isSome = true := by
      intro s2 hs2
      refine foldl_pres (fun s => (lookupFS s.fs q).isSome = true) _ ?_ fls s2 hs2
      intro s f hs
      exact processSourceFile_isSome_mono s d (replica ++ relpathDot d source) f q hs
    by_cases hex : pyExists st.fs (replica ++ relpathDot d source)
    · have hres : processSourceDir source replica st d fls =
          fls.foldl (fun s f => processSourceFile s d (replica ++ relpathDot d source) f) st := by
        unfold processSourceDir
        simp [herr, hex]
      rw [hres]
      exact hfold st hq
    · cases hmk : pyMakedirs st.fs (replica ++ relpathDot d source) with
      | ok fs2 =>
        have hres : processSourceDir source replica st d fls =
            fls.foldl (fun s f => processSourceFile s d (replica ++ relpathDot d source) f)
              { st with fs := fs2,
                        events := st.events ++
                          [Event.dirCreated (replica ++ relpathDot d source)] } := by
          unfold processSourceDir
          simp [herr, hex, hmk]
        rw [hres]
        apply hfold
        show (lookupFS fs2 q).isSome = true
        cases hl : lookupFS st.fs q with
        | none =>
          rw [hl] at hq
          simp at hq
        | some e =>
          rw [makedirsAux_mono _ st.fs [] fs2 hmk q e hl]
          rfl
      | error e =>
        have hres : processSourceDir source replica st d fls =
            fls.foldl (fun s f => processSourceFile s d (replica ++ relpathDot d source) f)
              { st with err := some e } := by
          unfold processSourceDir
          simp [herr, hex, hmk]
        rw [hres]
        exact hfold { st with err := some e } hq

theorem walkF_isSome_mono (source replica : Path) (fuel : Nat) :
    ∀ p st q, (lookupFS st.fs q).isSome = true →
      (lookupFS (walkF source replica fuel st p).fs q).isSome = true := by
  induction fuel with
  | zero => intro p st q hq; exact hq
  | succ n ih =>
    intro p st q hq
    cases herr : st.err with
    | some e =>
      rw [walkF_of_err source replica (n + 1) st p (by rw [herr]; rfl)]
      exact hq
    | none =>
      cases hls : listDir st.fs p with
      | none =>
        rw [walkF_stop source replica (n + 1) st p hls]
        exact hq
      | some pr =>
        obtain ⟨ds, fls⟩ := pr
        rw [walkF_succ_some source replica n st p ds fls herr hls]
        have hbase := processSourceDir_isSome_mono source replica st p fls q hq
        refine foldl_pres (fun s => (lookupFS s.fs q).isSome = true) _ ?_ ds _ hbase
        intro s d hs
        exact ih (p ++ [d]) s q hs

theorem processSourceDir_frame_strong (source replica : Path)
    (hrc : ∀ n ∈ replica, n ≠ ".") (st : St) (d : Path) (fls : List Name) (k : Path)
    (hk : ¬ replica.IsPrefix k)
    (hanc : ∀ q, q.IsPrefix replica → q ≠ [] → (lookupFS st.fs q).isSome = true) :
    lookupFS (processSourceDir source replica st d fls).fs k = lookupFS st.fs k := by
  cases herr : st.err with
  | some e =>
    rw [processSourceDir_of_err source replica st d fls (by rw [herr]; rfl)]
  | none =>
    have hfold : ∀ s2 : St, lookupFS s2.fs k = lookupFS st.fs k →
        lookupFS ((fls.foldl
          (fun s f => processSourceFile s d (replica ++ relpathDot d source) f) s2)).fs k =
          lookupFS st.fs k := by
      intro s2 hs2
      refine foldl_pres (fun s => lookupFS s.fs k = lookupFS st.fs k) _ ?_ fls s2 hs2
      intro s f hs
      rw [processSourceFile_frame replica hrc s d (relpathDot d source) f k hk]
      exact hs
    by_cases hex : pyExists st.fs (replica ++ relpathDot d source)
    · have hres : processSourceDir source replica st d fls =
          fls.foldl (fun s f => processSourceFile s d (replica ++ relpathDot d source) f) st := by
        unfold processSourceDir
        simp [herr, hex]
      rw [hres]
      exact hfold st rfl
    · cases hmk : pyMakedirs st.fs (replica ++ relpathDot d source) with
      | ok fs2 =>
        have hres : processSourceDir source replica st d fls =
            fls.foldl (fun s f => processSourceFile s d (replica ++ relpathDot d source) f)
              { st with fs := fs2,
                        events := st.events ++
                          [Event.dirCreated (replica ++ relpathDot d source)] } := by
          unfold processSourceDir
          simp [herr, hex, hmk]
        rw [hres]
        apply hfold
        show lookupFS fs2 k = lookupFS st.fs k
        by_cases hch : lookupFS fs2 k = lookupFS st.fs k
        · exact hch
        · exfalso
          obtain ⟨hmiss, _, hlen, hpre⟩ :=
            pyMakedirs_changed st.fs fs2 (replica ++ relpathDot d source) k hmk hch
          rcases List.prefix_or_prefix_of_prefix hpre
            (List.prefix_append replica (relpathDot d source)) with h1 | h1
          · have hk0 : k ≠ [] := by
              intro hcon
              rw [hcon] at hlen
              simp at hlen
            have := hanc k h1 hk0
            rw [hmiss] at this
            simp at this
          · exact hk h1
      | error e =>
        have hres : processSourceDir source replica st d fls =
            fls.foldl (fun s f => processSourceFile s d (replica ++ relpathDot d source) f)
              { st with err := some e } := by
          unfold processSourceDir
          simp [herr, hex, hmk]
        rw [hres]
        exact hfold { st with err := some e } rfl

theorem walkF_frame_strong (source replica : Path) (hrc : ∀ n ∈ replica, n ≠ ".")
    (fuel : Nat) :
    ∀ p st k, ¬ replica.IsPrefix k →
      (∀ q, q.IsPrefix replica → q ≠ [] → (lookupFS st.fs q).isSome = true) →
      lookupFS (walkF source replica fuel st p).fs k = lookupFS st.fs k := by
  induction fuel with
  | zero => intro p st k _ _; rfl
  | succ n ih =>
    intro p st k hk hanc
    cases herr : st.err with
    | some e =>
      rw [walkF_of_err source replica (n + 1) st p (by rw [herr]; rfl)]
    | none =>
      cases hls : listDir st.fs p with
      | none => rw [walkF_stop source replica (n + 1) st p hls]
      | some pr =>
        obtain ⟨ds, fls⟩ := pr
        rw [walkF_succ_some source replica n st p ds fls herr hls]
        have hbase1 := processSourceDir_frame_strong source replica hrc st p fls k hk hanc
        have hbase2 : ∀ q, q.IsPrefix replica → q ≠ [] →
            (lookupFS (processSourceDir source replica st p fls).fs q).isSome = true := by
          intro q hq hq0
          exact processSourceDir_isSome_mono source replica st p fls q (hanc q hq hq0)
        have hP := foldl_pres
          (fun s => lookupFS s.fs k = lookupFS st.fs k ∧
            ∀ q, q.IsPrefix replica → q ≠ [] → (lookupFS s.fs q).isSome = true)
          (fun s d => walkF source replica n s (p ++ [d])) ?_ ds
          (processSourceDir source replica st p fls) ⟨hbase1, hbase2⟩
        · exact hP.1
        · intro s d hs
          constructor
          · rw [ih (p ++ [d]) s k hk hs.2]
            exact hs.1
          · intro q hq hq0
            exact walkF_isSome_mono source replica n (p ++ [d]) s q (hs.2 q hq hq0)

theorem walkR_root_dir (source replica : Path) (hsc : ∀ n ∈ source, n ≠ ".")
    (fuel : Nat) (st : St)
    (hsrc : isDirAt st.fs source = true) (hrep : isDirAt st.fs replica = true) :
    isDirAt (walkR source replica fuel st replica).fs replica = true := by
  cases fuel with
  | zero => exact hrep
  | succ n =>
    cases herr : st.err with
    | some e =>
      rw [walkR_of_err source replica (n + 1) st replica (by rw [herr]; rfl)]
      exact hrep
    | none =>
      cases hls : listDir st.fs replica with
      | none =>
        rw [walkR_stop source replica (n + 1) st replica hls]
        exact hrep
      | some pr =>
        obtain ⟨ds, fls⟩ := pr
        rw [walkR_succ_some source replica n st replica ds fls herr hls]
        have hex : pyExists st.fs (source ++ relpathDot replica replica) = true := by
          rw [relpathDot_self, pyExists_root_dot st.fs source hsc]
          exact hsrc
        rw [hex]
        simp only [if_true]
        have hbase : isDirAt
            (fls.foldl (fun s f => processReplicaFile s replica
              (source ++ relpathDot replica replica) f) st).fs replica = true := by
          refine foldl_pres (fun s => isDirAt s.fs replica = true) _ ?_ fls st hrep
          intro s f hs
          rcases processReplicaFile_fs s replica (source ++ relpathDot replica replica) f
            with h1 | h1
          · unfold isDirAt at hs ⊢
            rw [h1]
            exact hs
          · unfold isDirAt at hs ⊢
            rw [h1, lookup_eraseKey]
            have hne : replica ≠ replica ++ [f] := by
              intro hcon
              have := congrArg List.length hcon
              simp at this
            simp only [hne, if_false]
            exact hs
        refine foldl_pres (fun s => isDirAt s.fs replica = true) _ ?_ ds _ hbase
        intro s d hs
        unfold isDirAt at hs ⊢
        rw [walkR_frame source replica n (replica ++ [d]) s replica ?_]
        · exact hs
        · intro hcon
          have := hcon.length_le
          simp at this

/-- C2: in the forward pass, a source file is copied to its replica path
if and only if the replica file does not exist or the two full-file
digests differ; when the replica file exists both digests are computed
in full (first the source digest, then the replica digest, with either
failure propagating), and a pair with equal digests — in particular a
byte-identical pair, since the digest is determined by the byte content —
produces no copy, no event and no state change. -/
theorem claim2 (st : St) (dirpath replica_dir : Path) (f : Name) (herr : st.err = none) :
    (pyExists st.fs (replica_dir ++ [f]) = false →
      processSourceFile st dirpath replica_dir f =
        doCopy st (dirpath ++ [f]) (replica_dir ++ [f])) ∧
    (∀ e, pyExists st.fs (replica_dir ++ [f]) = true →
      calculate_md5 st.fs (dirpath ++ [f]) = Except.error e →
      processSourceFile st dirpath replica_dir f = { st with err := some e }) ∧
    (∀ h1 e, pyExists st.fs (replica_dir ++ [f]) = true →
      calculate_md5 st.fs (dirpath ++ [f]) = Except.ok h1 →
      calculate_md5 st.fs (replica_dir ++ [f]) = Except.error e →
      processSourceFile st dirpath replica_dir f = { st with err := some e }) ∧
    (∀ h1 h2, pyExists st.fs (replica_dir ++ [f]) = true →
      calculate_md5 st.fs (dirpath ++ [f]) = Except.ok h1 →
      calculate_md5 st.fs (replica_dir ++ [f]) = Except.ok h2 →
      h1 ≠ h2 →
      processSourceFile st dirpath replica_dir f =
        doCopy st (dirpath ++ [f]) (replica_dir ++ [f])) ∧
    (∀ h1 h2, pyExists st.fs (replica_dir ++ [f]) = true →
      calculate_md5 st.fs (dirpath ++ [f]) = Except.ok h1 →
      calculate_md5 st.fs (replica_dir ++ [f]) = Except.ok h2 →
      h1 = h2 →
      processSourceFile st dirpath replica_dir f = st) := by
  refine ⟨?_, ?_, ?_, ?_, ?_⟩
  · intro hex
    unfold processSourceFile
    simp [herr, hex]
  · intro e hex hmd
    unfold processSourceFile
    simp [herr, hex, hmd]
  · intro h1 e hex h1ok h2e
    unfold processSourceFile
    simp [herr, hex, h1ok, h2e]
  · intro h1 h2 hex h1ok h2ok hne
    unfold processSourceFile
    simp [herr, hex, h1ok, h2ok, hne]
  · intro h1 h2 hex h1ok h2ok heq
    subst heq
    unfold processSourceFile
    simp [herr, hex, h1ok, h2ok]

/-- Witness for C2 at a concrete input: the replica file does not exist,
so the file is handed to the copy step. -/
theorem claim2_witness :
    (st0 fsSimple).err = none ∧
    (pyExists (st0 fsSimple).fs (["r", "."] ++ ["a"]) = false →
      processSourceFile (st0 fsSimple) ["s"] ["r", "."] "a" =
        doCopy (st0 fsSimple) (["s"] ++ ["a"]) (["r", "."] ++ ["a"])) :=
  ⟨rfl, (claim2 (st0 fsSimple) ["s"] ["r", "."] "a" rfl).1⟩

/-! ### Claim C3: orphaned replica directories are removed wholesale -/

/-- C3: when the reverse pass visits a replica directory whose
corresponding source directory does not exist, the visit removes the
whole subtree, emits exactly one DirRemoved event (none for the
descendants), and the continuing walk finds nothing below the removed
directory — the resulting state is exactly the input state with the
subtree erased and one event appended. -/
theorem claim3 (source replica : Path) (fuel : Nat) (st : St) (dirpath : Path)
    (herr : st.err = none)
    (hdir : isDirAt st.fs dirpath = true)
    (hmiss : pyExists st.fs (source ++ relpathDot dirpath replica) = false) :
    walkR source replica (fuel + 1) st dirpath =
      { st with fs := eraseTree st.fs dirpath,
                events := st.events ++ [Event.dirRemoved dirpath] } := by
  rw [walkR_succ_some source replica fuel st dirpath (subdirNames st.fs dirpath)
      (fileNamesAt st.fs dirpath) herr (listDir_eq_some st.fs dirpath hdir)]
  rw [hmiss]
  simp only [Bool.false_eq_true, if_false]
  apply foldl_fix
  intro d
  apply walkR_stop
  apply listDir_eq_none
  show isDirAt (eraseTree st.fs dirpath) (dirpath ++ [d]) = false
  unfold isDirAt
  rw [lookup_eraseTree]
  simp [List.prefix_append]

/-- Witness for C3 at a concrete input: the replica root of fsNoSrcRoot
has no source counterpart and is removed in one step with one event. -/
theorem claim3_witness :
    (st0 fsNoSrcRoot).err = none ∧
    isDirAt (st0 fsNoSrcRoot).fs ["r"] = true ∧
    pyExists (st0 fsNoSrcRoot).fs (["s"] ++ relpathDot ["r"] ["r"]) = false ∧
    walkR ["s"] ["r"] (0 + 1) (st0 fsNoSrcRoot) ["r"] =
      { st0 fsNoSrcRoot with
          fs := eraseTree (st0 fsNoSrcRoot).fs ["r"],
          events := (st0 fsNoSrcRoot).events ++ [Event.dirRemoved ["r"]] } :=
  ⟨rfl, by decide, by decide,
    claim3 ["s"] ["r"] 0 (st0 fsNoSrcRoot) ["r"] rfl (by decide) (by decide)⟩

/-! ### Claim C5: there is no per-item error recovery -/

/-- C5 is false of the code: sync_folders contains no try/except, so an
IOError raised while processing one item propagates and aborts the whole
run.  At this concrete input the unreadable source file b makes the copy
step raise; the error is recorded, no event is logged, and the later
file c is never copied. -/
theorem claim5_counterexample :
    (sync_folders ["s"] ["r"] (st0 fsUnreadable)).err = some (Err.ioError ["s", "b"]) ∧
    (sync_folders ["s"] ["r"] (st0 fsUnreadable)).events = [] ∧
    lookupFS (sync_folders ["s"] ["r"] (st0 fsUnreadable)).fs ["r", "c"] = none := by
  refine ⟨by decide, by decide, by decide⟩

/-- C5 amended: an IOError during per-item processing is not caught
anywhere; it propagates, and from the moment the error is pending every
remaining step of both passes is skipped — a state carrying an error
passes through sync_folders unchanged. -/
theorem claim5_amended (source replica : Path) (st : St) (h : st.err.isSome = true) :
    sync_folders source replica st = st :=
  sync_folders_of_err source replica st h

/-- Witness for the amended C5 at a concrete errored state. -/
theorem claim5_witness :
    ({ fs := [], events := [], err := some (Err.ioError ["s"]) } : St).err.isSome = true ∧
    sync_folders ["s"] ["r"] { fs := [], events := [], err := some (Err.ioError ["s"]) } =
      { fs := [], events := [], err := some (Err.ioError ["s"]) } :=
  ⟨rfl, claim5_amended ["s"] ["r"] _ rfl⟩

theorem doCopy_events (st : St) (src dst : Path) :
    ∃ e, (doCopy st src dst).events = st.events ++ e ∧ ∀ y ∈ e, isFwdEvent y := by
  unfold doCopy
  cases hc : copy2 st.fs src dst with
  | ok fs2 =>
    refine ⟨[Event.fileCopied src dst], rfl, ?_⟩
    intro y hy
    simp at hy
    subst hy
    trivial
  | error e => exact ⟨[], by simp⟩

theorem processSourceFile_events (st : St) (d rd : Path) (f : Name) :
    ∃ e, (processSourceFile st d rd f).events = st.events ++ e ∧ ∀ y ∈ e, isFwdEvent y := by
  cases herr : st.err with
  | some e0 =>
    rw [processSourceFile_of_err st d rd f (by rw [herr]; rfl)]
    exact ⟨[], by simp⟩
  | none =>
    by_cases hex : pyExists st.fs (rd ++ [f])
    · cases h1 : calculate_md5 st.fs (d ++ [f]) with
      | error e =>
        have hres : processSourceFile st d rd f = { st with err := some e } := by
          unfold processSourceFile
          simp [herr, hex, h1]
        rw [hres]
        exact ⟨[], by simp⟩
      | ok c1 =>
        cases h2 : calculate_md5 st.fs (rd ++ [f]) with
        | error e =>
          have hres : processSourceFile st d rd f = { st with err := some e } := by
            unfold processSourceFile
            simp [herr, hex, h1, h2]
          rw [hres]
          exact ⟨[], by simp⟩
        | ok c2 =>
          by_cases heq : c1 = c2
          · have hres : processSourceFile st d rd f = st := by
              unfold processSourceFile
              simp [herr, hex, h1, h2, heq]
            rw [hres]
            exact ⟨[], by simp⟩
          · have hres : processSourceFile st d rd f =
                doCopy st (d ++ [f]) (rd ++ [f]) := by
              unfold processSourceFile
              simp [herr, hex, h1, h2, heq]
            rw [hres]
            exact doCopy_events st (d ++ [f]) (rd ++ [f])
    · have hres : processSourceFile st d rd f = doCopy st (d ++ [f]) (rd ++ [f]) := by
        unfold processSourceFile
        simp [herr, hex]
      rw [hres]
      exact doCopy_events st (d ++ [f]) (rd ++ [f])

theorem processSourceDir_events (source replica : Path) (st : St) (d : Path)
    (fls : List Name) :
    ∃ e, (processSourceDir source replica st d fls).events = st.events ++ e ∧
      ∀ y ∈ e, isFwdEvent y := by
  cases herr : st.err with
  | some e0 =>
    rw [processSourceDir_of_err source replica st d fls (by rw [herr]; rfl)]
    exact ⟨[], by simp⟩
  | none =>
    have hfold := foldl_events isFwdEvent
      (fun s f => processSourceFile s d (replica ++ relpathDot d source) f)
      (fun s f => processSourceFile_events s d (replica ++ relpathDot d source) f) fls
    by_cases hex : pyExists st.fs (replica ++ relpathDot d source)
    · have hres : processSourceDir source replica st d fls =
          fls.foldl (fun s f => processSourceFile s d (replica ++ relpathDot d source) f) st := by
        unfold processSourceDir
        simp [herr, hex]
      rw [hres]
      exact hfold st
    · cases hmk : pyMakedirs st.fs (replica ++ relpathDot d source) with
      | ok fs2 =>
        have hres : processSourceDir source replica st d fls =
            fls.foldl (fun s f => processSourceFile s d (replica ++ relpathDot d source) f)
              { st with fs := fs2,
                        events := st.events ++
                          [Event.dirCreated (replica ++ relpathDot d source)] } := by
          unfold processSourceDir
          simp [herr, hex, hmk]
        rw [hres]
        obtain ⟨e2, he2, hp2⟩ := hfold
          { st with fs := fs2,
                    events := st.events ++ [Event.dirCreated (replica ++ relpathDot d source)] }
        refine ⟨Event.dirCreated (replica ++ relpathDot d source) :: e2, ?_, ?_⟩
        · rw [he2]
          simp
        · intro y hy
          rcases List.mem_cons.1 hy with hy1 | hy1
          · subst hy1
            trivial
          · exact hp2 y hy1
      | error e =>
        have hres : processSourceDir source replica st d fls =
            fls.foldl (fun s f => processSourceFile s d (replica ++ relpathDot d source) f)
              { st with err := some e } := by
          unfold processSourceDir
          simp [herr, hex, hmk]
        rw [hres]
        exact hfold { st with err := some e }

theorem walkF_events (source replica : Path) (fuel : Nat) :
    ∀ p st, ∃ e, (walkF source replica fuel st p).events = st.events ++ e ∧
      ∀ y ∈ e, isFwdEvent y := by
  induction fuel with
  | zero => intro p st; exact ⟨[], by simp [walkF]⟩
  | succ n ih =>
    intro p st
    cases herr : st.err with
    | some e0 =>
      rw [walkF_of_err source replica (n + 1) st p (by rw [herr]; rfl)]
      exact ⟨[], by simp⟩
    | none =>
      cases hls : listDir st.fs p with
      | none =>
        rw [walkF_stop source replica (n + 1) st p hls]
        exact ⟨[], by simp⟩
      | some pr =>
        obtain ⟨ds, fls⟩ := pr
        rw [walkF_succ_some source replica n st p ds fls herr hls]
        have hfold := foldl_events isFwdEvent
          (fun s x => walkF source replica n s (p ++ [x]))
          (fun s x => ih (p ++ [x]) s) ds
        obtain ⟨e1, he1, hp1⟩ := processSourceDir_events source replica st p fls
        obtain ⟨e2, he2, hp2⟩ := hfold (processSourceDir source replica st p fls)
        refine ⟨e1 ++ e2, ?_, ?_⟩
        · rw [he2, he1, List.append_assoc]
        · intro y hy
          rcases List.mem_append.1 hy with hy1 | hy1
          · exact hp1 y hy1
          · exact hp2 y hy1

theorem processReplicaFile_events (st : St) (d sd : Path) (f : Name) :
    ∃ e, (processReplicaFile st d sd f).events = st.events ++ e ∧ ∀ y ∈ e, isRevEvent y := by
  cases herr : st.err with
  | some e0 =>
    rw [processReplicaFile_of_err st d sd f (by rw [herr]; rfl)]
    exact ⟨[], by simp⟩
  | none =>
    by_cases hex : pyExists st.fs (sd ++ [f])
    · have hres : processReplicaFile st d sd f = st := by
        unfold processReplicaFile
        simp [herr, hex]
      rw [hres]
      exact ⟨[], by simp⟩
    · have hres : processReplicaFile st d sd f =
          { st with fs := eraseKey st.fs (d ++ [f]),
                    events := st.events ++ [Event.fileRemoved (d ++ [f])] } := by
        unfold processReplicaFile
        simp [herr, hex]
      rw [hres]
      refine ⟨[Event.fileRemoved (d ++ [f])], rfl, ?_⟩
      intro y hy
      simp at hy
      subst hy
      trivial

theorem walkR_events (source replica : Path) (fuel : Nat) :
    ∀ p st, ∃ e, (walkR source replica fuel st p).events = st.events ++ e ∧
      ∀ y ∈ e, isRevEvent y := by
  induction fuel with
  | zero => intro p st; exact ⟨[], by simp [walkR]⟩
  | succ n ih =>
    intro p st
    cases herr : st.err with
    | some e0 =>
      rw [walkR_of_err source replica (n + 1) st p (by rw [herr]; rfl)]
      exact ⟨[], by simp⟩
    | none =>
      cases hls : listDir st.fs p with
      | none =>
        rw [walkR_stop source replica (n + 1) st p hls]
        exact ⟨[], by simp⟩
      | some pr =>
        obtain ⟨ds, fls⟩ := pr
        rw [walkR_succ_some source replica n st p ds fls herr hls]
        have hfold := foldl_events isRevEvent
          (fun s x => walkR source replica n s (p ++ [x]))
          (fun s x => ih (p ++ [x]) s) ds
        have hbase : ∃ e1,
            (if pyExists st.fs (source ++ relpathDot p replica) then
              fls.foldl (fun s f => processReplicaFile s p (source ++ relpathDot p replica) f) st
            else
              { st with fs := eraseTree st.fs p,
                        events := st.events ++ [Event.dirRemoved p] }).events =
            st.events ++ e1 ∧ ∀ y ∈ e1, isRevEvent y := by
          by_cases hex : pyExists st.fs (source ++ relpathDot p replica)
          · simp only [hex, if_true]
            exact foldl_events isRevEvent _
              (fun s f => processReplicaFile_events s p (source ++ relpathDot p replica) f) fls st
          · simp only [hex, Bool.false_eq_true, if_false]
            refine ⟨[Event.dirRemoved p], rfl, ?_⟩
            intro y hy
            simp at hy
            subst hy
            trivial
        obtain ⟨e1, he1, hp1⟩ := hbase
        obtain ⟨e2, he2, hp2⟩ := hfold _
        refine ⟨e1 ++ e2, ?_, ?_⟩
        · rw [he2, he1, List.append_assoc]
        · intro y hy
          rcases List.mem_append.1 hy with hy1 | hy1
          · exact hp1 y hy1
          · exact hp2 y hy1

theorem isDirAt_eq_true_iff (fs : FS) (p : Path) :
    isDirAt fs p = true ↔ lookupFS fs p = some Entry.dir := by
  unfold isDirAt
  cases h : lookupFS fs p with
  | none => simp
  | some e => cases e <;> simp

/-! ### Claim C9: the source tree is never mutated -/

/-- C9: for any well-formed pair of non-nested directory trees whose
roots both exist, sync_folders leaves every entry at or under the source
root exactly as it was, and every key it changes at all lies at or under
the replica root. -/
theorem claim9 (source replica : Path) (fs : FS)
    (hWF : WFfs fs) (hdisj : RootsDisjoint source replica) (hcr : cleanPath replica)
    (hrep : isDirAt fs replica = true) :
    (∀ k, source.IsPrefix k →
       lookupFS (sync_folders source replica (st0 fs)).fs k = lookupFS fs k) ∧
    (∀ k, ¬ replica.IsPrefix k →
       lookupFS (sync_folders source replica (st0 fs)).fs k = lookupFS fs k) := by
  have hrc : ∀ n ∈ replica, n ≠ "." := fun n hn => (hcr.2 n hn).1
  have hrepl := (isDirAt_eq_true_iff fs replica).1 hrep
  have hanc : ∀ q, q.IsPrefix replica → q ≠ [] → (lookupFS fs q).isSome = true := by
    intro q hq hq0
    by_cases hqr : q = replica
    · subst hqr
      rw [hrepl]
      rfl
    · have hdir := WF_prefix_dir fs hWF replica Entry.dir hrepl q hq hq0 hqr
      rw [(isDirAt_eq_true_iff fs q).1 hdir]
      rfl
  have main : ∀ k, ¬ replica.IsPrefix k →
      lookupFS (sync_folders source replica (st0 fs)).fs k = lookupFS fs k := by
    intro k hk
    unfold sync_folders
    have hF := walkF_frame_strong source replica hrc ((st0 fs).fs.length + 1) source
      (st0 fs) k hk hanc
    have hR := walkR_frame source replica
      ((walkF source replica ((st0 fs).fs.length + 1) (st0 fs) source).fs.length + 1)
      replica (walkF source replica ((st0 fs).fs.length + 1) (st0 fs) source) k hk
    rw [hR, hF]
    rfl
  refine ⟨?_, main⟩
  intro k hk
  apply main
  intro hcon
  rcases List.prefix_or_prefix_of_prefix hk hcon with h1 | h1
  · exact hdisj.1 h1
  · exact hdisj.2 h1

/-- Witness for C9 at a concrete input. -/
theorem claim9_witness :
    WFfs fsScenario ∧ RootsDisjoint ["s"] ["r"] ∧ cleanPath ["r"] ∧
    isDirAt fsScenario ["r"] = true ∧
    ((∀ k, (["s"] : Path).IsPrefix k →
       lookupFS (sync_folders ["s"] ["r"] (st0 fsScenario)).fs k = lookupFS fsScenario k) ∧
     (∀ k, ¬ (["r"] : Path).IsPrefix k →
       lookupFS (sync_folders ["s"] ["r"] (st0 fsScenario)).fs k = lookupFS fsScenario k)) :=
  ⟨by decide, by decide, by decide, by decide,
    claim9 ["s"] ["r"] fsScenario (by decide) (by decide) (by decide) (by decide)⟩

/-! ### Claim C6: there is no root validation and no PathError -/

theorem makedirsAux_ok_of_no_file :
    ∀ (l : List Name) (fs : FS) (acc : Path),
      (∀ i, 0 < i → i ≤ l.length → isFileAt fs (acc ++ l.take i) = false) →
      ∃ fs2, makedirsAux fs acc l = Except.ok fs2 := by
  intro l
  induction l with
  | nil =>
    intro fs acc _
    exact ⟨fs, rfl⟩
  | cons c rest ih =>
    intro fs acc hnf
    unfold makedirsAux
    simp only []
    cases hl : lookupFS fs (acc ++ [c]) with
    | some e =>
      cases e with
      | dir =>
        apply ih fs (acc ++ [c])
        intro i hi0 hi
        have := hnf (i + 1) (by omega) (by simpa using hi)
        rw [List.take_succ_cons] at this
        have heq : acc ++ c :: rest.take i = (acc ++ [c]) ++ rest.take i := by simp
        rw [heq] at this
        exact this
      | file c0 r0 =>
        exfalso
        have h1 := hnf 1 (by omega) (by simp)
        rw [List.take_succ_cons, List.take_zero] at h1
        unfold isFileAt at h1
        have heq : acc ++ c :: ([] : List Name) = acc ++ [c] := rfl
        rw [heq, hl] at h1
        simp at h1
    | none =>
      apply ih (setEntry fs (acc ++ [c]) Entry.dir) (acc ++ [c])
      intro i hi0 hi
      have hstep := hnf (i + 1) (by omega) (by simpa using hi)
      rw [List.take_succ_cons] at hstep
      have heq : acc ++ c :: rest.take i = (acc ++ [c]) ++ rest.take i := by simp
      rw [heq] at hstep
      unfold isFileAt at hstep ⊢
      rw [lookup_setEntry]
      by_cases hk : (acc ++ [c]) ++ rest.take i = acc ++ [c]
      · rw [if_pos hk]
      · rw [if_neg hk]
        exact hstep

/-- C6 amended: sync_folders performs no root validation and raises no
PathError; a bad root silently changes what the passes see instead of
aborting.  In particular a missing replica root is created by the very
first step of the forward pass — the run's first event is the DirCreated
of the replica root path (spelled replica/"." as the code joins it) —
and the run continues to completion with the replica root in place as a
directory. -/
theorem claim6_amended (source replica : Path) (fs : FS)
    (hdisj : RootsDisjoint source replica)
    (hcs : cleanPath source) (hcr : cleanPath replica)
    (hsrc : isDirAt fs source = true)
    (hrep : lookupFS fs replica = none)
    (hanc : ∀ i, i ≤ replica.length → isFileAt fs (replica.take i) = false) :
    (sync_folders source replica (st0 fs)).events.head? =
      some (Event.dirCreated (replica ++ ["."])) ∧
    isDirAt (sync_folders source replica (st0 fs)).fs replica = true := by
  have hscn : ∀ n ∈ source, n ≠ "." := fun n hn => (hcs.2 n hn).1
  have hrcn : ∀ n ∈ replica, n ≠ "." := fun n hn => (hcr.2 n hn).1
  have hls : listDir (st0 fs).fs source =
      some (subdirNames fs source, fileNamesAt fs source) := listDir_eq_some fs source hsrc
  have hex : pyExists fs (replica ++ ["."]) = false := by
    rw [pyExists_root_dot fs replica hrcn]
    unfold isDirAt
    rw [hrep]
  obtain ⟨fs2, hmkAux⟩ := makedirsAux_ok_of_no_file replica fs [] (by
    intro i hi0 hi
    have heq : ([] : Path) ++ replica.take i = replica.take i := by simp
    rw [heq]
    exact hanc i hi)
  have hmk : pyMakedirs fs (replica ++ ["."]) = Except.ok fs2 := by
    unfold pyMakedirs
    have hcond : (replica ++ ["."]).getLast? = some "." := List.getLast?_concat _
    rw [if_pos hcond, List.dropLast_concat]
    exact hmkAux
  have hfs2rep : isDirAt fs2 replica = true := by
    have hpost := makedirsAux_post replica fs [] fs2 hmkAux replica.length (le_refl _)
      (List.length_pos.2 hcr.1)
    simpa using hpost
  have hres : processSourceDir source replica (st0 fs) source (fileNamesAt fs source) =
      (fileNamesAt fs source).foldl
        (fun s f => processSourceFile s source (replica ++ ["."]) f)
        { st0 fs with fs := fs2,
                      events := (st0 fs).events ++ [Event.dirCreated (replica ++ ["."])] } := by
    unfold processSourceDir
    simp [st0, relpathDot_self, hex, hmk]
  have hFeq : walkF source replica ((st0 fs).fs.length + 1) (st0 fs) source =
      (subdirNames fs source).foldl
        (fun s d => walkF source replica (st0 fs).fs.length s (source ++ [d]))
        ((fileNamesAt fs source).foldl
          (fun s f => processSourceFile s source (replica ++ ["."]) f)
          { st0 fs with fs := fs2,
                        events := (st0 fs).events ++ [Event.dirCreated (replica ++ ["."])] }) := by
    rw [walkF_succ_some source replica (st0 fs).fs.length (st0 fs) source _ _ rfl hls, hres]
  have hrepF : isDirAt
      (walkF source replica ((st0 fs).fs.length + 1) (st0 fs) source).fs replica = true := by
    rw [hFeq]
    refine foldl_pres (fun s => isDirAt s.fs replica = true) _ ?_ (subdirNames fs source) _ ?_
    · intro s d hs
      exact walkF_dir_mono source replica (st0 fs).fs.length (source ++ [d]) s replica hs
    · refine foldl_pres (fun s => isDirAt s.fs replica = true) _ ?_ (fileNamesAt fs source) _
        hfs2rep
      intro s f hs
      exact processSourceFile_dir_mono s source (replica ++ ["."]) f replica hs
  have hsrcF : isDirAt
      (walkF source replica ((st0 fs).fs.length + 1) (st0 fs) source).fs source = true := by
    unfold isDirAt
    rw [walkF_frame source replica hrcn ((st0 fs).fs.length + 1) source (st0 fs) source
      hdisj.2 hdisj.1]
    exact hsrc
  have hevF : ∃ e, (walkF source replica ((st0 fs).fs.length + 1) (st0 fs) source).events =
      Event.dirCreated (replica ++ ["."]) :: e := by
    rw [hFeq]
    have h1 := foldl_events (fun _ => True)
      (fun s f => processSourceFile s source (replica ++ ["."]) f)
      (fun s f => by
        obtain ⟨e, he, _⟩ := processSourceFile_events s source (replica ++ ["."]) f
        exact ⟨e, he, fun y _ => trivial⟩)
      (fileNamesAt fs source)
      { st0 fs with fs := fs2,
                    events := (st0 fs).events ++ [Event.dirCreated (replica ++ ["."])] }
    obtain ⟨e1, he1, _⟩ := h1
    have h2 := foldl_events (fun _ => True)
      (fun s d => walkF source replica (st0 fs).fs.length s (source ++ [d]))
      (fun s d => by
        obtain ⟨e, he, _⟩ := walkF_events source replica (st0 fs).fs.length (source ++ [d]) s
        exact ⟨e, he, fun y _ => trivial⟩)
      (subdirNames fs source)
      ((fileNamesAt fs source).foldl
        (fun s f => processSourceFile s source (replica ++ ["."]) f)
        { st0 fs with fs := fs2,
                      events := (st0 fs).events ++ [Event.dirCreated (replica ++ ["."])] })
    obtain ⟨e2, he2, _⟩ := h2
    refine ⟨e1 ++ e2, ?_⟩
    rw [he2, he1]
    simp [st0]
  obtain ⟨eF, heF⟩ := hevF
  have hevR := walkR_events source replica
    ((walkF source replica ((st0 fs).fs.length + 1) (st0 fs) source).fs.length + 1) replica
    (walkF source replica ((st0 fs).fs.length + 1) (st0 fs) source)
  obtain ⟨eR, heR, _⟩ := hevR
  constructor
  · show (sync_folders source replica (st0 fs)).events.head? = _
    unfold sync_folders
    rw [heR, heF]
    rfl
  · show isDirAt (sync_folders source replica (st0 fs)).fs replica = true
    unfold sync_folders
    exact walkR_root_dir source replica hscn _ _ hsrcF hrepF

/-- Witness for the amended C6 at a concrete input: the replica root is
missing, gets created first, and the run keeps going. -/
theorem claim6_witness :
    RootsDisjoint ["s"] ["r"] ∧ cleanPath ["s"] ∧ cleanPath ["r"] ∧
    isDirAt fsNoRepRoot ["s"] = true ∧ lookupFS fsNoRepRoot ["r"] = none ∧
    (∀ i, i ≤ (["r"] : Path).length → isFileAt fsNoRepRoot ((["r"] : Path).take i) = false) ∧
    ((sync_folders ["s"] ["r"] (st0 fsNoRepRoot)).events.head? =
      some (Event.dirCreated (["r"] ++ ["."])) ∧
     isDirAt (sync_folders ["s"] ["r"] (st0 fsNoRepRoot)).fs ["r"] = true) :=
  ⟨by decide, by decide, by decide, by decide, by decide, by decide,
    claim6_amended ["s"] ["r"] fsNoRepRoot (by decide) (by decide) (by decide) (by decide)
      (by decide) (by decide)⟩

/-- C6 is false of the code: sync_folders never validates its root
arguments and raises no PathError.  At this concrete input the source
root does not exist, yet the call completes without error and performs
destructive per-file work (it removes the whole replica). -/
theorem claim6_counterexample :
    (sync_folders ["s"] ["r"] (st0 fsNoSrcRoot)).err = none ∧
    (sync_folders ["s"] ["r"] (st0 fsNoSrcRoot)).events = [Event.dirRemoved ["r"]] ∧
    (sync_folders ["s"] ["r"] (st0 fsNoSrcRoot)).fs = [] := by
  refine ⟨by decide, by decide, by decide⟩

/-! ### Claims C7 and C8: pass ordering and the driver loop -/

/-- C7: within one sync_folders call the whole forward pass runs before
the reverse pass: the emitted event list splits into a first block coming
from the forward pass, containing only DirCreated and FileCopied events,
followed by a second block from the reverse pass, containing only
FileRemoved and DirRemoved events — so no removal is ever logged before
all create and update work of the call. -/
theorem claim7 (source replica : Path) (st : St) :
    ∃ e1 e2, (sync_folders source replica st).events = st.events ++ e1 ++ e2 ∧
      (∀ y ∈ e1, isFwdEvent y) ∧ (∀ y ∈ e2, isRevEvent y) := by
  unfold sync_folders
  obtain ⟨e1, he1, hp1⟩ := walkF_events source replica (st.fs.length + 1) source st
  obtain ⟨e2, he2, hp2⟩ :=
    walkR_events source replica ((walkF source replica (st.fs.length + 1) st source).fs.length + 1)
      replica (walkF source replica (st.fs.length + 1) st source)
  exact ⟨e1, e2, by rw [he2, he1], hp1, hp2⟩

theorem mainLoop_zero (source replica : Path) (i : Nat) (st : St) (acc : List Act) :
    mainLoop source replica i 0 st acc = (st, acc, 0) := rfl

theorem mainLoop_succ (source replica : Path) (i k : Nat) (st : St) (acc : List Act) :
    mainLoop source replica i (k + 1) st acc =
      match (sync_folders source replica st).err with
      | some _ => (sync_folders source replica st, acc ++ [Act.runSync], 1)
      | none => mainLoop source replica i k (sync_folders source replica st)
          (acc ++ [Act.runSync, Act.sleepFor i]) := rfl

theorem mainLoop_succ_err (source replica : Path) (i k : Nat) (st : St) (acc : List Act)
    (e : Err) (h : (sync_folders source replica st).err = some e) :
    mainLoop source replica i (k + 1) st acc =
      (sync_folders source replica st, acc ++ [Act.runSync], 1) := by
  rw [mainLoop_succ, h]

theorem mainLoop_succ_ok (source replica : Path) (i k : Nat) (st : St) (acc : List Act)
    (h : (sync_folders source replica st).err = none) :
    mainLoop source replica i (k + 1) st acc =
      mainLoop source replica i k (sync_folders source replica st)
        (acc ++ [Act.runSync, Act.sleepFor i]) := by
  rw [mainLoop_succ, h]

theorem mainLoop_spec (source replica : Path) (i : Nat) :
    ∀ k st acc, (mainLoop source replica i k st acc).1.err = none →
      (mainLoop source replica i k st acc).2.2 = 0 ∧
      (mainLoop source replica i k st acc).2.1 =
        acc ++ (List.replicate k [Act.runSync, Act.sleepFor i]).flatten := by
  intro k
  induction k with
  | zero => intro st acc _; simp [mainLoop_zero]
  | succ n ih =>
    intro st acc h
    cases hs : (sync_folders source replica st).err with
    | some e =>
      rw [mainLoop_succ_err source replica i n st acc e hs] at h
      simp at h
      rw [hs] at h
      exact Option.noConfusion h
    | none =>
      rw [mainLoop_succ_ok source replica i n st acc hs] at h ⊢
      obtain ⟨hz, ht⟩ := ih (sync_folders source replica st)
        (acc ++ [Act.runSync, Act.sleepFor i]) h
      refine ⟨hz, ?_⟩
      rw [ht]
      simp [List.replicate_succ]

/-- C8: the driver runs exactly 5 reconciliation cycles (max_syncs = 5),
each cycle's sync_folders call followed by one sleep of exactly the given
interval, and the process then exits with status 0 — provided no cycle
raises (an uncaught exception instead stops the loop at that cycle and
the process exits with status 1, which is why the final state being
error-free is hypothesised). -/
theorem claim8 (source replica : Path) (interval : Nat) (fs : FS)
    (h : (mainDrive source replica interval fs).1.err = none) :
    (mainDrive source replica interval fs).2.2 = 0 ∧
    (mainDrive source replica interval fs).2.1 =
      [Act.runSync, Act.sleepFor interval, Act.runSync, Act.sleepFor interval,
       Act.runSync, Act.sleepFor interval, Act.runSync, Act.sleepFor interval,
       Act.runSync, Act.sleepFor interval] := by
  unfold mainDrive at h ⊢
  obtain ⟨hz, ht⟩ := mainLoop_spec source replica interval 5
    { fs := fs, events := [], err := none } [] h
  exact ⟨hz, by rw [ht]; rfl⟩

/-- Witness for C8 at a concrete input: two empty roots, every cycle
error-free. -/
theorem claim8_witness :
    (mainDrive ["s"] ["r"] 30 fsEmptyPair).1.err = none ∧
    ((mainDrive ["s"] ["r"] 30 fsEmptyPair).2.2 = 0 ∧
     (mainDrive ["s"] ["r"] 30 fsEmptyPair).2.1 =
      [Act.runSync, Act.sleepFor 30, Act.runSync, Act.sleepFor 30,
       Act.runSync, Act.sleepFor 30, Act.runSync, Act.sleepFor 30,
       Act.runSync, Act.sleepFor 30]) :=
  ⟨by decide, claim8 ["s"] ["r"] 30 fsEmptyPair (by decide)⟩

/-! ### Claim C10: a missing source root deletes the whole replica -/

/-- C10: when the source root does not exist, the forward pass finds
nothing to traverse and does nothing, and the reverse pass finds that the
replica root's corresponding source path does not pass the existence
check, so it removes the entire replica tree, root included, with a
single DirRemoved event and no error. -/
theorem claim10 (source replica : Path) (fs : FS)
    (hcs : cleanPath source)
    (hsrc : lookupFS fs source = none)
    (hrep : isDirAt fs replica = true) :
    sync_folders source replica (st0 fs) =
      { fs := eraseTree fs replica, events := [Event.dirRemoved replica], err := none } := by
  have hsd : isDirAt fs source = false := by
    unfold isDirAt
    rw [hsrc]
  have hF : walkF source replica ((st0 fs).fs.length + 1) (st0 fs) source = st0 fs := by
    apply walkF_stop
    exact listDir_eq_none _ _ hsd
  unfold sync_folders
  rw [hF]
  have hls : listDir (st0 fs).fs replica =
      some (subdirNames fs replica, fileNamesAt fs replica) :=
    listDir_eq_some fs replica hrep
  rw [walkR_succ_some source replica ((st0 fs).fs.length) (st0 fs) replica _ _ rfl hls]
  have hmiss : pyExists (st0 fs).fs (source ++ relpathDot replica replica) = false := by
    rw [relpathDot_self]
    show pyExists fs (source ++ ["."]) = false
    rw [pyExists_root_dot fs source (fun n hn => (hcs.2 n hn).1)]
    exact hsd
  rw [hmiss]
  simp only [Bool.false_eq_true, if_false]
  rw [foldl_fix]
  · rfl
  · intro d
    apply walkR_stop
    apply listDir_eq_none
    show isDirAt (eraseTree fs replica) (replica ++ [d]) = false
    unfold isDirAt
    rw [lookup_eraseTree]
    simp [List.prefix_append]

/-- Witness for C10 at a concrete input. -/
theorem claim10_witness :
    cleanPath ["s"] ∧
    lookupFS fsNoSrcRoot ["s"] = none ∧
    isDirAt fsNoSrcRoot ["r"] = true ∧
    sync_folders ["s"] ["r"] (st0 fsNoSrcRoot) =
      { fs := eraseTree fsNoSrcRoot ["r"], events := [Event.dirRemoved ["r"]], err := none } :=
  ⟨by decide, by decide, by decide,
    claim10 ["s"] ["r"] fsNoSrcRoot (by decide) (by decide) (by decide)⟩

/-! ### Counting and length lemmas for the fuel bound -/

theorem nodup_subset_length {α : Type} [DecidableEq α] (l1 l2 : List α)
    (h1 : l1.Nodup) (h2 : l1 ⊆ l2) : l1.length ≤ l2.length := by
  calc l1.length = l1.toFinset.card := (List.toFinset_card_of_nodup h1).symm
    _ ≤ l2.toFinset.card :=
        Finset.card_le_card (fun x hx => List.mem_toFinset.2 (h2 (List.mem_toFinset.1 hx)))
    _ ≤ l2.length := List.toFinset_card_le l2

theorem maxKeyLen_ge (fs : FS) (k : Path) (e : Entry) (h : (k, e) ∈ fs) :
    k.length ≤ maxKeyLen fs := by
  induction fs with
  | nil => simp at h
  | cons kv rest ih =>
    unfold maxKeyLen at ih ⊢
    rw [List.foldr_cons]
    rcases List.mem_cons.1 h with h1 | h1
    · rw [← h1]
      exact Nat.le_max_left _ _
    · exact Nat.le_trans (ih h1) (Nat.le_max_right _ _)

theorem maxKeyLen_le (fs : FS) (B : Nat) (h : ∀ kv ∈ fs, kv.1.length ≤ B) :
    maxKeyLen fs ≤ B := by
  induction fs with
  | nil => exact Nat.zero_le B
  | cons kv rest ih =>
    unfold maxKeyLen at ih ⊢
    rw [List.foldr_cons]
    refine Nat.max_le.2 ⟨h kv (List.mem_cons_self _ _), ?_⟩
    exact ih (fun x hx => h x (List.mem_cons_of_mem _ hx))

theorem take_append_le {α : Type} (l1 l2 : List α) (i : Nat) (h : i ≤ l1.length) :
    (l1 ++ l2).take i = l1.take i := by
  rw [List.take_append_eq_append_take]
  have hz : i - l1.length = 0 := by omega
  rw [hz, List.take_zero, List.append_nil]

theorem WF_key_length_le (fs : FS) (hWF : WFfs fs) (k : Path) (e : Entry)
    (h : (k, e) ∈ fs) : k.length ≤ fs.length := by
  have hpl : ((List.range k.length).map (fun i => k.take (i + 1))).Nodup := by
    refine List.Nodup.map_on ?_ (List.nodup_range k.length)
    intro i hi j hj hij
    have hli := congrArg List.length hij
    rw [List.length_take, List.length_take] at hli
    rw [List.mem_range] at hi hj
    omega
  have hsub : ((List.range k.length).map (fun i => k.take (i + 1))) ⊆ fs.map Prod.fst := by
    intro q hq
    rcases List.mem_map.1 hq with ⟨i, hi, hqi⟩
    rw [List.mem_range] at hi
    by_cases hlast : i + 1 = k.length
    · have : q = k := by
        rw [← hqi, hlast]
        exact List.take_length k
      rw [this]
      exact List.mem_map.2 ⟨(k, e), h, rfl⟩
    · have hdir : isDirAt fs (k.take (i + 1)) = true :=
        WF_take_dir fs hWF k e (lookupFS_eq_some_of_mem fs k e hWF.1 h) (i + 1)
          (by omega) (by omega)
      rw [isDirAt_eq_true_iff] at hdir
      have hmem := mem_of_lookupFS_eq_some fs (k.take (i + 1)) Entry.dir hdir
      rw [← hqi]
      exact List.mem_map.2 ⟨(k.take (i + 1), Entry.dir), hmem, rfl⟩
  have hlen := nodup_subset_length _ _ hpl hsub
  rw [List.length_map, List.length_range, List.length_map] at hlen
  exact hlen

theorem WF_maxKeyLen_le (fs : FS) (hWF : WFfs fs) : maxKeyLen fs ≤ fs.length :=
  maxKeyLen_le fs fs.length (fun kv hkv => WF_key_length_le fs hWF kv.1 kv.2 (by
    rcases kv with ⟨a, b⟩
    exact hkv))

/-! ### Path computation helpers for the mirror map -/

theorem source_append_drop (source k : Path) (h : source.IsPrefix k) :
    source ++ k.drop source.length = k := by
  have ht := List.prefix_iff_eq_take.1 h
  calc source ++ k.drop source.length
      = k.take source.length ++ k.drop source.length := by rw [← ht]
    _ = k := List.take_append_drop _ _

theorem mirrorKey_source (source replica k : Path) (h : source.IsPrefix k) :
    source ++ (mirrorKey source replica k).drop replica.length = k := by
  unfold mirrorKey
  rw [List.drop_left]
  exact source_append_drop source k h

/-! ### WriteOK: reflexivity, transitivity, persistence of mirrors -/

theorem WriteOK_refl (fs0 : FS) (source replica : Path) (a : FS) :
    WriteOK fs0 source replica a a := by
  intro k hne
  exact absurd rfl hne

theorem WriteOK_trans (fs0 : FS) (source replica : Path) (a b c : FS)
    (hab : WriteOK fs0 source replica a b) (hbc : WriteOK fs0 source replica b c) :
    WriteOK fs0 source replica a c := by
  intro k hne
  by_cases h1 : lookupFS c k = lookupFS b k
  · have h2 : lookupFS b k ≠ lookupFS a k := by
      rw [← h1]
      exact hne
    obtain ⟨hp, hl, hcase⟩ := hab k h2
    refine ⟨hp, hl, ?_⟩
    rcases hcase with ⟨hn, hd⟩ | ⟨c0, r0, hf, h0⟩
    · refine Or.inl ⟨hn, ?_⟩
      rw [h1]
      exact hd
    · refine Or.inr ⟨c0, r0, ?_, h0⟩
      rw [h1]
      exact hf
  · obtain ⟨hp, hl, hcase⟩ := hbc k h1
    refine ⟨hp, hl, ?_⟩
    rcases hcase with ⟨hn, hd⟩ | hf
    · by_cases h2 : lookupFS b k = lookupFS a k
      · refine Or.inl ⟨?_, hd⟩
        rw [← h2]
        exact hn
      · obtain ⟨_, _, hcase2⟩ := hab k h2
        rcases hcase2 with ⟨_, hd2⟩ | ⟨c0, r0, hf2, _⟩
        · rw [hn] at hd2
          exact Option.noConfusion hd2
        · rw [hn] at hf2
          exact Option.noConfusion hf2
    · exact Or.inr hf

theorem Mirrored_persist (fs0 : FS) (source replica : Path) (a b : FS) (k : Path)
    (hW : WriteOK fs0 source replica a b)
    (hmono : ∀ q, (lookupFS a q).isSome = true → (lookupFS b q).isSome = true)
    (hsp : source.IsPrefix k)
    (hM : Mirrored fs0 source replica a k) : Mirrored fs0 source replica b k := by
  unfold Mirrored at hM ⊢
  cases hk : lookupFS fs0 k with
  | none => trivial
  | some e =>
    cases e with
    | dir =>
      simp only [hk] at hM ⊢
      exact hmono _ hM
    | file c r =>
      simp only [hk] at hM ⊢
      refine ⟨hM.1, ?_⟩
      by_cases hch : lookupFS b (mirrorKey source replica k) =
          lookupFS a (mirrorKey source replica k)
      · rw [hch]
        exact hM.2
      · obtain ⟨hpre, hlen, hcase⟩ := hW _ hch
        rcases hcase with ⟨hnone, _⟩ | ⟨c2, r2, hb, hf0⟩
        · rw [hM.2] at hnone
          exact Option.noConfusion hnone
        · rw [mirrorKey_source source replica k hsp, hk] at hf0
          have hc2 : c2 = c := by
            injection hf0 with hf0x
            injection hf0x with hce hre
            exact hce.symm
          rw [hb, hc2]

/-! ### Well-formedness preservation of makedirs -/

theorem makedirsAux_WF :
    ∀ (l : List Name) (fs : FS) (acc : Path) (fs2 : FS),
      WFfs fs → (∀ n ∈ acc, goodName n) → (∀ n ∈ l, goodName n) →
      (∀ i, i ≤ acc.length → 0 < i → isDirAt fs (acc.take i) = true) →
      makedirsAux fs acc l = Except.ok fs2 → WFfs fs2 := by
  intro l
  induction l with
  | nil =>
    intro fs acc fs2 hWF _ _ _ h
    unfold makedirsAux at h
    cases h
    exact hWF
  | cons c rest ih =>
    intro fs acc fs2 hWF haccg hlg hdirs h
    unfold makedirsAux at h
    simp only [] at h
    have haccg2 : ∀ n ∈ acc ++ [c], goodName n := by
      intro n hn
      rcases List.mem_append.1 hn with h1 | h1
      · exact haccg n h1
      · rw [List.mem_singleton.1 h1]
        exact hlg c (List.mem_cons_self _ _)
    have hlg2 : ∀ n ∈ rest, goodName n := fun n hn => hlg n (List.mem_cons_of_mem _ hn)
    cases hl : lookupFS fs (acc ++ [c]) with
    | some e =>
      cases e with
      | dir =>
        simp only [hl] at h
        refine ih fs (acc ++ [c]) fs2 hWF haccg2 hlg2 ?_ h
        intro i hi hi0
        rcases Nat.lt_or_ge i (acc.length + 1) with h1 | h1
        · by_cases h2 : i ≤ acc.length
          · rw [take_append_le acc [c] i h2]
            exact hdirs i h2 hi0
          · omega
        · have hieq : i = acc.length + 1 := by
            rw [List.length_append, List.length_singleton] at hi
            omega
          rw [hieq]
          have : (acc ++ [c]).take (acc.length + 1) = acc ++ [c] := by
            have hlen : (acc ++ [c]).length = acc.length + 1 := by simp
            rw [← hlen, List.take_length]
          rw [this]
          rw [isDirAt_eq_true_iff]
          exact hl
      | file c0 r0 =>
        simp only [hl] at h
        exact Except.noConfusion h
    | none =>
      simp only [hl] at h
      have hnotdir : isDirAt fs (acc ++ [c]) = false := by
        unfold isDirAt
        rw [hl]
      have hWF2 : WFfs (setEntry fs (acc ++ [c]) Entry.dir) := by
        refine WF_setEntry_general fs (acc ++ [c]) Entry.dir hWF (by simp) haccg2 ?_ hnotdir
        intro i hi hi0
        have h2 : i ≤ acc.length := by
          rw [List.length_append, List.length_singleton] at hi
          omega
        rw [take_append_le acc [c] i h2]
        exact hdirs i h2 hi0
      refine ih (setEntry fs (acc ++ [c]) Entry.dir) (acc ++ [c]) fs2 hWF2 haccg2 hlg2 ?_ h
      intro i hi hi0
      rcases Nat.lt_or_ge i (acc.length + 1) with h1 | h1
      · by_cases h2 : i ≤ acc.length
        · rw [take_append_le acc [c] i h2]
          have hne : acc.take i ≠ acc ++ [c] := by
            intro hcon
            have hli := congrArg List.length hcon
            rw [List.length_take, List.length_append, List.length_singleton] at hli
            omega
          rw [isDirAt_setEntry_other fs (acc ++ [c]) (acc.take i) Entry.dir hne]
          exact hdirs i h2 hi0
        · omega
      · have hieq : i = acc.length + 1 := by
          rw [List.length_append, List.length_singleton] at hi
          omega
        rw [hieq]
        have heq : (acc ++ [c]).take (acc.length + 1) = acc ++ [c] := by
          have hlen : (acc ++ [c]).length = acc.length + 1 := by simp
          rw [← hlen, List.take_length]
        rw [heq, isDirAt_eq_true_iff, lookup_setEntry]
        simp

/-! ### Per-step postconditions of the forward pass -/

theorem mirrorKey_append (source replica : Path) (x : List Name) :
    mirrorKey source replica (source ++ x) = replica ++ x := by
  unfold mirrorKey
  rw [List.drop_left]

theorem doCopy_spec (st : St) (a b : Path) :
    (∃ e, copy2 st.fs a b = Except.error e ∧ doCopy st a b = { st with err := some e }) ∨
    (∃ fs2, copy2 st.fs a b = Except.ok fs2 ∧
       doCopy st a b = { st with fs := fs2,
                                 events := st.events ++ [Event.fileCopied a b] }) := by
  unfold doCopy
  cases hc : copy2 st.fs a b with
  | error e => exact Or.inl ⟨e, rfl, rfl⟩
  | ok fs2 => exact Or.inr ⟨fs2, rfl, rfl⟩

/-- Path shape of a forward-pass node: the dot argument the code builds
from os.path.relpath together with the true relative path. -/
def NodeShape (realRel dotArg : List Name) : Prop :=
  (dotArg = ["."] ∧ realRel = []) ∨ (dotArg = realRel ∧ realRel ≠ [])

theorem resolve_rep_under (fs0 : FS) (source replica : Path)
    (hctx : Ctx fs0 source replica) (st : St) (hInv : FInv fs0 source replica st)
    (realRel dotArg : List Name) (hshape : NodeShape realRel dotArg)
    (hrg : ∀ n ∈ realRel, goodName n) (x : List Name) (hxg : ∀ n ∈ x, goodName n) :
    resolve st.fs (replica ++ dotArg ++ x) = some (replica ++ realRel ++ x) := by
  obtain ⟨_, _, _, hcr, _, _⟩ := hctx
  have hrcn : ∀ n ∈ replica, n ≠ "." := fun n hn => (hcr.2 n hn).1
  have hxn : ∀ n ∈ x, n ≠ "." := fun n hn => (hxg n hn).1
  rcases hshape with ⟨hd, hr⟩ | ⟨hd, hr⟩
  · subst hd
    subst hr
    rw [resolve_root_dot_more st.fs replica x hrcn hxn]
    have hdir : isDirAt st.fs replica = true :=
      hInv.2.2 replica (List.prefix_refl replica) hcr.1
    rw [hdir]
    simp
  · rw [hd]
    have hclean : ∀ n ∈ replica ++ realRel ++ x, n ≠ "." := by
      intro n hn
      rcases List.mem_append.1 hn with h1 | h1
      · rcases List.mem_append.1 h1 with h2 | h2
        · exact hrcn n h2
        · exact (hrg n h2).1
      · exact hxn n h1
    exact resolve_clean st.fs (replica ++ realRel ++ x) hclean

theorem pyExists_rep_under (fs0 : FS) (source replica : Path)
    (hctx : Ctx fs0 source replica) (st : St) (hInv : FInv fs0 source replica st)
    (realRel dotArg : List Name) (hshape : NodeShape realRel dotArg)
    (hrg : ∀ n ∈ realRel, goodName n) (x : List Name) (hxg : ∀ n ∈ x, goodName n) :
    pyExists st.fs (replica ++ dotArg ++ x) =
      (lookupFS st.fs (replica ++ realRel ++ x)).isSome := by
  unfold pyExists
  rw [resolve_rep_under fs0 source replica hctx st hInv realRel dotArg hshape hrg x hxg]

theorem resolve_src_under (fs0 : FS) (source replica : Path)
    (hctx : Ctx fs0 source replica) (st : St)
    (realRel : List Name) (hrg : ∀ n ∈ realRel, goodName n)
    (x : List Name) (hxg : ∀ n ∈ x, goodName n) :
    resolve st.fs (source ++ realRel ++ x) = some (source ++ realRel ++ x) := by
  obtain ⟨_, _, hcs, _, _, _⟩ := hctx
  refine resolve_clean st.fs _ ?_
  intro n hn
  rcases List.mem_append.1 hn with h1 | h1
  · rcases List.mem_append.1 h1 with h2 | h2
    · exact (hcs.2 n h2).1
    · exact (hrg n h2).1
  · exact (hxg n h1).1

theorem doCopy_post (fs0 : FS) (source replica : Path)
    (hctx : Ctx fs0 source replica) (st : St) (hInv : FInv fs0 source replica st)
    (realRel : List Name) (f : Name)
    (hrg : ∀ n ∈ realRel, goodName n) (hfg : goodName f)
    (c : List Nat) (r : Bool)
    (hk : lookupFS fs0 (source ++ realRel ++ [f]) = some (Entry.file c r))
    (dst : Path) (hres : resolve st.fs dst = some (replica ++ realRel ++ [f])) :
    FInv fs0 source replica (doCopy st (source ++ realRel ++ [f]) dst) ∧
    WriteOK fs0 source replica st.fs (doCopy st (source ++ realRel ++ [f]) dst).fs ∧
    ((doCopy st (source ++ realRel ++ [f]) dst).err = none →
      Mirrored fs0 source replica (doCopy st (source ++ realRel ++ [f]) dst).fs
        (source ++ realRel ++ [f])) := by
  obtain ⟨hWF0, hdisj, hcs, hcr, hls, hlr⟩ := hctx
  rcases doCopy_spec st (source ++ realRel ++ [f]) dst with ⟨e, _, hdc⟩ | ⟨fs2, hc, hdc⟩
  · rw [hdc]
    refine ⟨hInv, WriteOK_refl fs0 source replica st.fs, ?_⟩
    intro hnone
    simp at hnone
  · obtain ⟨qs, c', qd, hr1, hl1, hr2, hqdnd, _, hpar, hfs2⟩ :=
      copy2_ok_spec st.fs (source ++ realRel ++ [f]) dst fs2 hc
    have hsp : source.IsPrefix (source ++ realRel ++ [f]) :=
      ⟨realRel ++ [f], (List.append_assoc source realRel [f]).symm⟩
    have hr1' : resolve st.fs (source ++ realRel ++ [f]) =
        some (source ++ realRel ++ [f]) :=
      resolve_src_under fs0 source replica
        ⟨hWF0, hdisj, hcs, hcr, hls, hlr⟩ st realRel hrg [f]
        (by intro n hn; rw [List.mem_singleton] at hn; rw [hn]; exact hfg)
    have hqs : qs = source ++ realRel ++ [f] := by
      rw [hr1] at hr1'
      exact Option.some.inj hr1'
    subst hqs
    have hl0 : lookupFS fs0 (source ++ realRel ++ [f]) = some (Entry.file c' true) := by
      rw [← hInv.2.1 _ hsp]
      exact hl1
    have hcc : c' = c ∧ r = true := by
      rw [hk] at hl0
      injection hl0 with h1
      injection h1 with h2 h3
      exact ⟨h2.symm, h3⟩
    have hqd : qd = replica ++ realRel ++ [f] := by
      rw [hr2] at hres
      exact Option.some.inj hres
    subst hqd
    rw [hcc.1] at hfs2
    have hrne : replica ≠ [] := hcr.1
    have hrlen : 0 < replica.length := List.length_pos.2 hrne
    have hMlen : (replica ++ realRel ++ [f]).length =
        replica.length + realRel.length + 1 := by
      simp
      omega
    have hPar : isDirAt st.fs (replica ++ realRel) = true := by
      rcases hpar with h1 | h1
      · rw [hMlen] at h1
        omega
      · rw [List.dropLast_concat] at h1
        exact h1
    have hPdir : lookupFS st.fs (replica ++ realRel) = some Entry.dir := by
      unfold isDirAt at hPar
      cases hl : lookupFS st.fs (replica ++ realRel) with
      | none => rw [hl] at hPar; simp at hPar
      | some e =>
        cases e with
        | dir => rfl
        | file c2 r2 => rw [hl] at hPar; simp at hPar
    have hMne : replica ++ realRel ++ [f] ≠ [] := by simp
    have hMg : ∀ n ∈ replica ++ realRel ++ [f], goodName n := by
      intro n hn
      rcases List.mem_append.1 hn with h1 | h1
      · rcases List.mem_append.1 h1 with h2 | h2
        · exact hcr.2 n h2
        · exact hrg n h2
      · rw [List.mem_singleton] at h1
        rw [h1]
        exact hfg
    have hMdirs : ∀ i, i < (replica ++ realRel ++ [f]).length → 0 < i →
        isDirAt st.fs ((replica ++ realRel ++ [f]).take i) = true := by
      intro i hi hi0
      have hile : i ≤ (replica ++ realRel).length := by
        have h2 : (replica ++ realRel ++ [f]).length = (replica ++ realRel).length + 1 := by
          rw [List.length_append (replica ++ realRel) [f], List.length_singleton]
        omega
      rw [take_append_le (replica ++ realRel) [f] i hile]
      rcases Nat.lt_or_ge i (replica ++ realRel).length with hlt | hge
      · refine WF_prefix_dir st.fs hInv.1 (replica ++ realRel) Entry.dir hPdir _
          (List.take_prefix i (replica ++ realRel)) ?_ ?_
        · intro hnil
          have h3 := congrArg List.length hnil
          rw [List.length_take, List.length_nil] at h3
          omega
        · intro heq
          have := congrArg List.length heq
          rw [List.length_take] at this
          omega
      · have hieq : i = (replica ++ realRel).length := Nat.le_antisymm hile hge
        rw [hieq, List.take_length]
        exact hPar
    have hWF2 : WFfs fs2 := by
      rw [hfs2]
      exact WF_setEntry_general st.fs (replica ++ realRel ++ [f]) (Entry.file c true)
        hInv.1 hMne hMg hMdirs hqdnd
    have hrp : replica.IsPrefix (replica ++ realRel ++ [f]) :=
      ⟨realRel ++ [f], (List.append_assoc replica realRel [f]).symm⟩
    have hMnotsrc : ∀ k, source.IsPrefix k → k ≠ replica ++ realRel ++ [f] := by
      intro k hskp hkeq
      subst hkeq
      rcases List.prefix_or_prefix_of_prefix hskp hrp with h1 | h1
      · exact hdisj.1 h1
      · exact hdisj.2 h1
    have hdrop : (replica ++ realRel ++ [f]).drop replica.length = realRel ++ [f] := by
      rw [List.append_assoc]
      exact List.drop_left replica (realRel ++ [f])
    have hMk : mirrorKey source replica (source ++ realRel ++ [f]) =
        replica ++ realRel ++ [f] := by
      rw [List.append_assoc source realRel [f], mirrorKey_append, ← List.append_assoc]
    rw [hdc]
    refine ⟨⟨hWF2, ?_, ?_⟩, ?_, ?_⟩
    · intro k hskp
      show lookupFS fs2 k = lookupFS fs0 k
      rw [hfs2, lookup_setEntry]
      rw [if_neg (hMnotsrc k hskp)]
      exact hInv.2.1 k hskp
    · intro q hq hq0
      show isDirAt fs2 q = true
      rw [hfs2]
      rw [isDirAt_setEntry_other]
      · exact hInv.2.2 q hq hq0
      · intro heq
        have h1 : q.length ≤ replica.length := hq.length_le
        have h2 := congrArg List.length heq
        rw [hMlen] at h2
        omega
    · intro k hne
      have hne2 : lookupFS fs2 k ≠ lookupFS st.fs k := hne
      rw [hfs2, lookup_setEntry] at hne2
      by_cases hkM : k = replica ++ realRel ++ [f]
      · subst hkM
        refine ⟨hrp, by rw [hMlen]; omega, Or.inr ⟨c, r, ?_, ?_⟩⟩
        · show lookupFS fs2 (replica ++ realRel ++ [f]) = some (Entry.file c true)
          rw [hfs2, lookup_setEntry, if_pos rfl]
        · rw [hdrop, ← List.append_assoc]
          exact hk
      · rw [if_neg hkM] at hne2
        exact absurd rfl hne2
    · intro _
      show Mirrored fs0 source replica fs2 (source ++ realRel ++ [f])
      unfold Mirrored
      rw [hk]
      refine ⟨hcc.2, ?_⟩
      rw [hMk, hfs2, lookup_setEntry, if_pos rfl]

theorem mirrorKey_under (source replica : Path) (realRel : List Name) (f : Name) :
    mirrorKey source replica (source ++ realRel ++ [f]) = replica ++ realRel ++ [f] := by
  rw [List.append_assoc source realRel [f], mirrorKey_append, ← List.append_assoc]

theorem processSourceFile_post (fs0 : FS) (source replica : Path)
    (hctx : Ctx fs0 source replica) (st : St) (hInv : FInv fs0 source replica st)
    (realRel dotArg : List Name) (hshape : NodeShape realRel dotArg)
    (hrg : ∀ n ∈ realRel, goodName n) (f : Name) (hfg : goodName f)
    (c : List Nat) (r : Bool)
    (hk : lookupFS fs0 (source ++ realRel ++ [f]) = some (Entry.file c r)) :
    FInv fs0 source replica
      (processSourceFile st (source ++ realRel) (replica ++ dotArg) f) ∧
    WriteOK fs0 source replica st.fs
      (processSourceFile st (source ++ realRel) (replica ++ dotArg) f).fs ∧
    ((processSourceFile st (source ++ realRel) (replica ++ dotArg) f).err = none →
      Mirrored fs0 source replica
        (processSourceFile st (source ++ realRel) (replica ++ dotArg) f).fs
        (source ++ realRel ++ [f])) := by
  cases herr : st.err with
  | some e =>
    rw [processSourceFile_of_err st (source ++ realRel) (replica ++ dotArg) f
      (by rw [herr]; rfl)]
    refine ⟨hInv, WriteOK_refl fs0 source replica st.fs, ?_⟩
    intro hnone
    rw [herr] at hnone
    simp at hnone
  | none =>
    have hfg1 : ∀ n ∈ [f], goodName n := by
      intro n hn
      rw [List.mem_singleton] at hn
      rw [hn]
      exact hfg
    have hEx : pyExists st.fs (replica ++ (dotArg ++ [f])) =
        (lookupFS st.fs (replica ++ (realRel ++ [f]))).isSome := by
      rw [← List.append_assoc, ← List.append_assoc replica realRel [f]]
      exact pyExists_rep_under fs0 source replica hctx st hInv realRel dotArg hshape
        hrg [f] hfg1
    have hResD : resolve st.fs (replica ++ dotArg ++ [f]) =
        some (replica ++ realRel ++ [f]) :=
      resolve_rep_under fs0 source replica hctx st hInv realRel dotArg hshape hrg [f] hfg1
    have hResD2 : resolve st.fs (replica ++ (dotArg ++ [f])) =
        some (replica ++ realRel ++ [f]) := by
      rw [← List.append_assoc]
      exact hResD
    have hResS : resolve st.fs (source ++ realRel ++ [f]) =
        some (source ++ realRel ++ [f]) :=
      resolve_src_under fs0 source replica hctx st realRel hrg [f] hfg1
    have hResS2 : resolve st.fs (source ++ (realRel ++ [f])) =
        some (source ++ realRel ++ [f]) := by
      rw [← List.append_assoc]
      exact hResS
    have hsp : source.IsPrefix (source ++ realRel ++ [f]) :=
      ⟨realRel ++ [f], (List.append_assoc source realRel [f]).symm⟩
    have hl1 : lookupFS st.fs (source ++ realRel ++ [f]) = some (Entry.file c r) := by
      rw [hInv.2.1 _ hsp]
      exact hk
    by_cases hex : (lookupFS st.fs (replica ++ (realRel ++ [f]))).isSome = true
    · cases r with
      | false =>
        have hmd5s : calculate_md5 st.fs (source ++ (realRel ++ [f])) =
            Except.error (Err.ioError (source ++ realRel ++ [f])) := by
          simp only [calculate_md5, hResS2, hl1]
        have hres : processSourceFile st (source ++ realRel) (replica ++ dotArg) f =
            { st with err := some (Err.ioError (source ++ realRel ++ [f])) } := by
          unfold processSourceFile
          simp [herr, hEx, hex, hmd5s]
        rw [hres]
        refine ⟨hInv, WriteOK_refl fs0 source replica st.fs, ?_⟩
        intro hnone
        simp at hnone
      | true =>
        have hmd5s : calculate_md5 st.fs (source ++ (realRel ++ [f])) =
            Except.ok c := by
          simp only [calculate_md5, hResS2, hl1]
        obtain ⟨e2, he2⟩ := Option.isSome_iff_exists.1 hex
        have he2L : lookupFS st.fs (replica ++ realRel ++ [f]) = some e2 := by
          rw [List.append_assoc]
          exact he2
        cases e2 with
        | dir =>
          have hmd5r : calculate_md5 st.fs (replica ++ (dotArg ++ [f])) =
              Except.error (Err.ioError (replica ++ realRel ++ [f])) := by
            simp only [calculate_md5, hResD2, he2L]
          have hres : processSourceFile st (source ++ realRel) (replica ++ dotArg) f =
              { st with err := some (Err.ioError (replica ++ realRel ++ [f])) } := by
            unfold processSourceFile
            simp [herr, hEx, hex, hmd5s, hmd5r]
          rw [hres]
          refine ⟨hInv, WriteOK_refl fs0 source replica st.fs, ?_⟩
          intro hnone
          simp at hnone
        | file c2 r2 =>
          cases r2 with
          | false =>
            have hmd5r : calculate_md5 st.fs (replica ++ (dotArg ++ [f])) =
                Except.error (Err.ioError (replica ++ realRel ++ [f])) := by
              simp only [calculate_md5, hResD2, he2L]
            have hres : processSourceFile st (source ++ realRel) (replica ++ dotArg) f =
                { st with err := some (Err.ioError (replica ++ realRel ++ [f])) } := by
              unfold processSourceFile
              simp [herr, hEx, hex, hmd5s, hmd5r]
            rw [hres]
            refine ⟨hInv, WriteOK_refl fs0 source replica st.fs, ?_⟩
            intro hnone
            simp at hnone
          | true =>
            have hmd5r : calculate_md5 st.fs (replica ++ (dotArg ++ [f])) =
                Except.ok c2 := by
              simp only [calculate_md5, hResD2, he2L]
            by_cases hcc : c = c2
            · have hres : processSourceFile st (source ++ realRel) (replica ++ dotArg) f
                  = st := by
                unfold processSourceFile
                simp [herr, hEx, hex, hmd5s, hmd5r, hcc]
              rw [hres]
              refine ⟨hInv, WriteOK_refl fs0 source replica st.fs, ?_⟩
              intro _
              unfold Mirrored
              rw [hk]
              refine ⟨rfl, ?_⟩
              rw [mirrorKey_under, he2L, hcc]
            · have hres : processSourceFile st (source ++ realRel) (replica ++ dotArg) f
                  = doCopy st (source ++ realRel ++ [f]) (replica ++ dotArg ++ [f]) := by
                unfold processSourceFile
                simp [herr, hEx, hex, hmd5s, hmd5r, hcc]
              rw [hres]
              exact doCopy_post fs0 source replica hctx st hInv realRel f hrg hfg c true
                hk (replica ++ dotArg ++ [f]) hResD
    · have hres : processSourceFile st (source ++ realRel) (replica ++ dotArg) f =
          doCopy st (source ++ realRel ++ [f]) (replica ++ dotArg ++ [f]) := by
        unfold processSourceFile
        simp [herr, hEx, hex]
      rw [hres]
      exact doCopy_post fs0 source replica hctx st hInv realRel f hrg hfg c r
        hk (replica ++ dotArg ++ [f]) hResD

theorem filesFold_post (fs0 : FS) (source replica : Path)
    (hctx : Ctx fs0 source replica)
    (realRel dotArg : List Name) (hshape : NodeShape realRel dotArg)
    (hrg : ∀ n ∈ realRel, goodName n) :
    ∀ (fls : List Name) (st : St),
      FInv fs0 source replica st →
      (∀ f ∈ fls, goodName f ∧ ∃ c r,
        lookupFS fs0 (source ++ realRel ++ [f]) = some (Entry.file c r)) →
      FInv fs0 source replica
        (fls.foldl (fun s f =>
          processSourceFile s (source ++ realRel) (replica ++ dotArg) f) st) ∧
      WriteOK fs0 source replica st.fs
        (fls.foldl (fun s f =>
          processSourceFile s (source ++ realRel) (replica ++ dotArg) f) st).fs ∧
      (∀ q, (lookupFS st.fs q).isSome = true →
        (lookupFS (fls.foldl (fun s f =>
          processSourceFile s (source ++ realRel) (replica ++ dotArg) f) st).fs q).isSome
            = true) ∧
      ((fls.foldl (fun s f =>
          processSourceFile s (source ++ realRel) (replica ++ dotArg) f) st).err = none →
        ∀ f ∈ fls, Mirrored fs0 source replica
          (fls.foldl (fun s f =>
            processSourceFile s (source ++ realRel) (replica ++ dotArg) f) st).fs
          (source ++ realRel ++ [f])) := by
  intro fls
  induction fls with
  | nil =>
    intro st hInv _
    refine ⟨hInv, WriteOK_refl fs0 source replica st.fs, fun q hq => hq, ?_⟩
    intro _ f hf
    simp at hf
  | cons f rest ih =>
    intro st hInv hfl
    rw [List.foldl_cons]
    obtain ⟨hfg, c, r, hkf⟩ := hfl f (List.mem_cons_self f rest)
    have hstep := processSourceFile_post fs0 source replica hctx st hInv realRel dotArg
      hshape hrg f hfg c r hkf
    have hrest := ih (processSourceFile st (source ++ realRel) (replica ++ dotArg) f)
      hstep.1 (fun g hg => hfl g (List.mem_cons_of_mem f hg))
    refine ⟨hrest.1,
      WriteOK_trans fs0 source replica _ _ _ hstep.2.1 hrest.2.1,
      ?_, ?_⟩
    · intro q hq
      exact hrest.2.2.1 q
        (processSourceFile_isSome_mono st (source ++ realRel) (replica ++ dotArg) f q hq)
    · intro hen g hg
      have hen1 : (processSourceFile st (source ++ realRel) (replica ++ dotArg) f).err
          = none :=
        err_none_of_foldl _ (fun s x hs =>
          err_isSome_mono_processSourceFile s (source ++ realRel) (replica ++ dotArg) x hs)
          rest _ hen
      rcases List.mem_cons.1 hg with hgf | hgr
      · subst hgf
        have hsp : source.IsPrefix (source ++ realRel ++ [g]) :=
          ⟨realRel ++ [g], (List.append_assoc source realRel [g]).symm⟩
        exact Mirrored_persist fs0 source replica _ _ _ hrest.2.1 hrest.2.2.1 hsp
          (hstep.2.2 hen1)
      · exact hrest.2.2.2 hen g hgr

theorem isSome_of_isDirAt (fs : FS) (p : Path) (h : isDirAt fs p = true) :
    (lookupFS fs p).isSome = true := by
  unfold isDirAt at h
  cases hl : lookupFS fs p with
  | none => rw [hl] at h; simp at h
  | some e => rfl

theorem processSourceDir_post (fs0 : FS) (source replica : Path)
    (hctx : Ctx fs0 source replica) (st : St) (hInv : FInv fs0 source replica st)
    (realRel dotArg : List Name) (hshape : NodeShape realRel dotArg)
    (hrg : ∀ n ∈ realRel, goodName n)
    (fls : List Name)
    (hfl : ∀ f ∈ fls, goodName f ∧ ∃ c r,
      lookupFS fs0 (source ++ realRel ++ [f]) = some (Entry.file c r))
    (hdirk : lookupFS fs0 (source ++ realRel) = some Entry.dir) :
    FInv fs0 source replica (processSourceDir source replica st (source ++ realRel) fls) ∧
    WriteOK fs0 source replica st.fs
      (processSourceDir source replica st (source ++ realRel) fls).fs ∧
    (∀ q, (lookupFS st.fs q).isSome = true →
      (lookupFS (processSourceDir source replica st (source ++ realRel) fls).fs q).isSome
        = true) ∧
    ((processSourceDir source replica st (source ++ realRel) fls).err = none →
      Mirrored fs0 source replica
        (processSourceDir source replica st (source ++ realRel) fls).fs
        (source ++ realRel) ∧
      ∀ f ∈ fls, Mirrored fs0 source replica
        (processSourceDir source replica st (source ++ realRel) fls).fs
        (source ++ realRel ++ [f])) := by
  obtain ⟨hWF0, hdisj, hcs, hcr, hls, hlr⟩ := hctx
  have hctx2 : Ctx fs0 source replica := ⟨hWF0, hdisj, hcs, hcr, hls, hlr⟩
  cases herr : st.err with
  | some e =>
    rw [processSourceDir_of_err source replica st (source ++ realRel) fls
      (by rw [herr]; rfl)]
    refine ⟨hInv, WriteOK_refl fs0 source replica st.fs, fun q hq => hq, ?_⟩
    intro hnone
    rw [herr] at hnone
    simp at hnone
  | none =>
    have hrel : relpathDot (source ++ realRel) source = dotArg := by
      unfold relpathDot
      rcases hshape with ⟨hd, hr⟩ | ⟨hd, hr⟩
      · subst hr
        simp [hd]
      · have hlp : 0 < realRel.length := List.length_pos.2 hr
        have hc : ¬ ((source ++ realRel).length ≤ source.length) := by
          rw [List.length_append]
          omega
        rw [if_neg hc, List.drop_left, hd]
    have hExD : pyExists st.fs (replica ++ dotArg) =
        (lookupFS st.fs (replica ++ realRel)).isSome := by
      have h1 := pyExists_rep_under fs0 source replica hctx2 st hInv realRel dotArg
        hshape hrg [] (by intro n hn; simp at hn)
      simp only [List.append_nil] at h1
      exact h1
    by_cases hex : (lookupFS st.fs (replica ++ realRel)).isSome = true
    · have hres : processSourceDir source replica st (source ++ realRel) fls =
          fls.foldl (fun s f =>
            processSourceFile s (source ++ realRel) (replica ++ dotArg) f) st := by
        unfold processSourceDir
        simp [herr, hrel, hExD, hex]
      rw [hres]
      have hfold := filesFold_post fs0 source replica hctx2 realRel dotArg hshape hrg
        fls st hInv hfl
      refine ⟨hfold.1, hfold.2.1, hfold.2.2.1, ?_⟩
      intro hen
      refine ⟨?_, hfold.2.2.2 hen⟩
      unfold Mirrored
      rw [hdirk, mirrorKey_append]
      exact hfold.2.2.1 (replica ++ realRel) hex
    · rcases hshape with ⟨hd, hr⟩ | ⟨hd, hr⟩
      · exfalso
        rw [hr, List.append_nil] at hex
        exact hex (isSome_of_isDirAt st.fs replica
          (hInv.2.2 replica (List.prefix_refl replica) hcr.1))
      · have hdr : replica ++ dotArg = replica ++ realRel := by rw [hd]
        have hlast : ¬ ((replica ++ realRel).getLast? = some ".") := by
          intro hgl
          rw [List.getLast?_append] at hgl
          cases hgl2 : realRel.getLast? with
          | none => exact hr (List.getLast?_eq_none_iff.1 hgl2)
          | some a =>
            rw [hgl2] at hgl
            simp at hgl
            have ha : a ∈ realRel := List.mem_of_mem_getLast? hgl2
            exact (hrg a ha).1 hgl
        have hpmr : pyMakedirs st.fs (replica ++ realRel) =
            makedirsAux st.fs [] (replica ++ realRel) := by
          unfold pyMakedirs
          simp only []
          rw [if_neg hlast]
        cases hmk : makedirsAux st.fs [] (replica ++ realRel) with
        | error e =>
          have hpm : pyMakedirs st.fs (replica ++ dotArg) = Except.error e := by
            rw [hdr, hpmr, hmk]
          have hres : processSourceDir source replica st (source ++ realRel) fls =
              { st with err := some e } := by
            unfold processSourceDir
            simp only [herr, hrel, hExD]
            simp only [Bool.not_eq_true] at hex
            simp [hex, hpm, herr]
            exact foldl_fix _ _ (fun f => processSourceFile_of_err _ _ _ f (by simp)) fls
          rw [hres]
          refine ⟨hInv, WriteOK_refl fs0 source replica st.fs, fun q hq => hq, ?_⟩
          intro hnone
          simp at hnone
        | ok fs2 =>
          have hpm : pyMakedirs st.fs (replica ++ dotArg) = Except.ok fs2 := by
            rw [hdr, hpmr, hmk]
          have hres : processSourceDir source replica st (source ++ realRel) fls =
              fls.foldl (fun s f =>
                processSourceFile s (source ++ realRel) (replica ++ dotArg) f)
                { st with fs := fs2,
                          events := st.events ++ [Event.dirCreated (replica ++ dotArg)] }
              := by
            unfold processSourceDir
            simp only [herr, hrel, hExD]
            simp only [Bool.not_eq_true] at hex
            simp [hex, hpm, herr]
          have hWF2 : WFfs fs2 := by
            refine makedirsAux_WF (replica ++ realRel) st.fs [] fs2 hInv.1
              (by intro n hn; simp at hn) ?_ ?_ hmk
            · intro n hn
              rcases List.mem_append.1 hn with h1 | h1
              · exact hcr.2 n h1
              · exact hrg n h1
            · intro i hi hi0
              simp at hi
              omega
          have hSrc2 : ∀ k, source.IsPrefix k → lookupFS fs2 k = lookupFS fs0 k := by
            intro k hskp
            rcases makedirsAux_spec (replica ++ realRel) st.fs [] fs2 hmk k with
              h1 | ⟨_, _, _, h4, _⟩
            · rw [h1]
              exact hInv.2.1 k hskp
            · exfalso
              rw [List.nil_append] at h4
              have hsrr : source.IsPrefix (replica ++ realRel) := hskp.trans h4
              rcases List.prefix_or_prefix_of_prefix hsrr
                (List.prefix_append replica realRel) with h5 | h5
              · exact hdisj.1 h5
              · exact hdisj.2 h5
          have hDirs2 : ∀ q, q.IsPrefix replica → q ≠ [] → isDirAt fs2 q = true := by
            intro q hq hq0
            exact pyMakedirs_dir_mono st.fs fs2 (replica ++ realRel)
              (by rw [hpmr, hmk]) q (hInv.2.2 q hq hq0)
          have hInv2 : FInv fs0 source replica
              { st with fs := fs2,
                        events := st.events ++ [Event.dirCreated (replica ++ dotArg)] } :=
            ⟨hWF2, hSrc2, hDirs2⟩
          have hW2 : WriteOK fs0 source replica st.fs fs2 := by
            intro k hne
            obtain ⟨hnone, hdir2, hpos, hkpr⟩ :=
              pyMakedirs_changed st.fs fs2 (replica ++ realRel) k (by rw [hpmr, hmk]) hne
            have hrk : replica.IsPrefix k := by
              rcases List.prefix_or_prefix_of_prefix hkpr
                (List.prefix_append replica realRel) with h5 | h5
              · exfalso
                have hds : isDirAt st.fs k = true := hInv.2.2 k h5
                  (by intro hknil; rw [hknil] at hpos; simp at hpos)
                have hsome := isSome_of_isDirAt st.fs k hds
                rw [hnone] at hsome
                simp at hsome
              · exact h5
            refine ⟨hrk, ?_, Or.inl ⟨hnone, hdir2⟩⟩
            rcases Nat.lt_or_ge replica.length k.length with h6 | h6
            · exact h6
            · exfalso
              have hkr : replica = k := hrk.eq_of_length
                (Nat.le_antisymm (hrk.length_le) h6)
              have hds : isDirAt st.fs replica = true :=
                hInv.2.2 replica (List.prefix_refl replica) hcr.1
              rw [← hkr] at hnone
              have hsome := isSome_of_isDirAt st.fs replica hds
              rw [hnone] at hsome
              simp at hsome
          have hmono2 : ∀ q, (lookupFS st.fs q).isSome = true →
              (lookupFS fs2 q).isSome = true := by
            intro q hq
            rcases makedirsAux_spec (replica ++ realRel) st.fs [] fs2 hmk q with
              h1 | ⟨_, h2, _, _, _⟩
            · rw [h1]
              exact hq
            · rw [h2]
              rfl
          have hdirat2 : (lookupFS fs2 (replica ++ realRel)).isSome = true := by
            have hp := makedirsAux_post (replica ++ realRel) st.fs [] fs2 hmk
              (replica ++ realRel).length (Nat.le_refl _)
              (by
                rw [List.length_append]
                have := List.length_pos.2 hcr.1
                omega)
            rw [List.take_length, List.nil_append] at hp
            exact isSome_of_isDirAt fs2 (replica ++ realRel) hp
          rw [hres]
          have hfold := filesFold_post fs0 source replica hctx2 realRel dotArg
            (Or.inr ⟨hd, hr⟩) hrg fls
            { st with fs := fs2,
                      events := st.events ++ [Event.dirCreated (replica ++ dotArg)] }
            hInv2 hfl
          refine ⟨hfold.1,
            WriteOK_trans fs0 source replica _ _ _ hW2 hfold.2.1,
            ?_, ?_⟩
          · intro q hq
            exact hfold.2.2.1 q (hmono2 q hq)
          · intro hen
            refine ⟨?_, hfold.2.2.2 hen⟩
            unfold Mirrored
            rw [hdirk, mirrorKey_append]
            exact hfold.2.2.1 (replica ++ realRel) hdirat2
/-- The dot argument os.path.relpath produces for a node at relative path
realRel below the walk root. -/
def dotArgOf (realRel : List Name) : List Name :=
  if realRel = [] then ["."] else realRel

theorem NodeShape_dotArgOf (realRel : List Name) : NodeShape realRel (dotArgOf realRel) := by
  unfold dotArgOf NodeShape
  by_cases h : realRel = []
  · rw [if_pos h]
    exact Or.inl ⟨rfl, h⟩
  · rw [if_neg h]
    exact Or.inr ⟨rfl, h⟩

theorem walkF_main (fs0 : FS) (source replica : Path) (hctx : Ctx fs0 source replica) :
    ∀ (fuel : Nat) (p : Path) (st : St),
      FInv fs0 source replica st →
      source.IsPrefix p →
      (∀ n ∈ p, goodName n) →
      lookupFS fs0 p = some Entry.dir →
      maxKeyLen fs0 < fuel + p.length →
      FInv fs0 source replica (walkF source replica fuel st p) ∧
      WriteOK fs0 source replica st.fs (walkF source replica fuel st p).fs ∧
      ((walkF source replica fuel st p).err = none →
        ∀ k e, lookupFS fs0 k = some e → p.IsPrefix k →
          Mirrored fs0 source replica (walkF source replica fuel st p).fs k) := by
  obtain ⟨hWF0, hdisj, hcs, hcr, hls, hlr⟩ := hctx
  have hctx2 : Ctx fs0 source replica := ⟨hWF0, hdisj, hcs, hcr, hls, hlr⟩
  intro fuel
  induction fuel with
  | zero =>
    intro p st _ _ _ hdir hfuel
    have hmem : (p, Entry.dir) ∈ fs0 := mem_of_lookupFS_eq_some fs0 p Entry.dir hdir
    have hge := maxKeyLen_ge fs0 p Entry.dir hmem
    exact absurd hfuel (by omega)
  | succ n ih =>
    intro p st hInv hsp hpg hdir hfuel
    cases herr : st.err with
    | some e =>
      rw [walkF_of_err source replica (n + 1) st p (by rw [herr]; rfl)]
      refine ⟨hInv, WriteOK_refl fs0 source replica st.fs, ?_⟩
      intro hen
      rw [herr] at hen
      simp at hen
    | none =>
      obtain ⟨realRel, rfl⟩ : ∃ rr, p = source ++ rr :=
        ⟨p.drop source.length, (source_append_drop source p hsp).symm⟩
      have hrg : ∀ x ∈ realRel, goodName x := fun x hx =>
        hpg x (List.mem_append.2 (Or.inr hx))
      have hdlive : lookupFS st.fs (source ++ realRel) = some Entry.dir := by
        rw [hInv.2.1 _ hsp]
        exact hdir
      have hdirat : isDirAt st.fs (source ++ realRel) = true := by
        unfold isDirAt
        rw [hdlive]
      have hld := listDir_eq_some st.fs (source ++ realRel) hdirat
      rw [walkF_succ_some source replica n st (source ++ realRel) _ _ herr hld]
      have hfls : ∀ f ∈ fileNamesAt st.fs (source ++ realRel), goodName f ∧
          ∃ c r, lookupFS fs0 (source ++ realRel ++ [f]) = some (Entry.file c r) := by
        intro f hf
        obtain ⟨c, r, hmemf⟩ := (mem_fileNamesAt st.fs (source ++ realRel) f).1 hf
        have hlf : lookupFS st.fs (source ++ realRel ++ [f]) = some (Entry.file c r) :=
          lookupFS_eq_some_of_mem st.fs _ _ hInv.1.1 hmemf
        have hspf : source.IsPrefix (source ++ realRel ++ [f]) :=
          ⟨realRel ++ [f], (List.append_assoc source realRel [f]).symm⟩
        have hlf0 : lookupFS fs0 (source ++ realRel ++ [f]) = some (Entry.file c r) := by
          rw [← hInv.2.1 _ hspf]
          exact hlf
        refine ⟨?_, c, r, hlf0⟩
        exact WF_good_names st.fs hInv.1 _ _ hlf f
          (List.mem_append.2 (Or.inr (List.mem_singleton_self f)))
      have hds : ∀ d ∈ subdirNames st.fs (source ++ realRel), goodName d ∧
          lookupFS fs0 (source ++ realRel ++ [d]) = some Entry.dir := by
        intro d hd
        have hmemd := (mem_subdirNames st.fs (source ++ realRel) d).1 hd
        have hld2 : lookupFS st.fs (source ++ realRel ++ [d]) = some Entry.dir :=
          lookupFS_eq_some_of_mem st.fs _ _ hInv.1.1 hmemd
        have hspd : source.IsPrefix (source ++ realRel ++ [d]) :=
          ⟨realRel ++ [d], (List.append_assoc source realRel [d]).symm⟩
        have hld0 : lookupFS fs0 (source ++ realRel ++ [d]) = some Entry.dir := by
          rw [← hInv.2.1 _ hspd]
          exact hld2
        refine ⟨?_, hld0⟩
        exact WF_good_names st.fs hInv.1 _ _ hld2 d
          (List.mem_append.2 (Or.inr (List.mem_singleton_self d)))
      have hpost := processSourceDir_post fs0 source replica hctx2 st hInv realRel
        (dotArgOf realRel) (NodeShape_dotArgOf realRel) hrg
        (fileNamesAt st.fs (source ++ realRel)) hfls hdir
      have hfold : ∀ (ds : List Name),
          (∀ d ∈ ds, goodName d ∧
            lookupFS fs0 (source ++ realRel ++ [d]) = some Entry.dir) →
          ∀ (s : St), FInv fs0 source replica s →
          FInv fs0 source replica
            (ds.foldl (fun s d =>
              walkF source replica n s (source ++ realRel ++ [d])) s) ∧
          WriteOK fs0 source replica s.fs
            (ds.foldl (fun s d =>
              walkF source replica n s (source ++ realRel ++ [d])) s).fs ∧
          (∀ q, (lookupFS s.fs q).isSome = true →
            (lookupFS (ds.foldl (fun s d =>
              walkF source replica n s (source ++ realRel ++ [d])) s).fs q).isSome
              = true) ∧
          ((ds.foldl (fun s d =>
              walkF source replica n s (source ++ realRel ++ [d])) s).err = none →
            ∀ d ∈ ds, ∀ k e, lookupFS fs0 k = some e →
              (source ++ realRel ++ [d]).IsPrefix k →
              Mirrored fs0 source replica
                (ds.foldl (fun s d =>
                  walkF source replica n s (source ++ realRel ++ [d])) s).fs k) := by
        intro ds
        induction ds with
        | nil =>
          intro _ s hI
          refine ⟨hI, WriteOK_refl fs0 source replica s.fs, fun q hq => hq, ?_⟩
          intro _ d hd
          simp at hd
        | cons d rest ihd =>
          intro hdsp s hI
          rw [List.foldl_cons]
          obtain ⟨hdg, hdk⟩ := hdsp d (List.mem_cons_self d rest)
          have hblen : (source ++ realRel ++ [d]).length =
              (source ++ realRel).length + 1 := by
            rw [List.length_append (source ++ realRel) [d]]
            rfl
          have hbound2 : maxKeyLen fs0 < n + (source ++ realRel ++ [d]).length := by
            omega
          have hspd : source.IsPrefix (source ++ realRel ++ [d]) :=
            ⟨realRel ++ [d], (List.append_assoc source realRel [d]).symm⟩
          have hgood2 : ∀ x ∈ source ++ realRel ++ [d], goodName x := by
            intro x hx
            rcases List.mem_append.1 hx with h1 | h1
            · exact hpg x h1
            · rw [List.mem_singleton] at h1
              rw [h1]
              exact hdg
          have hchild := ih (source ++ realRel ++ [d]) s hI hspd hgood2 hdk hbound2
          have hrest := ihd (fun x hx => hdsp x (List.mem_cons_of_mem d hx))
            (walkF source replica n s (source ++ realRel ++ [d])) hchild.1
          refine ⟨hrest.1,
            WriteOK_trans fs0 source replica _ _ _ hchild.2.1 hrest.2.1,
            ?_, ?_⟩
          · intro q hq
            exact hrest.2.2.1 q
              (walkF_isSome_mono source replica n (source ++ realRel ++ [d]) s q hq)
          · intro hen x hx k e hk hkpre
            have hen1 : (walkF source replica n s (source ++ realRel ++ [d])).err
                = none :=
              err_none_of_foldl _ (fun s' y hs' => by
                rw [walkF_of_err source replica n s' (source ++ realRel ++ [y]) hs']
                exact hs') rest _ hen
            rcases List.mem_cons.1 hx with hxd | hxr
            · subst hxd
              exact Mirrored_persist fs0 source replica _ _ k hrest.2.1 hrest.2.2.1
                (hspd.trans hkpre) (hchild.2.2 hen1 k e hk hkpre)
            · exact hrest.2.2.2 hen x hxr k e hk hkpre
      have hmain := hfold (subdirNames st.fs (source ++ realRel)) hds
        (processSourceDir source replica st (source ++ realRel)
          (fileNamesAt st.fs (source ++ realRel))) hpost.1
      refine ⟨hmain.1,
        WriteOK_trans fs0 source replica _ _ _ hpost.2.1 hmain.2.1, ?_⟩
      intro hen k e hk hkpre
      have hen2 : (processSourceDir source replica st (source ++ realRel)
          (fileNamesAt st.fs (source ++ realRel))).err = none :=
        err_none_of_foldl _ (fun s' y hs' => by
          rw [walkF_of_err source replica n s' (source ++ realRel ++ [y]) hs']
          exact hs') (subdirNames st.fs (source ++ realRel)) _ hen
      have hguard := hpost.2.2.2 hen2
      have hkeq : source ++ realRel ++ k.drop (source ++ realRel).length = k :=
        source_append_drop (source ++ realRel) k hkpre
      cases hrest : k.drop (source ++ realRel).length with
      | nil =>
        rw [hrest, List.append_nil] at hkeq
        subst hkeq
        exact Mirrored_persist fs0 source replica _ _ _ hmain.2.1 hmain.2.2.1 hsp
          hguard.1
      | cons d rest' =>
        rw [hrest] at hkeq
        have hdp : (source ++ realRel ++ [d]).IsPrefix k :=
          ⟨rest', by rw [List.append_assoc (source ++ realRel) [d] rest']; exact hkeq⟩
        have hspk : source.IsPrefix k := hsp.trans hkpre
        by_cases hkc : source ++ realRel ++ [d] = k
        · cases e with
          | dir =>
            have hdm : d ∈ subdirNames st.fs (source ++ realRel) := by
              refine (mem_subdirNames st.fs (source ++ realRel) d).2 ?_
              refine mem_of_lookupFS_eq_some st.fs _ _ ?_
              rw [hInv.2.1 _ (by rw [hkc]; exact hspk), hkc]
              exact hk
            exact hmain.2.2.2 hen d hdm k Entry.dir hk hdp
          | file c r =>
            have hfm : d ∈ fileNamesAt st.fs (source ++ realRel) := by
              refine (mem_fileNamesAt st.fs (source ++ realRel) d).2 ⟨c, r, ?_⟩
              refine mem_of_lookupFS_eq_some st.fs _ _ ?_
              rw [hInv.2.1 _ (by rw [hkc]; exact hspk), hkc]
              exact hk
            have hM2 := hguard.2 d hfm
            rw [hkc] at hM2
            exact Mirrored_persist fs0 source replica _ _ k hmain.2.1 hmain.2.2.1
              hspk hM2
        · have hdd : isDirAt fs0 (source ++ realRel ++ [d]) = true :=
            WF_prefix_dir fs0 hWF0 k e hk _ hdp (by simp) hkc
          have hdd2 : lookupFS fs0 (source ++ realRel ++ [d]) = some Entry.dir := by
            unfold isDirAt at hdd
            cases hl2 : lookupFS fs0 (source ++ realRel ++ [d]) with
            | none => rw [hl2] at hdd; simp at hdd
            | some e2 =>
              cases e2 with
              | dir => rfl
              | file c2 r2 => rw [hl2] at hdd; simp at hdd
          have hdm : d ∈ subdirNames st.fs (source ++ realRel) := by
            refine (mem_subdirNames st.fs (source ++ realRel) d).2 ?_
            refine mem_of_lookupFS_eq_some st.fs _ _ ?_
            rw [hInv.2.1 _ ⟨realRel ++ [d], (List.append_assoc source realRel [d]).symm⟩]
            exact hdd2
          exact hmain.2.2.2 hen d hdm k e hk hdp

/-! ### Reverse pass: per-step postconditions -/

theorem relpathDot_node (root : Path) (rrel : List Name) :
    relpathDot (root ++ rrel) root = dotArgOf rrel := by
  unfold relpathDot dotArgOf
  by_cases h : rrel = []
  · subst h
    simp
  · have hlp : 0 < rrel.length := List.length_pos.2 h
    have hc : ¬ ((root ++ rrel).length ≤ root.length) := by
      rw [List.length_append]
      omega
    rw [if_neg hc, if_neg h, List.drop_left]

theorem resolve_under_root (fs : FS) (root : Path)
    (hrc : ∀ n ∈ root, n ≠ ".") (hdir : isDirAt fs root = true)
    (rrel dotArg : List Name) (hshape : NodeShape rrel dotArg)
    (hrg : ∀ n ∈ rrel, goodName n) (x : List Name) (hxg : ∀ n ∈ x, goodName n) :
    resolve fs (root ++ dotArg ++ x) = some (root ++ rrel ++ x) := by
  have hxn : ∀ n ∈ x, n ≠ "." := fun n hn => (hxg n hn).1
  rcases hshape with ⟨hd, hr⟩ | ⟨hd, hr⟩
  · subst hd
    subst hr
    rw [resolve_root_dot_more fs root x hrc hxn]
    rw [hdir]
    simp
  · rw [hd]
    have hclean : ∀ n ∈ root ++ rrel ++ x, n ≠ "." := by
      intro n hn
      rcases List.mem_append.1 hn with h1 | h1
      · rcases List.mem_append.1 h1 with h2 | h2
        · exact hrc n h2
        · exact (hrg n h2).1
      · exact hxn n h1
    exact resolve_clean fs (root ++ rrel ++ x) hclean

theorem pyExists_under_root (fs : FS) (root : Path)
    (hrc : ∀ n ∈ root, n ≠ ".") (hdir : isDirAt fs root = true)
    (rrel dotArg : List Name) (hshape : NodeShape rrel dotArg)
    (hrg : ∀ n ∈ rrel, goodName n) (x : List Name) (hxg : ∀ n ∈ x, goodName n) :
    pyExists fs (root ++ dotArg ++ x) = (lookupFS fs (root ++ rrel ++ x)).isSome := by
  unfold pyExists
  rw [resolve_under_root fs root hrc hdir rrel dotArg hshape hrg x hxg]

theorem maxKeyLen_le_of_lookup (fs1 fs2 : FS) (hnd : (fs1.map Prod.fst).Nodup)
    (h : ∀ q, lookupFS fs1 q = lookupFS fs2 q ∨ lookupFS fs1 q = none) :
    maxKeyLen fs1 ≤ maxKeyLen fs2 := by
  refine maxKeyLen_le fs1 (maxKeyLen fs2) ?_
  intro kv hkv
  have hl1 : lookupFS fs1 kv.1 = some kv.2 :=
    lookupFS_eq_some_of_mem fs1 kv.1 kv.2 hnd (by rcases kv with ⟨a, b⟩; exact hkv)
  rcases h kv.1 with h1 | h1
  · rw [hl1] at h1
    exact maxKeyLen_ge fs2 kv.1 kv.2 (mem_of_lookupFS_eq_some fs2 kv.1 kv.2 h1.symm)
  · rw [hl1] at h1
    exact absurd h1 (by simp)

theorem processReplicaFile_err (st : St) (d sd : Path) (f : Name) :
    (processReplicaFile st d sd f).err = st.err := by
  cases herr : st.err with
  | some e =>
    rw [processReplicaFile_of_err st d sd f (by rw [herr]; rfl)]
    exact herr
  | none =>
    unfold processReplicaFile
    rw [herr]
    simp only [Option.isSome_none, Bool.false_eq_true, if_false]
    by_cases hex : pyExists st.fs (sd ++ [f])
    · rw [if_pos hex]
      exact herr
    · rw [if_neg hex]

theorem processReplicaFile_shrink (st : St) (d sd : Path) (f : Name) (q : Path) :
    lookupFS (processReplicaFile st d sd f).fs q = lookupFS st.fs q ∨
      lookupFS (processReplicaFile st d sd f).fs q = none := by
  rcases processReplicaFile_fs st d sd f with h1 | h1
  · rw [h1]
    exact Or.inl rfl
  · rw [h1, lookup_eraseKey]
    by_cases hq : q = d ++ [f]
    · rw [if_pos hq]
      exact Or.inr rfl
    · rw [if_neg hq]
      exact Or.inl rfl

theorem walkR_err_eq (source replica : Path) (fuel : Nat) :
    ∀ p st, (walkR source replica fuel st p).err = st.err := by
  induction fuel with
  | zero => intro p st; rfl
  | succ n ih =>
    intro p st
    cases herr : st.err with
    | some e =>
      rw [walkR_of_err source replica (n + 1) st p (by rw [herr]; rfl), herr]
    | none =>
      cases hld : listDir st.fs p with
      | none => rw [walkR_stop source replica (n + 1) st p hld, herr]
      | some pr =>
        obtain ⟨ds, fls⟩ := pr
        rw [walkR_succ_some source replica n st p ds fls herr hld]
        have hbase :
            (if pyExists st.fs (source ++ relpathDot p replica) then
              fls.foldl (fun s f =>
                processReplicaFile s p (source ++ relpathDot p replica) f) st
            else
              { st with fs := eraseTree st.fs p,
                        events := st.events ++ [Event.dirRemoved p] }).err = none := by
          by_cases hex : pyExists st.fs (source ++ relpathDot p replica) = true
          · rw [if_pos hex]
            refine foldl_pres (fun s => s.err = none) _ ?_ fls st herr
            intro s f hs
            rw [processReplicaFile_err s p (source ++ relpathDot p replica) f]
            exact hs
          · rw [if_neg hex]
            exact herr
        refine foldl_pres (fun s => s.err = none) _ ?_ ds _ hbase
        intro s d hs
        rw [ih (p ++ [d]) s]
        exact hs

theorem processReplicaFile_post (fs0 : FS) (source replica : Path)
    (hdisj : RootsDisjoint source replica) (hcs : cleanPath source)
    (st : St) (herr : st.err = none) (hInv : RInv fs0 source st)
    (hsrcdir : isDirAt st.fs source = true)
    (rrel dotArg : List Name) (hshape : NodeShape rrel dotArg)
    (hrg : ∀ n ∈ rrel, goodName n) (f : Name) (hfg : goodName f)
    (hfile : lookupFS st.fs (replica ++ rrel ++ [f]) = none ∨
      ∃ c r, lookupFS st.fs (replica ++ rrel ++ [f]) = some (Entry.file c r)) :
    RInv fs0 source (processReplicaFile st (replica ++ rrel) (source ++ dotArg) f) ∧
    (∀ m, RProtected fs0 source replica m →
      lookupFS (processReplicaFile st (replica ++ rrel) (source ++ dotArg) f).fs m =
        lookupFS st.fs m) ∧
    (lookupFS (processReplicaFile st (replica ++ rrel) (source ++ dotArg) f).fs
        (replica ++ rrel ++ [f]) = none ∨
      (lookupFS fs0 (source ++ rrel ++ [f])).isSome = true) := by
  have hfg1 : ∀ n ∈ [f], goodName n := by
    intro n hn
    rw [List.mem_singleton] at hn
    rw [hn]
    exact hfg
  have hscn : ∀ n ∈ source, n ≠ "." := fun n hn => (hcs.2 n hn).1
  have hpex : pyExists st.fs (source ++ (dotArg ++ [f])) =
      (lookupFS st.fs (source ++ (rrel ++ [f]))).isSome := by
    rw [← List.append_assoc, ← List.append_assoc source rrel [f]]
    exact pyExists_under_root st.fs source hscn hsrcdir rrel dotArg hshape hrg [f] hfg1
  have hsag : lookupFS st.fs (source ++ rrel ++ [f]) =
      lookupFS fs0 (source ++ rrel ++ [f]) :=
    hInv.2 _ ⟨rrel ++ [f], (List.append_assoc source rrel [f]).symm⟩
  have hsag2 : lookupFS st.fs (source ++ (rrel ++ [f])) =
      lookupFS fs0 (source ++ (rrel ++ [f])) := by
    rw [← List.append_assoc]
    exact hsag
  by_cases hex : (lookupFS st.fs (source ++ (rrel ++ [f]))).isSome = true
  · have hres : processReplicaFile st (replica ++ rrel) (source ++ dotArg) f = st := by
      unfold processReplicaFile
      simp [herr, hpex, hex]
    rw [hres]
    refine ⟨hInv, fun m _ => rfl, Or.inr ?_⟩
    have h2 := hex
    rw [hsag2] at h2
    rw [← List.append_assoc] at h2
    exact h2
  · have hres : processReplicaFile st (replica ++ rrel) (source ++ dotArg) f =
        { st with fs := eraseKey st.fs (replica ++ rrel ++ [f]),
                  events := st.events ++ [Event.fileRemoved (replica ++ rrel ++ [f])] }
        := by
      unfold processReplicaFile
      simp [herr, hpex, hex]
    rw [hres]
    have hnotdir : isDirAt st.fs (replica ++ rrel ++ [f]) = false := by
      unfold isDirAt
      rcases hfile with h1 | ⟨c, r, h1⟩
      · rw [h1]
      · rw [h1]
    have hrpM : replica.IsPrefix (replica ++ rrel ++ [f]) :=
      ⟨rrel ++ [f], (List.append_assoc replica rrel [f]).symm⟩
    refine ⟨⟨WF_eraseKey st.fs (replica ++ rrel ++ [f]) hInv.1 hnotdir, ?_⟩, ?_, ?_⟩
    · intro k hskp
      show lookupFS (eraseKey st.fs (replica ++ rrel ++ [f])) k = lookupFS fs0 k
      rw [lookup_eraseKey]
      have hkne : k ≠ replica ++ rrel ++ [f] := by
        intro hkeq
        subst hkeq
        rcases List.prefix_or_prefix_of_prefix hskp hrpM with h1 | h1
        · exact hdisj.1 h1
        · exact hdisj.2 h1
      rw [if_neg hkne]
      exact hInv.2 k hskp
    · intro m hpm
      show lookupFS (eraseKey st.fs (replica ++ rrel ++ [f])) m = lookupFS st.fs m
      rw [lookup_eraseKey]
      have hmne : m ≠ replica ++ rrel ++ [f] := by
        intro hmeq
        subst hmeq
        have hdrop : (replica ++ rrel ++ [f]).drop replica.length = rrel ++ [f] := by
          rw [List.append_assoc]
          exact List.drop_left replica (rrel ++ [f])
        have h2 : (lookupFS fs0
            (source ++ (replica ++ rrel ++ [f]).drop replica.length)).isSome = true :=
          hpm.2
        rw [hdrop, ← hsag2] at h2
        exact hex h2
      rw [if_neg hmne]
    · refine Or.inl ?_
      show lookupFS (eraseKey st.fs (replica ++ rrel ++ [f])) (replica ++ rrel ++ [f])
        = none
      rw [lookup_eraseKey, if_pos rfl]

theorem filesFoldR_post (fs0 : FS) (source replica : Path)
    (hdisj : RootsDisjoint source replica) (hcs : cleanPath source)
    (hls : lookupFS fs0 source = some Entry.dir)
    (rrel dotArg : List Name) (hshape : NodeShape rrel dotArg)
    (hrg : ∀ n ∈ rrel, goodName n) :
    ∀ (fls : List Name) (st : St), st.err = none → RInv fs0 source st →
      (∀ f ∈ fls, goodName f ∧ (lookupFS st.fs (replica ++ rrel ++ [f]) = none ∨
        ∃ c r, lookupFS st.fs (replica ++ rrel ++ [f]) = some (Entry.file c r))) →
      RInv fs0 source (fls.foldl (fun s f =>
        processReplicaFile s (replica ++ rrel) (source ++ dotArg) f) st) ∧
      (∀ q, lookupFS (fls.foldl (fun s f =>
          processReplicaFile s (replica ++ rrel) (source ++ dotArg) f) st).fs q =
          lookupFS st.fs q ∨
        lookupFS (fls.foldl (fun s f =>
          processReplicaFile s (replica ++ rrel) (source ++ dotArg) f) st).fs q = none) ∧
      (∀ m, RProtected fs0 source replica m →
        lookupFS (fls.foldl (fun s f =>
          processReplicaFile s (replica ++ rrel) (source ++ dotArg) f) st).fs m =
          lookupFS st.fs m) ∧
      (fls.foldl (fun s f =>
        processReplicaFile s (replica ++ rrel) (source ++ dotArg) f) st).err = none ∧
      (∀ f ∈ fls, lookupFS (fls.foldl (fun s f =>
          processReplicaFile s (replica ++ rrel) (source ++ dotArg) f) st).fs
          (replica ++ rrel ++ [f]) = none ∨
        (lookupFS fs0 (source ++ rrel ++ [f])).isSome = true) := by
  intro fls
  induction fls with
  | nil =>
    intro st herr hInv _
    refine ⟨hInv, fun q => Or.inl rfl, fun m _ => rfl, herr, ?_⟩
    intro f hf
    simp at hf
  | cons f rest ih =>
    intro st herr hInv hfls
    rw [List.foldl_cons]
    obtain ⟨hfg, hfile⟩ := hfls f (List.mem_cons_self f rest)
    have hsrcdir : isDirAt st.fs source = true := by
      unfold isDirAt
      rw [hInv.2 source (List.prefix_refl source), hls]
    have hstep := processReplicaFile_post fs0 source replica hdisj hcs st herr hInv
      hsrcdir rrel dotArg hshape hrg f hfg hfile
    have herr1 : (processReplicaFile st (replica ++ rrel) (source ++ dotArg) f).err
        = none := by
      rw [processReplicaFile_err]
      exact herr
    have hshr : ∀ q, lookupFS
        (processReplicaFile st (replica ++ rrel) (source ++ dotArg) f).fs q =
        lookupFS st.fs q ∨
        lookupFS (processReplicaFile st (replica ++ rrel) (source ++ dotArg) f).fs q
          = none :=
      fun q => processReplicaFile_shrink st (replica ++ rrel) (source ++ dotArg) f q
    have hrest := ih (processReplicaFile st (replica ++ rrel) (source ++ dotArg) f)
      herr1 hstep.1 (by
        intro g hg
        obtain ⟨hgg, hgf⟩ := hfls g (List.mem_cons_of_mem f hg)
        refine ⟨hgg, ?_⟩
        rcases hshr (replica ++ rrel ++ [g]) with h1 | h1
        · rw [h1]
          exact hgf
        · exact Or.inl h1)
    refine ⟨hrest.1, ?_, ?_, hrest.2.2.2.1, ?_⟩
    · intro q
      rcases hrest.2.1 q with h1 | h1
      · rw [h1]
        exact hshr q
      · exact Or.inr h1
    · intro m hpm
      rw [hrest.2.2.1 m hpm]
      exact hstep.2.1 m hpm
    · intro g hg
      rcases List.mem_cons.1 hg with hgf | hgr
      · subst hgf
        rcases hstep.2.2 with h1 | h1
        · refine Or.inl ?_
          rcases hrest.2.1 (replica ++ rrel ++ [g]) with h2 | h2
          · rw [h2]
            exact h1
          · exact h2
        · exact Or.inr h1
      · exact hrest.2.2.2.2 g hgr

theorem walkR_main (fs0 : FS) (source replica : Path)
    (hdisj : RootsDisjoint source replica) (hcs : cleanPath source)
    (hcr : cleanPath replica) (hls : lookupFS fs0 source = some Entry.dir)
    (hWF0 : WFfs fs0) :
    ∀ (fuel : Nat) (p : Path) (st : St),
      st.err = none → RInv fs0 source st →
      replica.IsPrefix p → (∀ n ∈ p, goodName n) →
      (lookupFS st.fs p = some Entry.dir ∨ lookupFS st.fs p = none) →
      maxKeyLen st.fs < fuel + p.length →
      RInv fs0 source (walkR source replica fuel st p) ∧
      (∀ m, RProtected fs0 source replica m →
        lookupFS (walkR source replica fuel st p).fs m = lookupFS st.fs m) ∧
      (∀ k, p.IsPrefix k →
        (lookupFS (walkR source replica fuel st p).fs k).isSome = true →
        (lookupFS fs0 (source ++ k.drop replica.length)).isSome = true) := by
  intro fuel
  induction fuel with
  | zero =>
    intro p st _ hInv _ _ _ hbound
    refine ⟨hInv, fun m _ => rfl, ?_⟩
    intro k hpk hk
    exfalso
    obtain ⟨e, he⟩ := Option.isSome_iff_exists.1 hk
    have hmem := mem_of_lookupFS_eq_some st.fs k e he
    have hge := maxKeyLen_ge st.fs k e hmem
    have hlen := hpk.length_le
    omega
  | succ n ih =>
    intro p st herr hInv hrp hpg hpd hbound
    cases hld : listDir st.fs p with
    | none =>
      rw [walkR_stop source replica (n + 1) st p hld]
      refine ⟨hInv, fun m _ => rfl, ?_⟩
      intro k hpk hk
      exfalso
      have hpnone : lookupFS st.fs p = none := by
        rcases hpd with h1 | h1
        · exfalso
          have hda : isDirAt st.fs p = true := by
            unfold isDirAt
            rw [h1]
          rw [listDir_eq_some st.fs p hda] at hld
          exact Option.noConfusion hld
        · exact h1
      obtain ⟨e, he⟩ := Option.isSome_iff_exists.1 hk
      by_cases hkp : k = p
      · subst hkp
        rw [he] at hpnone
        exact Option.noConfusion hpnone
      · have hpne : p ≠ [] := by
          intro h0
          rw [h0] at hrp
          exact hcr.1 (List.prefix_nil.1 hrp)
        have hdd := WF_prefix_dir st.fs hInv.1 k e he p hpk hpne (fun h => hkp h.symm)
        unfold isDirAt at hdd
        rw [hpnone] at hdd
        simp at hdd
    | some pr =>
      obtain ⟨ds, fls⟩ := pr
      have hda : isDirAt st.fs p = true := by
        cases hda2 : isDirAt st.fs p
        · unfold listDir at hld
          rw [hda2] at hld
          simp at hld
        · rfl
      have h1 := listDir_eq_some st.fs p hda
      rw [hld] at h1
      injection h1 with h2
      injection h2 with h3 h4
      subst h3
      subst h4
      obtain ⟨rrel, rfl⟩ : ∃ rr, p = replica ++ rr :=
        ⟨p.drop replica.length, (source_append_drop replica p hrp).symm⟩
      have hrg : ∀ x ∈ rrel, goodName x := fun x hx =>
        hpg x (List.mem_append.2 (Or.inr hx))
      have hrel := relpathDot_node replica rrel
      have hsrcdir : isDirAt st.fs source = true := by
        unfold isDirAt
        rw [hInv.2 source (List.prefix_refl source), hls]
      have hscn : ∀ n ∈ source, n ≠ "." := fun n hn => (hcs.2 n hn).1
      have hpexD : pyExists st.fs (source ++ dotArgOf rrel) =
          (lookupFS st.fs (source ++ rrel)).isSome := by
        have h5 := pyExists_under_root st.fs source hscn hsrcdir rrel (dotArgOf rrel)
          (NodeShape_dotArgOf rrel) hrg [] (by intro x hx; simp at hx)
        simp only [List.append_nil] at h5
        exact h5
      have hsagD : lookupFS st.fs (source ++ rrel) = lookupFS fs0 (source ++ rrel) :=
        hInv.2 _ (List.prefix_append source rrel)
      have hdlive : lookupFS st.fs (replica ++ rrel) = some Entry.dir := by
        unfold isDirAt at hda
        cases hl5 : lookupFS st.fs (replica ++ rrel) with
        | none => rw [hl5] at hda; simp at hda
        | some e5 =>
          cases e5 with
          | dir => rfl
          | file c5 r5 => rw [hl5] at hda; simp at hda
      rw [walkR_succ_some source replica n st (replica ++ rrel)
        (subdirNames st.fs (replica ++ rrel)) (fileNamesAt st.fs (replica ++ rrel))
        herr hld]
      rw [hrel]
      have hdmem : ∀ d ∈ subdirNames st.fs (replica ++ rrel), goodName d ∧
          lookupFS st.fs (replica ++ rrel ++ [d]) = some Entry.dir := by
        intro d hd
        have hmemd := (mem_subdirNames st.fs (replica ++ rrel) d).1 hd
        have hl2 := lookupFS_eq_some_of_mem st.fs _ _ hInv.1.1 hmemd
        exact ⟨WF_good_names st.fs hInv.1 _ _ hl2 d
          (List.mem_append.2 (Or.inr (List.mem_singleton_self d))), hl2⟩
      have hfold : ∀ (ds' : List Name),
          (∀ d ∈ ds', goodName d ∧
            lookupFS st.fs (replica ++ rrel ++ [d]) = some Entry.dir) →
          ∀ (s : St), s.err = none → RInv fs0 source s →
          (∀ q, lookupFS s.fs q = lookupFS st.fs q ∨ lookupFS s.fs q = none) →
          maxKeyLen s.fs ≤ maxKeyLen st.fs →
          RInv fs0 source (ds'.foldl (fun s d =>
            walkR source replica n s (replica ++ rrel ++ [d])) s) ∧
          (∀ q, lookupFS (ds'.foldl (fun s d =>
              walkR source replica n s (replica ++ rrel ++ [d])) s).fs q =
              lookupFS s.fs q ∨
            lookupFS (ds'.foldl (fun s d =>
              walkR source replica n s (replica ++ rrel ++ [d])) s).fs q = none) ∧
          (∀ m, RProtected fs0 source replica m →
            lookupFS (ds'.foldl (fun s d =>
              walkR source replica n s (replica ++ rrel ++ [d])) s).fs m =
              lookupFS s.fs m) ∧
          (∀ d ∈ ds', ∀ k, (replica ++ rrel ++ [d]).IsPrefix k →
            (lookupFS (ds'.foldl (fun s d =>
              walkR source replica n s (replica ++ rrel ++ [d])) s).fs k).isSome = true →
            (lookupFS fs0 (source ++ k.drop replica.length)).isSome = true) := by
        intro ds'
        induction ds' with
        | nil =>
          intro _ s hse hIs _ _
          refine ⟨hIs, fun q => Or.inl rfl, fun m _ => rfl, ?_⟩
          intro d hd
          simp at hd
        | cons d rest ihd =>
          intro hds' s hse hIs hDel hmax
          rw [List.foldl_cons]
          obtain ⟨hdg, hdk⟩ := hds' d (List.mem_cons_self d rest)
          have hpd1 : lookupFS s.fs (replica ++ rrel ++ [d]) = some Entry.dir ∨
              lookupFS s.fs (replica ++ rrel ++ [d]) = none := by
            rcases hDel (replica ++ rrel ++ [d]) with h5 | h5
            · rw [h5, hdk]
              exact Or.inl rfl
            · exact Or.inr h5
          have hlen1 : (replica ++ rrel ++ [d]).length = (replica ++ rrel).length + 1 := by
            rw [List.length_append (replica ++ rrel) [d]]
            rfl
          have hbound1 : maxKeyLen s.fs < n + (replica ++ rrel ++ [d]).length := by
            omega
          have hg1 : ∀ x ∈ replica ++ rrel ++ [d], goodName x := by
            intro x hx
            rcases List.mem_append.1 hx with h5 | h5
            · exact hpg x h5
            · rw [List.mem_singleton] at h5
              rw [h5]
              exact hdg
          have hrp1 : replica.IsPrefix (replica ++ rrel ++ [d]) :=
            ⟨rrel ++ [d], (List.append_assoc replica rrel [d]).symm⟩
          have hchild := ih (replica ++ rrel ++ [d]) s hse hIs hrp1 hg1 hpd1 hbound1
          have hse1 : (walkR source replica n s (replica ++ rrel ++ [d])).err = none := by
            rw [walkR_err_eq]
            exact hse
          have hDel1 : ∀ q, lookupFS
              (walkR source replica n s (replica ++ rrel ++ [d])).fs q =
              lookupFS s.fs q ∨
              lookupFS (walkR source replica n s (replica ++ rrel ++ [d])).fs q = none :=
            fun q => walkR_shrink source replica n (replica ++ rrel ++ [d]) s q
          have hDel01 : ∀ q, lookupFS
              (walkR source replica n s (replica ++ rrel ++ [d])).fs q =
              lookupFS st.fs q ∨
              lookupFS (walkR source replica n s (replica ++ rrel ++ [d])).fs q = none := by
            intro q
            rcases hDel1 q with h5 | h5
            · rw [h5]
              exact hDel q
            · exact Or.inr h5
          have hmax1 : maxKeyLen
              (walkR source replica n s (replica ++ rrel ++ [d])).fs ≤
              maxKeyLen st.fs :=
            le_trans (maxKeyLen_le_of_lookup _ _ hchild.1.1.1 hDel1) hmax
          have hrest := ihd (fun x hx => hds' x (List.mem_cons_of_mem d hx))
            (walkR source replica n s (replica ++ rrel ++ [d])) hse1 hchild.1
            hDel01 hmax1
          refine ⟨hrest.1, ?_, ?_, ?_⟩
          · intro q
            rcases hrest.2.1 q with h5 | h5
            · rw [h5]
              exact hDel1 q
            · exact Or.inr h5
          · intro m hpm
            rw [hrest.2.2.1 m hpm]
            exact hchild.2.1 m hpm
          · intro x hx k hkpre hkfin
            rcases List.mem_cons.1 hx with hxd | hxr
            · subst hxd
              have hs1 : (lookupFS
                  (walkR source replica n s (replica ++ rrel ++ [x])).fs k).isSome
                  = true := by
                rcases hrest.2.1 k with h5 | h5
                · rw [← h5]
                  exact hkfin
                · rw [h5] at hkfin
                  simp at hkfin
              exact hchild.2.2 k hkpre hs1
            · exact hrest.2.2.2 x hxr k hkpre hkfin
      by_cases hpex : (lookupFS st.fs (source ++ rrel)).isSome = true
      · rw [if_pos (show pyExists st.fs (source ++ dotArgOf rrel) = true by
          rw [hpexD]; exact hpex)]
        have hflsP : ∀ f ∈ fileNamesAt st.fs (replica ++ rrel), goodName f ∧
            (lookupFS st.fs (replica ++ rrel ++ [f]) = none ∨
              ∃ c r, lookupFS st.fs (replica ++ rrel ++ [f]) = some (Entry.file c r)) := by
          intro f hf
          obtain ⟨c, r, hmemf⟩ := (mem_fileNamesAt st.fs (replica ++ rrel) f).1 hf
          have hl2 := lookupFS_eq_some_of_mem st.fs _ _ hInv.1.1 hmemf
          exact ⟨WF_good_names st.fs hInv.1 _ _ hl2 f
            (List.mem_append.2 (Or.inr (List.mem_singleton_self f))),
            Or.inr ⟨c, r, hl2⟩⟩
        have hffold := filesFoldR_post fs0 source replica hdisj hcs hls rrel
          (dotArgOf rrel) (NodeShape_dotArgOf rrel) hrg
          (fileNamesAt st.fs (replica ++ rrel)) st herr hInv hflsP
        have happ := hfold (subdirNames st.fs (replica ++ rrel)) hdmem
          ((fileNamesAt st.fs (replica ++ rrel)).foldl (fun s f =>
            processReplicaFile s (replica ++ rrel) (source ++ dotArgOf rrel) f) st)
          hffold.2.2.2.1 hffold.1 hffold.2.1
          (maxKeyLen_le_of_lookup _ _ hffold.1.1.1 hffold.2.1)
        refine ⟨happ.1, ?_, ?_⟩
        · intro m hpm
          rw [happ.2.2.1 m hpm]
          exact hffold.2.2.1 m hpm
        · intro k hkpre hkfin
          have hkst : (lookupFS st.fs k).isSome = true := by
            rcases happ.2.1 k with h5 | h5
            · rcases hffold.2.1 k with h6 | h6
              · rw [← h6, ← h5]
                exact hkfin
              · rw [h5, h6] at hkfin
                simp at hkfin
            · rw [h5] at hkfin
              simp at hkfin
          have hkeq : replica ++ rrel ++ k.drop (replica ++ rrel).length = k :=
            source_append_drop (replica ++ rrel) k hkpre
          cases hkdrop : k.drop (replica ++ rrel).length with
          | nil =>
            rw [hkdrop, List.append_nil] at hkeq
            subst hkeq
            have hdropk : (replica ++ rrel).drop replica.length = rrel :=
              List.drop_left replica rrel
            rw [hdropk]
            rw [← hsagD]
            exact hpex
          | cons x t =>
            rw [hkdrop] at hkeq
            have hxp : (replica ++ rrel ++ [x]).IsPrefix k :=
              ⟨t, by rw [List.append_assoc (replica ++ rrel) [x] t]; exact hkeq⟩
            obtain ⟨e, he⟩ := Option.isSome_iff_exists.1 hkst
            by_cases hkc : replica ++ rrel ++ [x] = k
            · cases e with
              | dir =>
                have hxm : x ∈ subdirNames st.fs (replica ++ rrel) := by
                  refine (mem_subdirNames st.fs (replica ++ rrel) x).2 ?_
                  refine mem_of_lookupFS_eq_some st.fs _ _ ?_
                  rw [hkc]
                  exact he
                exact happ.2.2.2 x hxm k hxp hkfin
              | file c r =>
                have hxm : x ∈ fileNamesAt st.fs (replica ++ rrel) := by
                  refine (mem_fileNamesAt st.fs (replica ++ rrel) x).2 ⟨c, r, ?_⟩
                  refine mem_of_lookupFS_eq_some st.fs _ _ ?_
                  rw [hkc]
                  exact he
                rcases hffold.2.2.2.2 x hxm with h5 | h5
                · exfalso
                  rcases happ.2.1 (replica ++ rrel ++ [x]) with h6 | h6
                  · rw [h5] at h6
                    rw [hkc] at h6
                    rw [h6] at hkfin
                    simp at hkfin
                  · rw [hkc] at h6
                    rw [h6] at hkfin
                    simp at hkfin
                · have hdropk : k.drop replica.length = rrel ++ [x] := by
                    rw [← hkc, List.append_assoc]
                    exact List.drop_left replica (rrel ++ [x])
                  rw [hdropk, ← List.append_assoc]
                  exact h5
            · have hdd : isDirAt st.fs (replica ++ rrel ++ [x]) = true :=
                WF_prefix_dir st.fs hInv.1 k e he _ hxp (by simp) hkc
              have hdd2 : lookupFS st.fs (replica ++ rrel ++ [x]) = some Entry.dir := by
                unfold isDirAt at hdd
                cases hl2 : lookupFS st.fs (replica ++ rrel ++ [x]) with
                | none => rw [hl2] at hdd; simp at hdd
                | some e2 =>
                  cases e2 with
                  | dir => rfl
                  | file c2 r2 => rw [hl2] at hdd; simp at hdd
              have hxm : x ∈ subdirNames st.fs (replica ++ rrel) :=
                (mem_subdirNames st.fs (replica ++ rrel) x).2
                  (mem_of_lookupFS_eq_some st.fs _ _ hdd2)
              exact happ.2.2.2 x hxm k hxp hkfin
      · rw [if_neg (show ¬ pyExists st.fs (source ++ dotArgOf rrel) = true by
          rw [hpexD]; exact hpex)]
        have hWF2 : WFfs (eraseTree st.fs (replica ++ rrel)) :=
          WF_eraseTree st.fs (replica ++ rrel) hInv.1
        have hSrc2 : ∀ k, source.IsPrefix k →
            lookupFS (eraseTree st.fs (replica ++ rrel)) k = lookupFS fs0 k := by
          intro k hskp
          rw [lookup_eraseTree]
          have hnp : ¬ (replica ++ rrel).IsPrefix k := by
            intro hcon
            rcases List.prefix_or_prefix_of_prefix hskp hcon with h5 | h5
            · rcases List.prefix_or_prefix_of_prefix h5
                (List.prefix_append replica rrel) with h6 | h6
              · exact hdisj.1 h6
              · exact hdisj.2 h6
            · exact hdisj.2 ((List.prefix_append replica rrel).trans h5)
          rw [if_neg hnp]
          exact hInv.2 k hskp
        have hInv2 : RInv fs0 source
            { st with fs := eraseTree st.fs (replica ++ rrel),
                      events := st.events ++ [Event.dirRemoved (replica ++ rrel)] } :=
          ⟨hWF2, hSrc2⟩
        have hDel2 : ∀ q, lookupFS (eraseTree st.fs (replica ++ rrel)) q =
            lookupFS st.fs q ∨
            lookupFS (eraseTree st.fs (replica ++ rrel)) q = none := by
          intro q
          rw [lookup_eraseTree]
          by_cases hq : (replica ++ rrel).IsPrefix q
          · rw [if_pos hq]
            exact Or.inr rfl
          · rw [if_neg hq]
            exact Or.inl rfl
        have hProt2 : ∀ m, RProtected fs0 source replica m →
            lookupFS (eraseTree st.fs (replica ++ rrel)) m = lookupFS st.fs m := by
          intro m hpm
          rw [lookup_eraseTree]
          have hnp : ¬ (replica ++ rrel).IsPrefix m := by
            intro hcon
            obtain ⟨t, rfl⟩ : ∃ t, m = replica ++ rrel ++ t :=
              ⟨m.drop (replica ++ rrel).length,
                (source_append_drop (replica ++ rrel) m hcon).symm⟩
            have hdropm : (replica ++ rrel ++ t).drop replica.length = rrel ++ t := by
              rw [List.append_assoc]
              exact List.drop_left replica (rrel ++ t)
            have h2 : (lookupFS fs0
                (source ++ (replica ++ rrel ++ t).drop replica.length)).isSome = true :=
              hpm.2
            rw [hdropm] at h2
            cases t with
            | nil =>
              rw [List.append_nil] at h2
              rw [← hsagD] at h2
              exact hpex h2
            | cons y ys =>
              obtain ⟨e2, he2⟩ := Option.isSome_iff_exists.1 h2
              have hq : (source ++ rrel).IsPrefix (source ++ (rrel ++ y :: ys)) := by
                refine ⟨y :: ys, ?_⟩
                rw [List.append_assoc]
              have hqne : source ++ rrel ≠ source ++ (rrel ++ y :: ys) := by
                intro hcon2
                have := congrArg List.length hcon2
                simp at this
              have hdd : isDirAt fs0 (source ++ rrel) = true :=
                WF_prefix_dir fs0 hWF0 _ e2 he2 (source ++ rrel) hq
                  (by
                    intro h0
                    have h9 := congrArg List.length h0
                    simp at h9
                    exact hcs.1 h9.1)
                  hqne
              have hds2 := isSome_of_isDirAt fs0 (source ++ rrel) hdd
              rw [← hsagD] at hds2
              exact hpex hds2
          rw [if_neg hnp]
        have happ := hfold (subdirNames st.fs (replica ++ rrel)) hdmem
          { st with fs := eraseTree st.fs (replica ++ rrel),
                    events := st.events ++ [Event.dirRemoved (replica ++ rrel)] }
          herr hInv2 hDel2
          (maxKeyLen_le_of_lookup _ _ hWF2.1 hDel2)
        refine ⟨happ.1, ?_, ?_⟩
        · intro m hpm
          rw [happ.2.2.1 m hpm]
          exact hProt2 m hpm
        · intro k hkpre hkfin
          exfalso
          have hkst2 : (lookupFS (eraseTree st.fs (replica ++ rrel)) k).isSome
              = true := by
            rcases happ.2.1 k with h5 | h5
            · rw [← h5]
              exact hkfin
            · rw [h5] at hkfin
              simp at hkfin
          rw [lookup_eraseTree, if_pos hkpre] at hkst2
          simp at hkst2

/-! ### Sync-level assembly -/

theorem sync_post (fs0 : FS) (source replica : Path) (hctx : Ctx fs0 source replica)
    (herr : (sync_folders source replica (st0 fs0)).err = none) :
    WFfs (sync_folders source replica (st0 fs0)).fs ∧
    (∀ k, source.IsPrefix k →
      lookupFS (sync_folders source replica (st0 fs0)).fs k = lookupFS fs0 k) ∧
    (∀ k e, lookupFS fs0 k = some e → source.IsPrefix k →
      Mirrored fs0 source replica (sync_folders source replica (st0 fs0)).fs k) ∧
    (∀ k, replica.IsPrefix k →
      (lookupFS (sync_folders source replica (st0 fs0)).fs k).isSome = true →
      (lookupFS fs0 (source ++ k.drop replica.length)).isSome = true) ∧
    WriteOK fs0 source replica fs0
      (walkF source replica (fs0.length + 1) (st0 fs0) source).fs ∧
    (∀ m, RProtected fs0 source replica m →
      lookupFS (sync_folders source replica (st0 fs0)).fs m =
        lookupFS (walkF source replica (fs0.length + 1) (st0 fs0) source).fs m) ∧
    isDirAt (sync_folders source replica (st0 fs0)).fs replica = true := by
  obtain ⟨hWF0, hdisj, hcs, hcr, hls, hlr⟩ := hctx
  have hctx2 : Ctx fs0 source replica := ⟨hWF0, hdisj, hcs, hcr, hls, hlr⟩
  have hsync : sync_folders source replica (st0 fs0) =
      walkR source replica
        ((walkF source replica (fs0.length + 1) (st0 fs0) source).fs.length + 1)
        (walkF source replica (fs0.length + 1) (st0 fs0) source) replica := rfl
  have hInv0 : FInv fs0 source replica (st0 fs0) := by
    refine ⟨hWF0, fun k _ => rfl, ?_⟩
    intro q hq hq0
    by_cases hqr : q = replica
    · subst hqr
      show isDirAt fs0 q = true
      unfold isDirAt
      rw [hlr]
    · exact WF_prefix_dir fs0 hWF0 replica Entry.dir hlr q hq hq0 hqr
  have hbF : maxKeyLen fs0 < (fs0.length + 1) + source.length := by
    have h1 := WF_maxKeyLen_le fs0 hWF0
    omega
  have hF := walkF_main fs0 source replica hctx2 (fs0.length + 1) source (st0 fs0)
    hInv0 (List.prefix_refl source) hcs.2 hls hbF
  have herrF : (walkF source replica (fs0.length + 1) (st0 fs0) source).err = none := by
    rw [hsync] at herr
    rw [walkR_err_eq] at herr
    exact herr
  have hMir := hF.2.2 herrF
  have hRInv : RInv fs0 source (walkF source replica (fs0.length + 1) (st0 fs0) source) :=
    ⟨hF.1.1, hF.1.2.1⟩
  have hrdirF : isDirAt (walkF source replica (fs0.length + 1) (st0 fs0) source).fs
      replica = true :=
    hF.1.2.2 replica (List.prefix_refl replica) hcr.1
  have hpdR : lookupFS (walkF source replica (fs0.length + 1) (st0 fs0) source).fs
        replica = some Entry.dir ∨
      lookupFS (walkF source replica (fs0.length + 1) (st0 fs0) source).fs replica
        = none := by
    refine Or.inl ?_
    unfold isDirAt at hrdirF
    cases hl5 : lookupFS (walkF source replica (fs0.length + 1) (st0 fs0) source).fs
        replica with
    | none => rw [hl5] at hrdirF; simp at hrdirF
    | some e5 =>
      cases e5 with
      | dir => rfl
      | file c5 r5 => rw [hl5] at hrdirF; simp at hrdirF
  have hbR : maxKeyLen (walkF source replica (fs0.length + 1) (st0 fs0) source).fs <
      ((walkF source replica (fs0.length + 1) (st0 fs0) source).fs.length + 1) +
        replica.length := by
    have h1 := WF_maxKeyLen_le _ hF.1.1
    omega
  have hR := walkR_main fs0 source replica hdisj hcs hcr hls hWF0
    ((walkF source replica (fs0.length + 1) (st0 fs0) source).fs.length + 1)
    replica (walkF source replica (fs0.length + 1) (st0 fs0) source)
    herrF hRInv (List.prefix_refl replica) hcr.2 hpdR hbR
  rw [hsync]
  have hprotrep : RProtected fs0 source replica replica := by
    refine ⟨List.prefix_refl replica, ?_⟩
    rw [List.drop_length, List.append_nil, hls]
    rfl
  refine ⟨hR.1.1, hR.1.2, ?_, hR.2.2, hF.2.1, hR.2.1, ?_⟩
  · intro k e hk hskp
    have hM := hMir k e hk hskp
    have hprot : RProtected fs0 source replica (mirrorKey source replica k) := by
      refine ⟨List.prefix_append replica _, ?_⟩
      rw [mirrorKey_source source replica k hskp, hk]
      rfl
    have hfr := hR.2.1 _ hprot
    unfold Mirrored at hM ⊢
    cases hk2 : lookupFS fs0 k with
    | none => trivial
    | some e2 =>
      cases e2 with
      | dir =>
        simp only [hk2] at hM ⊢
        rw [hfr]
        exact hM
      | file c r =>
        simp only [hk2] at hM ⊢
        rw [hfr]
        exact hM
  · unfold isDirAt
    rw [hR.2.1 replica hprotrep]
    unfold isDirAt at hrdirF
    exact hrdirF

theorem foldl_fix_mem {α : Type} (f : St → α → St) (s : St) :
    ∀ l : List α, (∀ x ∈ l, f s x = s) → l.foldl f s = s := by
  intro l
  induction l with
  | nil => intro _; rfl
  | cons x xs ih =>
    intro h
    rw [List.foldl_cons, h x (List.mem_cons_self x xs), ih
      (fun y hy => h y (List.mem_cons_of_mem x hy))]

theorem walkF_noop (source replica : Path) (hcs : cleanPath source)
    (hcr : cleanPath replica) :
    ∀ (fuel : Nat) (p : Path) (st : St),
      WFfs st.fs → Stable st.fs source replica →
      isDirAt st.fs replica = true →
      source.IsPrefix p → (∀ n ∈ p, goodName n) →
      walkF source replica fuel st p = st := by
  intro fuel
  induction fuel with
  | zero => intro p st _ _ _ _ _; rfl
  | succ n ih =>
    intro p st hWF hstab hrdir hsp hpg
    cases herr : st.err with
    | some e => exact walkF_of_err source replica (n + 1) st p (by rw [herr]; rfl)
    | none =>
      cases hld : listDir st.fs p with
      | none => exact walkF_stop source replica (n + 1) st p hld
      | some pr =>
        obtain ⟨ds, fls⟩ := pr
        have hda : isDirAt st.fs p = true := by
          cases hda2 : isDirAt st.fs p
          · unfold listDir at hld
            rw [hda2] at hld
            simp at hld
          · rfl
        have h1 := listDir_eq_some st.fs p hda
        rw [hld] at h1
        injection h1 with h2
        injection h2 with h3 h4
        subst h3
        subst h4
        obtain ⟨rrel, rfl⟩ : ∃ rr, p = source ++ rr :=
          ⟨p.drop source.length, (source_append_drop source p hsp).symm⟩
        have hrg : ∀ x ∈ rrel, goodName x := fun x hx =>
          hpg x (List.mem_append.2 (Or.inr hx))
        have hrcn : ∀ x ∈ replica, x ≠ "." := fun x hx => (hcr.2 x hx).1
        have hpdir : lookupFS st.fs (source ++ rrel) = some Entry.dir := by
          unfold isDirAt at hda
          cases hl5 : lookupFS st.fs (source ++ rrel) with
          | none => rw [hl5] at hda; simp at hda
          | some e5 =>
            cases e5 with
            | dir => rfl
            | file c5 r5 => rw [hl5] at hda; simp at hda
        rw [walkF_succ_some source replica n st (source ++ rrel)
          (subdirNames st.fs (source ++ rrel)) (fileNamesAt st.fs (source ++ rrel))
          herr hld]
        have hrel := relpathDot_node source rrel
        have hEx : pyExists st.fs (replica ++ dotArgOf rrel) =
            (lookupFS st.fs (replica ++ rrel)).isSome := by
          have h5 := pyExists_under_root st.fs replica hrcn hrdir rrel (dotArgOf rrel)
            (NodeShape_dotArgOf rrel) hrg [] (by intro x hx; simp at hx)
          simp only [List.append_nil] at h5
          exact h5
        have hmirp : (lookupFS st.fs (replica ++ rrel)).isSome = true := by
          have h5 := hstab.1 (source ++ rrel) hsp hpdir
          rw [mirrorKey_append] at h5
          exact h5
        have hdirres : processSourceDir source replica st (source ++ rrel)
            (fileNamesAt st.fs (source ++ rrel)) =
            (fileNamesAt st.fs (source ++ rrel)).foldl (fun s f =>
              processSourceFile s (source ++ rrel) (replica ++ dotArgOf rrel) f) st := by
          unfold processSourceDir
          simp [herr, hrel, hEx, hmirp]
        rw [hdirres]
        have hfix1 : (fileNamesAt st.fs (source ++ rrel)).foldl (fun s f =>
            processSourceFile s (source ++ rrel) (replica ++ dotArgOf rrel) f) st
            = st := by
          refine foldl_fix_mem _ st (fileNamesAt st.fs (source ++ rrel)) ?_
          intro f hf
          obtain ⟨c, r, hmemf⟩ := (mem_fileNamesAt st.fs (source ++ rrel) f).1 hf
          have hlf := lookupFS_eq_some_of_mem st.fs _ _ hWF.1 hmemf
          have hfg : goodName f := WF_good_names st.fs hWF _ _ hlf f
            (List.mem_append.2 (Or.inr (List.mem_singleton_self f)))
          have hfg1 : ∀ x ∈ [f], goodName x := by
            intro x hx
            rw [List.mem_singleton] at hx
            rw [hx]
            exact hfg
          have hspf : source.IsPrefix (source ++ rrel ++ [f]) :=
            ⟨rrel ++ [f], (List.append_assoc source rrel [f]).symm⟩
          have hst2 := hstab.2.1 (source ++ rrel ++ [f]) c r hspf hlf
          have hmk : mirrorKey source replica (source ++ rrel ++ [f]) =
              replica ++ rrel ++ [f] := mirrorKey_under source replica rrel f
          rw [hmk] at hst2
          have hExf : pyExists st.fs (replica ++ (dotArgOf rrel ++ [f])) =
              (lookupFS st.fs (replica ++ (rrel ++ [f]))).isSome := by
            rw [← List.append_assoc, ← List.append_assoc replica rrel [f]]
            exact pyExists_under_root st.fs replica hrcn hrdir rrel (dotArgOf rrel)
              (NodeShape_dotArgOf rrel) hrg [f] hfg1
          have hmirf : (lookupFS st.fs (replica ++ (rrel ++ [f]))).isSome = true := by
            rw [← List.append_assoc, hst2.2]
            rfl
          have hResS : resolve st.fs (source ++ (rrel ++ [f])) =
              some (source ++ rrel ++ [f]) := by
            rw [← List.append_assoc]
            refine resolve_clean st.fs _ ?_
            intro x hx
            rcases List.mem_append.1 hx with h5 | h5
            · rcases List.mem_append.1 h5 with h6 | h6
              · exact (hcs.2 x h6).1
              · exact (hrg x h6).1
            · rw [List.mem_singleton] at h5
              rw [h5]
              exact hfg.1
          have hResR : resolve st.fs (replica ++ (dotArgOf rrel ++ [f])) =
              some (replica ++ rrel ++ [f]) := by
            rw [← List.append_assoc]
            exact resolve_under_root st.fs replica hrcn hrdir rrel (dotArgOf rrel)
              (NodeShape_dotArgOf rrel) hrg [f] hfg1
          have hlf2 : lookupFS st.fs (source ++ rrel ++ [f]) =
              some (Entry.file c true) := by
            rw [hlf, hst2.1]
          have hmd5s : calculate_md5 st.fs (source ++ (rrel ++ [f])) = Except.ok c := by
            simp only [calculate_md5, hResS, hlf2]
          have hmd5r : calculate_md5 st.fs (replica ++ (dotArgOf rrel ++ [f])) =
              Except.ok c := by
            simp only [calculate_md5, hResR, hst2.2]
          unfold processSourceFile
          simp [herr, hExf, hmirf, hmd5s, hmd5r]
        rw [hfix1]
        refine foldl_fix_mem _ st (subdirNames st.fs (source ++ rrel)) ?_
        intro d hd
        have hmemd := (mem_subdirNames st.fs (source ++ rrel) d).1 hd
        have hld2 := lookupFS_eq_some_of_mem st.fs _ _ hWF.1 hmemd
        have hdg : goodName d := WF_good_names st.fs hWF _ _ hld2 d
          (List.mem_append.2 (Or.inr (List.mem_singleton_self d)))
        refine ih (source ++ rrel ++ [d]) st hWF hstab hrdir
          ⟨rrel ++ [d], (List.append_assoc source rrel [d]).symm⟩ ?_
        intro x hx
        rcases List.mem_append.1 hx with h5 | h5
        · exact hpg x h5
        · rw [List.mem_singleton] at h5
          rw [h5]
          exact hdg

theorem walkR_noop (source replica : Path) (hcs : cleanPath source) :
    ∀ (fuel : Nat) (p : Path) (st : St),
      WFfs st.fs → Stable st.fs source replica →
      isDirAt st.fs source = true →
      replica.IsPrefix p → (∀ n ∈ p, goodName n) →
      walkR source replica fuel st p = st := by
  intro fuel
  induction fuel with
  | zero => intro p st _ _ _ _ _; rfl
  | succ n ih =>
    intro p st hWF hstab hsdir hrp hpg
    cases herr : st.err with
    | some e => exact walkR_of_err source replica (n + 1) st p (by rw [herr]; rfl)
    | none =>
      cases hld : listDir st.fs p with
      | none => exact walkR_stop source replica (n + 1) st p hld
      | some pr =>
        obtain ⟨ds, fls⟩ := pr
        have hda : isDirAt st.fs p = true := by
          cases hda2 : isDirAt st.fs p
          · unfold listDir at hld
            rw [hda2] at hld
            simp at hld
          · rfl
        have h1 := listDir_eq_some st.fs p hda
        rw [hld] at h1
        injection h1 with h2
        injection h2 with h3 h4
        subst h3
        subst h4
        obtain ⟨rrel, rfl⟩ : ∃ rr, p = replica ++ rr :=
          ⟨p.drop replica.length, (source_append_drop replica p hrp).symm⟩
        have hrg : ∀ x ∈ rrel, goodName x := fun x hx =>
          hpg x (List.mem_append.2 (Or.inr hx))
        have hscn : ∀ x ∈ source, x ≠ "." := fun x hx => (hcs.2 x hx).1
        have hpsome : (lookupFS st.fs (replica ++ rrel)).isSome = true :=
          isSome_of_isDirAt st.fs (replica ++ rrel) hda
        have hdropp : (replica ++ rrel).drop replica.length = rrel :=
          List.drop_left replica rrel
        rw [walkR_succ_some source replica n st (replica ++ rrel)
          (subdirNames st.fs (replica ++ rrel)) (fileNamesAt st.fs (replica ++ rrel))
          herr hld]
        rw [relpathDot_node replica rrel]
        have hEx : pyExists st.fs (source ++ dotArgOf rrel) =
            (lookupFS st.fs (source ++ rrel)).isSome := by
          have h5 := pyExists_under_root st.fs source hscn hsdir rrel (dotArgOf rrel)
            (NodeShape_dotArgOf rrel) hrg [] (by intro x hx; simp at hx)
          simp only [List.append_nil] at h5
          exact h5
        have hsrcp : (lookupFS st.fs (source ++ rrel)).isSome = true := by
          have h5 := hstab.2.2 (replica ++ rrel) hrp hpsome
          rw [hdropp] at h5
          exact h5
        rw [if_pos (show pyExists st.fs (source ++ dotArgOf rrel) = true by
          rw [hEx]; exact hsrcp)]
        have hfix1 : (fileNamesAt st.fs (replica ++ rrel)).foldl (fun s f =>
            processReplicaFile s (replica ++ rrel) (source ++ dotArgOf rrel) f) st
            = st := by
          refine foldl_fix_mem _ st (fileNamesAt st.fs (replica ++ rrel)) ?_
          intro f hf
          obtain ⟨c, r, hmemf⟩ := (mem_fileNamesAt st.fs (replica ++ rrel) f).1 hf
          have hlf := lookupFS_eq_some_of_mem st.fs _ _ hWF.1 hmemf
          have hfg : goodName f := WF_good_names st.fs hWF _ _ hlf f
            (List.mem_append.2 (Or.inr (List.mem_singleton_self f)))
          have hfg1 : ∀ x ∈ [f], goodName x := by
            intro x hx
            rw [List.mem_singleton] at hx
            rw [hx]
            exact hfg
          have hrpf : replica.IsPrefix (replica ++ rrel ++ [f]) :=
            ⟨rrel ++ [f], (List.append_assoc replica rrel [f]).symm⟩
          have hdropf : (replica ++ rrel ++ [f]).drop replica.length = rrel ++ [f] := by
            rw [List.append_assoc]
            exact List.drop_left replica (rrel ++ [f])
          have hfsome : (lookupFS st.fs (replica ++ rrel ++ [f])).isSome = true := by
            rw [hlf]
            rfl
          have h5 := hstab.2.2 (replica ++ rrel ++ [f]) hrpf hfsome
          rw [hdropf] at h5
          have hExf : pyExists st.fs (source ++ (dotArgOf rrel ++ [f])) =
              (lookupFS st.fs (source ++ (rrel ++ [f]))).isSome := by
            rw [← List.append_assoc, ← List.append_assoc source rrel [f]]
            exact pyExists_under_root st.fs source hscn hsdir rrel (dotArgOf rrel)
              (NodeShape_dotArgOf rrel) hrg [f] hfg1
          have hsome2 : (lookupFS st.fs (source ++ (rrel ++ [f]))).isSome = true := h5
          unfold processReplicaFile
          simp [herr, hExf, hsome2]
        rw [hfix1]
        refine foldl_fix_mem _ st (subdirNames st.fs (replica ++ rrel)) ?_
        intro d hd
        have hmemd := (mem_subdirNames st.fs (replica ++ rrel) d).1 hd
        have hld2 := lookupFS_eq_some_of_mem st.fs _ _ hWF.1 hmemd
        have hdg : goodName d := WF_good_names st.fs hWF _ _ hld2 d
          (List.mem_append.2 (Or.inr (List.mem_singleton_self d)))
        refine ih (replica ++ rrel ++ [d]) st hWF hstab hsdir
          ⟨rrel ++ [d], (List.append_assoc replica rrel [d]).symm⟩ ?_
        intro x hx
        rcases List.mem_append.1 hx with h5 | h5
        · exact hpg x h5
        · rw [List.mem_singleton] at h5
          rw [h5]
          exact hdg

theorem sync_stable (fs0 : FS) (source replica : Path) (hctx : Ctx fs0 source replica)
    (herr : (sync_folders source replica (st0 fs0)).err = none) :
    Stable (sync_folders source replica (st0 fs0)).fs source replica := by
  have hP := sync_post fs0 source replica hctx herr
  refine ⟨?_, ?_, ?_⟩
  · intro k hskp hdirk
    rw [hP.2.1 k hskp] at hdirk
    have hM := hP.2.2.1 k Entry.dir hdirk hskp
    unfold Mirrored at hM
    simp only [hdirk] at hM
    exact hM
  · intro k c r hskp hfk
    rw [hP.2.1 k hskp] at hfk
    have hM := hP.2.2.1 k (Entry.file c r) hfk hskp
    unfold Mirrored at hM
    simp only [hfk] at hM
    exact hM
  · intro k hrpk hks
    have h5 := hP.2.2.2.1 k hrpk hks
    rw [← hP.2.1 _ (List.prefix_append source (k.drop replica.length))] at h5
    exact h5

/-! ### Claim C1: convergence -/

/-- C1 counterexample: on a well-formed pair of trees where the empty
source directory s/d faces a regular file r/d on the replica side,
sync_folders completes without error and yet the source-to-replica
direction of the convergence post-condition fails: r/d is still a file,
not a directory. -/
theorem claim1_counterexample :
    (sync_folders ["s"] ["r"] (st0 fsConflict)).err = none ∧
    ¬ SrcToRep (sync_folders ["s"] ["r"] (st0 fsConflict)).fs ["s"] ["r"] := by
  refine ⟨by decide, ?_⟩
  intro h
  have h3 : isDirAt (sync_folders ["s"] ["r"] (st0 fsConflict)).fs
      (mirrorKey ["s"] ["r"] ["s", "d"]) = true :=
    h ["s", "d"] Entry.dir (by decide) (by decide)
  exact absurd h3 (by decide)

/-- C1 (amended): for a well-formed filesystem with clean, non-nested,
existing root directories and no source-directory/replica-file type
conflict, after a sync_folders run that completes without error every
source entry is mirrored in the replica (directories as directories,
files with byte-identical content) and every surviving replica entry has
a source counterpart (no orphans). -/
theorem claim1_amended (fs0 : FS) (source replica : Path)
    (hctx : Ctx fs0 source replica)
    (hnc : NoDirFileConflict fs0 source replica)
    (herr : (sync_folders source replica (st0 fs0)).err = none) :
    SrcToRep (sync_folders source replica (st0 fs0)).fs source replica ∧
    NoOrphans (sync_folders source replica (st0 fs0)).fs source replica := by
  have hP := sync_post fs0 source replica hctx herr
  constructor
  · intro k e hkf hskp
    rw [hP.2.1 k hskp] at hkf
    have hM := hP.2.2.1 k e hkf hskp
    have hprot : RProtected fs0 source replica (mirrorKey source replica k) := by
      refine ⟨List.prefix_append replica _, ?_⟩
      rw [mirrorKey_source source replica k hskp, hkf]
      rfl
    have hfr := hP.2.2.2.2.2.1 _ hprot
    cases e with
    | dir =>
      show isDirAt (sync_folders source replica (st0 fs0)).fs
        (mirrorKey source replica k) = true
      unfold Mirrored at hM
      simp only [hkf] at hM
      obtain ⟨e2, he2⟩ := Option.isSome_iff_exists.1 hM
      have hstF : lookupFS
          (walkF source replica (fs0.length + 1) (st0 fs0) source).fs
          (mirrorKey source replica k) = some e2 := by
        rw [← hfr]
        exact he2
      by_cases hch : lookupFS
          (walkF source replica (fs0.length + 1) (st0 fs0) source).fs
          (mirrorKey source replica k) = lookupFS fs0 (mirrorKey source replica k)
      · have hf0 : lookupFS fs0 (mirrorKey source replica k) = some e2 := by
          rw [← hch]
          exact hstF
        have hnf := hnc (k, Entry.dir) (mem_of_lookupFS_eq_some fs0 k Entry.dir hkf)
          rfl hskp
        cases e2 with
        | dir =>
          unfold isDirAt
          rw [he2]
        | file c2 r2 =>
          exfalso
          unfold isFileAt at hnf
          rw [hf0] at hnf
          simp at hnf
      · rcases hP.2.2.2.2.1 (mirrorKey source replica k) hch with
          ⟨_, _, ⟨_, hdir2⟩ | ⟨c2, r2, hb, hsrc⟩⟩
        · rw [hstF] at hdir2
          injection hdir2 with h6
          unfold isDirAt
          rw [he2, h6]
        · exfalso
          rw [mirrorKey_source source replica k hskp] at hsrc
          rw [hkf] at hsrc
          exact Entry.noConfusion (Option.some.inj hsrc)
    | file c r =>
      show ∃ rb, lookupFS (sync_folders source replica (st0 fs0)).fs
        (mirrorKey source replica k) = some (Entry.file c rb)
      unfold Mirrored at hM
      simp only [hkf] at hM
      exact ⟨true, hM.2⟩
  · intro k hks hrpk
    have h5 := hP.2.2.2.1 k hrpk hks
    rw [← hP.2.1 _ (List.prefix_append source (k.drop replica.length))] at h5
    exact h5

/-- C1 witness: on the scenario filesystem of the specification the
amended convergence theorem applies and yields both directions of the
post-condition. -/
theorem claim1_witness :
    Ctx fsScenario ["s"] ["r"] ∧ NoDirFileConflict fsScenario ["s"] ["r"] ∧
    (sync_folders ["s"] ["r"] (st0 fsScenario)).err = none ∧
    SrcToRep (sync_folders ["s"] ["r"] (st0 fsScenario)).fs ["s"] ["r"] :=
  ⟨by decide, by decide, by decide,
    (claim1_amended fsScenario ["s"] ["r"] (by decide) (by decide) (by decide)).1⟩

/-! ### Claim C4: idempotence -/

/-- C4: sync_folders is idempotent — for a well-formed filesystem with
clean, non-nested, existing root directories, when the first call
completes without error, running sync_folders again on the resulting
state is the identity; in particular the second call emits zero events
(no directory created, no file copied, no file or directory removed). -/
theorem claim4 (fs0 : FS) (source replica : Path) (hctx : Ctx fs0 source replica)
    (herr : (sync_folders source replica (st0 fs0)).err = none) :
    sync_folders source replica (sync_folders source replica (st0 fs0)) =
      sync_folders source replica (st0 fs0) ∧
    (sync_folders source replica (sync_folders source replica (st0 fs0))).events =
      (sync_folders source replica (st0 fs0)).events := by
  obtain ⟨hWF0, hdisj, hcs, hcr, hls, hlr⟩ := hctx
  have hctx2 : Ctx fs0 source replica := ⟨hWF0, hdisj, hcs, hcr, hls, hlr⟩
  have hP := sync_post fs0 source replica hctx2 herr
  have hstab := sync_stable fs0 source replica hctx2 herr
  have hWF1 : WFfs (sync_folders source replica (st0 fs0)).fs := hP.1
  have hrdir : isDirAt (sync_folders source replica (st0 fs0)).fs replica = true :=
    hP.2.2.2.2.2.2
  have hsdir : isDirAt (sync_folders source replica (st0 fs0)).fs source = true := by
    unfold isDirAt
    rw [hP.2.1 source (List.prefix_refl source), hls]
  have hF : walkF source replica
      ((sync_folders source replica (st0 fs0)).fs.length + 1)
      (sync_folders source replica (st0 fs0)) source =
      sync_folders source replica (st0 fs0) :=
    walkF_noop source replica hcs hcr _ source _ hWF1 hstab hrdir
      (List.prefix_refl source) hcs.2
  have hid : sync_folders source replica (sync_folders source replica (st0 fs0)) =
      sync_folders source replica (st0 fs0) := by
    show walkR source replica
        ((walkF source replica
            ((sync_folders source replica (st0 fs0)).fs.length + 1)
            (sync_folders source replica (st0 fs0)) source).fs.length + 1)
        (walkF source replica
          ((sync_folders source replica (st0 fs0)).fs.length + 1)
          (sync_folders source replica (st0 fs0)) source) replica =
      sync_folders source replica (st0 fs0)
    rw [hF]
    exact walkR_noop source replica hcs _ replica _ hWF1 hstab hsdir
      (List.prefix_refl replica) hcr.2
  exact ⟨hid, by rw [hid]⟩

/-- C4 witness: on the scenario filesystem of the specification the
first call completes without error and the second call changes nothing. -/
theorem claim4_witness :
    Ctx fsScenario ["s"] ["r"] ∧
    (sync_folders ["s"] ["r"] (st0 fsScenario)).err = none ∧
    sync_folders ["s"] ["r"] (sync_folders ["s"] ["r"] (st0 fsScenario)) =
      sync_folders ["s"] ["r"] (st0 fsScenario) :=
  ⟨by decide, by decide,
    (claim4 fsScenario ["s"] ["r"] (by decide) (by decide)).1⟩

end SyncSpec
